import Mathlib

/-!
# goidp: token verification and authorization decisions

A shallow embedding of the token and authorization core of the identity provider
(`controllers/jwt.go`, `controllers/utils.go`, `models/role.go`, `models/user.go`).

Conventions of the embedding

* Go strings are Lean strings (valid Unicode text, which is what every string reaching this
  code is after JSON decoding).
* A Go slice that the code compares with `nil` is an `Option (List _)`: `none` is the nil
  slice, `some xs` a non-nil slice holding `xs` (`some []` is the empty, non-nil slice).
  Slices the code only ranges over are plain lists.
* `time.Time` is an integer number of nanoseconds since the Unix epoch, `time.Duration` an
  integer number of nanoseconds; every call of `time.Now()` is an explicit clock reading.
* Code outside the repository (the JWT library `github.com/golang-jwt/jwt`, the RSA and HMAC
  primitives, the Unicode case table) is either transcribed from its documented behaviour or
  taken as a parameter (`JwtLib`, `tbl`).
-/

set_option autoImplicit false

namespace Goidp

/-! ## Go standard library: `unicode`, `strings` -/

namespace unicode

/-- Go `unicode.ToLower`: ASCII runes are handled inline, every other rune goes through the
Unicode case table, which is the parameter `tbl`. -/
def ToLower (tbl : Char → Char) (r : Char) : Char :=
  if r.toNat ≤ 127 then
    if 65 ≤ r.toNat ∧ r.toNat ≤ 90 then Char.ofNat (r.toNat + 32) else r
  else tbl r

/-- Go `unicode.IsSpace`: the Latin-1 cases are listed in the function, the others are the
`White_Space` table. -/
def IsSpace (r : Char) : Bool :=
  let n := r.toNat
  if n ≤ 0xFF then
    n == 0x09 || n == 0x0A || n == 0x0B || n == 0x0C || n == 0x0D || n == 0x20
      || n == 0x85 || n == 0xA0
  else
    n == 0x1680 || (0x2000 ≤ n && n ≤ 0x200A) || n == 0x2028 || n == 0x2029
      || n == 0x202F || n == 0x205F || n == 0x3000

end unicode

namespace strings

/-- Go `strings.ToLower`: every rune mapped by `unicode.ToLower` (the ASCII fast path of the
library computes the same string). -/
def ToLower (tbl : Char → Char) (s : String) : String :=
  String.mk (s.data.map (unicode.ToLower tbl))

/-- Go `strings.Index` on character lists: the position of the first instance of `substr`
in `s`, `none` for `-1`. -/
def Index : List Char → List Char → Option Nat
  | [], substr => if substr = [] then some 0 else none
  | c :: cs, substr =>
    if substr.isPrefixOf (c :: cs) then some 0
    else (Index cs substr).map (fun i => i + 1)

/-- The loop of Go `strings.Count` for a separator of two or more bytes: count, cut after the
instance, repeat. `fuel` bounds the number of iterations (the length of `s` is enough). -/
def countLoop (substr : List Char) : Nat → List Char → Nat
  | 0, _ => 0
  | fuel + 1, s =>
    match Index s substr with
    | none => 0
    | some i => countLoop substr fuel (s.drop (i + substr.length)) + 1

/-- Go `strings.Count` for a non-empty `substr`: the number of non-overlapping instances. -/
def Count (s substr : List Char) : Nat :=
  countLoop substr s.length s

/-- The loop of Go `strings.genSplit`: `n` is the number of cuts still allowed, each cut keeps
`sepSave` characters of the separator in the piece before it. -/
def genSplitLoop (sep : List Char) (sepSave : Nat) : Nat → List Char → List (List Char)
  | 0, s => [s]
  | n + 1, s =>
    match Index s sep with
    | none => [s]
    | some m => s.take (m + sepSave) :: genSplitLoop sep sepSave n (s.drop (m + sep.length))

/-- Go `strings.SplitAfter(s, sep)` for a non-empty `sep`: `genSplit(s, sep, len(sep), -1)`,
which allows `Count(s, sep)` cuts. -/
def SplitAfter (s sep : String) : List String :=
  (genSplitLoop sep.data sep.length (Count s.data sep.data) s.data).map String.mk

/-- Go `strings.TrimSpace`: the string without its leading and trailing white space. -/
def TrimSpace (s : String) : String :=
  String.mk ((s.data.dropWhile unicode.IsSpace).reverse.dropWhile unicode.IsSpace).reverse

end strings

/-! ## `models`: roles and users -/

/-- The type `models.UserRole`: the three declared constants (`iota + 1`). -/
inductive UserRole
  | AdminRole
  | HelpdeskRole
  | MonitorRole
deriving DecidableEq, Repr

/-- The integer value of a `UserRole` constant. -/
def UserRole.toUint : UserRole → Nat
  | .AdminRole => 1
  | .HelpdeskRole => 2
  | .MonitorRole => 3

/-- The method `UserRole.String`: index `r-1` of the literal name table. -/
def UserRole.String (r : UserRole) : String :=
  ["ADMIN", "HELPDESK", "MONITOR"].getD (r.toUint - 1) ""

/-- The struct `models.Role` (the fields of `gorm.Model` other than `ID` are not used). -/
structure Role where
  ID : Nat
  Name : String
deriving DecidableEq, Repr

/-- The struct `models.User`. -/
structure User where
  ID : Nat
  Username : String
  Password : String
  Version : Int
  Roles : List Role
deriving DecidableEq, Repr

/-! ## Time -/

/-- A `time.Time`, in nanoseconds since the Unix epoch. -/
abbrev Time := Int

/-- A `time.Duration`, in nanoseconds. -/
abbrev Duration := Int

/-- Go `Time.Unix`: whole seconds since the epoch (rounded down). -/
def Time.Unix (t : Time) : Int := t / 1000000000

/-- Go `Time.Add`. -/
def Time.Add (t : Time) (d : Duration) : Time := t + d

/-! ## The JWT library (`github.com/golang-jwt/jwt`) -/

/-- The struct `jwt.StandardClaims`. -/
structure StandardClaims where
  Audience : String
  ExpiresAt : Int
  Id : String
  IssuedAt : Int
  Issuer : String
  NotBefore : Int
  Subject : String
deriving DecidableEq, Repr

/-- The struct `customClaims` of `controllers/jwt.go`: roles, authenticating domain and the
embedded standard claims (whose fields and methods are promoted). -/
structure customClaims extends StandardClaims where
  Roles : List String
  Azt : String
deriving DecidableEq, Repr

/-- The concrete types that implement `jwt.SigningMethod`, each with its `alg` name. -/
inductive SigningMethod
  | SigningMethodRSA (alg : String)
  | SigningMethodHMAC (alg : String)
  | SigningMethodECDSA (alg : String)
  | SigningMethodRSAPSS (alg : String)
  | SigningMethodEd25519
  | signingMethodNone
deriving DecidableEq, Repr

/-- The value `jwt.SigningMethodRS256`. -/
def SigningMethodRS256 : SigningMethod := .SigningMethodRSA "RS256"

/-- The value `jwt.SigningMethodHS256`. -/
def SigningMethodHS256 : SigningMethod := .SigningMethodHMAC "HS256"

/-- The method `SigningMethod.Alg`. -/
def SigningMethod.Alg : SigningMethod → String
  | .SigningMethodRSA alg => alg
  | .SigningMethodHMAC alg => alg
  | .SigningMethodECDSA alg => alg
  | .SigningMethodRSAPSS alg => alg
  | .SigningMethodEd25519 => "EdDSA"
  | .signingMethodNone => "none"

/-- The type assertion `token.Method.(*jwt.SigningMethodRSA)`: it holds for that concrete
type only (not for `*SigningMethodRSAPSS`, a different type). -/
def SigningMethod.isRSA : SigningMethod → Bool
  | .SigningMethodRSA _ => true
  | _ => false

/-- The type assertion `token.Method.(*jwt.SigningMethodHMAC)`. -/
def SigningMethod.isHMAC : SigningMethod → Bool
  | .SigningMethodHMAC _ => true
  | _ => false

/-- The struct `rsa.PublicKey`. -/
structure PublicKey where
  N : Nat
  E : Nat
deriving DecidableEq, Repr

/-- The struct `rsa.PrivateKey`. -/
structure PrivateKey where
  PublicKey : PublicKey
  D : Nat
deriving DecidableEq, Repr

/-- The key values (`interface{}`) this code hands to the library: an RSA public key, an RSA
private key, or the bytes of the shared secret. -/
inductive Key
  | rsaPublicKey (k : PublicKey)
  | rsaPrivateKey (k : PrivateKey)
  | bytes (b : String)
deriving DecidableEq, Repr

/-- The bits of `jwt.ValidationError.Errors`. -/
inductive ValidationFlag
  | Malformed
  | Unverifiable
  | SignatureInvalid
  | Audience
  | Expired
  | IssuedAt
  | Issuer
  | NotValidYet
  | Id
  | ClaimsInvalid
deriving DecidableEq, Repr

/-- Go `error` values: an `errors.New` / `fmt.Errorf` message, or a `*jwt.ValidationError`
with the set of its `Errors` bits and the message of its inner error (kept for the errors of
the key function and of the signature check, left out for the claims validation, whose text
depends on the clock). -/
inductive Error
  | errorString (msg : String)
  | ValidationError (Inner : Option String) (Errors : List ValidationFlag)
deriving DecidableEq, Repr

/-- The method `Error()` for the messages this code formats. -/
def Error.message : Error → String
  | .errorString msg => msg
  | .ValidationError (some inner) _ => inner
  | .ValidationError none _ => "token is invalid"

/-- The struct `jwt.Token`. -/
structure Token (C : Type) where
  Raw : String
  Method : SigningMethod
  Header : List (String × String)
  Claims : C
  Signature : String
  Valid : Bool

/-- A `jwt.Keyfunc`. -/
abbrev Keyfunc (C : Type) := Token C → Except Error Key

/-- The parts of the JWT library taken as parameters: the compact serialisation (JSON and
base64url) for the two claim shapes, and the signature primitives.

* `signingStringCustom`, `signingStringStandard`: `Token.SigningString` of a fresh token
  with the given method and claims (header segment, a dot, claims segment);
* `parseCustom`, `parseStandard`: `Parser.ParseUnverified` decoding into `*customClaims` and
  into `*jwt.StandardClaims`: the token (method looked up from the `alg` header, claims
  decoded, not verified) and the three segments;
* `sign`, `verify`: `SigningMethod.Sign` and `SigningMethod.Verify`. -/
structure JwtLib where
  signingStringCustom : SigningMethod → customClaims → Except Error String
  signingStringStandard : SigningMethod → StandardClaims → Except Error String
  parseCustom : String → Except Error (Token customClaims × List String)
  parseStandard : String → Except Error (Token StandardClaims × List String)
  sign : SigningMethod → String → Key → Except Error String
  verify : SigningMethod → String → String → Key → Except Error Unit

/-- The library function `verifyExp`: an unset (zero) claim passes when it is not required. -/
def verifyExp (exp now : Int) (required : Bool) : Bool :=
  if exp = 0 then !required else decide (now ≤ exp)

/-- The library function `verifyIat`. -/
def verifyIat (iat now : Int) (required : Bool) : Bool :=
  if iat = 0 then !required else decide (iat ≤ now)

/-- The library function `verifyNbf`. -/
def verifyNbf (nbf now : Int) (required : Bool) : Bool :=
  if nbf = 0 then !required else decide (nbf ≤ now)

/-- The method `StandardClaims.Valid` (promoted to `customClaims`), with `now` the value of
`TimeFunc().Unix()`: the list of validation bits it sets, empty when the claims are valid. -/
def StandardClaims.Valid (c : StandardClaims) (now : Int) : List ValidationFlag :=
  (if !verifyExp c.ExpiresAt now false then [ValidationFlag.Expired] else [])
    ++ (if !verifyIat c.IssuedAt now false then [ValidationFlag.IssuedAt] else [])
    ++ (if !verifyNbf c.NotBefore now false then [ValidationFlag.NotValidYet] else [])

/-- The library function `jwt.ParseWithClaims` (`Parser.ParseWithClaims` of the default
parser): parse without verifying, look the key up, validate the claims against the clock
reading `now`, verify the signature over the first two segments, and return the token marked
valid when no validation bit is set. -/
def ParseWithClaims {C : Type} (parseUnverified : String → Except Error (Token C × List String))
    (verify : SigningMethod → String → String → Key → Except Error Unit)
    (claimsValid : C → Int → List ValidationFlag)
    (now : Time) (tokenString : String) (keyFunc : Keyfunc C) : Except Error (Token C) :=
  match parseUnverified tokenString with
  | .error err => .error err
  | .ok (token, parts) =>
    match keyFunc token with
    | .error err => .error (.ValidationError (some err.message) [ValidationFlag.Unverifiable])
    | .ok key =>
      let vErr := claimsValid token.Claims (Time.Unix now)
      let token := { token with Signature := parts.getD 2 "" }
      match verify token.Method (".".intercalate (parts.take 2)) token.Signature key with
      | .error err =>
        .error (.ValidationError (some err.message) (vErr ++ [ValidationFlag.SignatureInvalid]))
      | .ok _ =>
        if vErr = [] then .ok { token with Valid := true }
        else .error (.ValidationError none vErr)

/-- The method `Token.SignedString`: the signing string, a dot, the signature. -/
def SignedString (signingString : Except Error String)
    (sign : SigningMethod → String → Key → Except Error String)
    (method : SigningMethod) (key : Key) : Except Error String :=
  match signingString with
  | .error err => .error err
  | .ok sstr =>
    match sign method sstr key with
    | .error err => .error err
    | .ok sig => .ok (".".intercalate [sstr, sig])

/-! ## `controllers/utils.go` -/

/-- The function `stringInSliceCaseInsensitive`. -/
def stringInSliceCaseInsensitive (tbl : Char → Char) : List String → String → Bool
  | [], _ => false
  | s :: sL, targetS =>
    if strings.ToLower tbl s = strings.ToLower tbl targetS then true
    else stringInSliceCaseInsensitive tbl sL targetS

/-! ## `controllers/jwt.go` -/

/-- The clock readings and the fresh identifier consumed by one call of `newStandardClaims`
or `newCustomClaims`, in evaluation order: `time.Now()` for `ExpiresAt`, `time.Now()` for
`IssuedAt`, `uuid.New()` for `Id`, `time.Now()` for `NotBefore`. -/
structure Reads where
  nowExp : Time
  nowIat : Time
  uuid : String
  nowNbf : Time
deriving DecidableEq, Repr

/-- The function `newStandardClaims`. -/
def newStandardClaims (rd : Reads) (user : User) (issuer : String) (expire : Duration) :
    StandardClaims :=
  { Audience := ""
    ExpiresAt := Time.Unix (Time.Add rd.nowExp expire)
    IssuedAt := Time.Unix rd.nowIat
    Subject := user.Username
    Id := rd.uuid
    Issuer := issuer
    NotBefore := Time.Unix rd.nowNbf }

/-- The loop of `newCustomClaims` collecting the role names. -/
def roleNames : List Role → List String
  | [] => []
  | r :: rest => r.Name :: roleNames rest

/-- The function `newCustomClaims`. -/
def newCustomClaims (rd : Reads) (user : User) (domain : String) (expire : Duration) :
    customClaims :=
  { Audience := ""
    ExpiresAt := Time.Unix (Time.Add rd.nowExp expire)
    IssuedAt := Time.Unix rd.nowIat
    Subject := user.Username
    Id := rd.uuid
    Issuer := "idp"
    NotBefore := Time.Unix rd.nowNbf
    Roles := roleNames user.Roles
    Azt := domain }

/-- The function `generateToken` for a `customClaims` value. -/
def generateToken (lib : JwtLib) (claims : customClaims) (secret : String)
    (signKey : PrivateKey) : Except Error String :=
  let signed :=
    if secret = "" then
      SignedString (lib.signingStringCustom SigningMethodRS256 claims) lib.sign
        SigningMethodRS256 (Key.rsaPrivateKey signKey)
    else
      SignedString (lib.signingStringCustom SigningMethodHS256 claims) lib.sign
        SigningMethodHS256 (Key.bytes secret)
  match signed with
  | .error err => .error err
  | .ok signedToken => .ok signedToken

/-- The function `generateToken` for a `jwt.StandardClaims` value. -/
def generateTokenStandard (lib : JwtLib) (claims : StandardClaims) (secret : String)
    (signKey : PrivateKey) : Except Error String :=
  let signed :=
    if secret = "" then
      SignedString (lib.signingStringStandard SigningMethodRS256 claims) lib.sign
        SigningMethodRS256 (Key.rsaPrivateKey signKey)
    else
      SignedString (lib.signingStringStandard SigningMethodHS256 claims) lib.sign
        SigningMethodHS256 (Key.bytes secret)
  match signed with
  | .error err => .error err
  | .ok signedToken => .ok signedToken

/-- The value `token.Header["alg"]` as `%v` prints it. -/
def headerAlg {C : Type} (token : Token C) : String :=
  (token.Header.lookup "alg").getD "<nil>"

/-- The function `getKeyFunc`. -/
def getKeyFunc {C : Type} (secret : String) (verifyKey : PublicKey) : Keyfunc C :=
  if secret = "" then
    fun token =>
      if !token.Method.isRSA then
        .error (.errorString ("unexpected signing method: " ++ headerAlg token))
      else .ok (Key.rsaPublicKey verifyKey)
  else
    fun token =>
      if !token.Method.isHMAC then
        .error (.errorString ("unexpected signing method: " ++ headerAlg token))
      else .ok (Key.bytes secret)

/-- The key function literal inside `getClaimsFromM2MToken`. -/
def m2mKeyFunc {C : Type} (verifyKey : PublicKey) : Keyfunc C :=
  fun jwtToken =>
    if !jwtToken.Method.isRSA then .error (.errorString "error jwt method not allowed")
    else .ok (Key.rsaPublicKey verifyKey)

/-- The function `getClaimsFromRenewToken`; `now` is the clock reading of the library. The
type assertion on `token.Claims` cannot fail, the claims having been decoded into the value
passed to the parser, and the logging is left out. -/
def getClaimsFromRenewToken (lib : JwtLib) (now : Time) (t secret : String)
    (verifyKey : PublicKey) : Except Error StandardClaims :=
  let keyFunc := getKeyFunc secret verifyKey
  match ParseWithClaims lib.parseStandard lib.verify StandardClaims.Valid now t keyFunc with
  | .error err => .error err
  | .ok token =>
    if !token.Valid then .error (.errorString "invalid token")
    else .ok token.Claims

/-- The function `getClaimsFromM2MToken`; `now` is the clock reading of the library (type
assertion and logging as in `getClaimsFromRenewToken`). -/
def getClaimsFromM2MToken (lib : JwtLib) (now : Time) (t : String) (verifyKey : PublicKey) :
    Except Error customClaims :=
  match ParseWithClaims lib.parseCustom lib.verify (fun c => c.toStandardClaims.Valid) now t
      (m2mKeyFunc verifyKey) with
  | .error err => .error err
  | .ok token =>
    if !token.Valid then .error (.errorString "invalid token")
    else .ok token.Claims

/-- The function `getClaimsFromAccessToken`; `now` is the clock reading of the library (type
assertion and logging as in `getClaimsFromRenewToken`). -/
def getClaimsFromAccessToken (lib : JwtLib) (now : Time) (t secret : String)
    (verifyKey : PublicKey) : Except Error customClaims :=
  let keyFunc := getKeyFunc secret verifyKey
  match ParseWithClaims lib.parseCustom lib.verify (fun c => c.toStandardClaims.Valid) now t
      keyFunc with
  | .error err => .error err
  | .ok token =>
    if !token.Valid then .error (.errorString "invalid token")
    else .ok token.Claims

/-- The request data the handlers read: `r.Method`, `r.Header` and `mux.Vars(r)`. -/
structure Request where
  Method : String
  Header : List (String × String)
  Vars : List (String × String)
deriving DecidableEq, Repr

/-- Go `Header.Get`: the value of the header, the empty string when it is absent. -/
def Request.HeaderGet (r : Request) (key : String) : String :=
  (r.Header.lookup key).getD ""

/-- The constant `headerAuthorization`. -/
def headerAuthorization : String := "Authorization"

/-- The function `parseAuthHeader`. -/
def parseAuthHeader (r : Request) : String :=
  let t := r.HeaderGet headerAuthorization
  let sT := strings.SplitAfter t "Bearer"
  let rawT :=
    match sT with
    | [only] => only
    | [_, second] => second
    | _ => ""
  strings.TrimSpace rawT

/-- What a middleware does with a request: hand it to the next handler, or answer it with
`jsonapiError(w, code, message)`. -/
inductive Response
  | next
  | jsonapiError (code : Nat) (message : String)
deriving DecidableEq, Repr

/-- The part of `controllers.Config` used by the token code. -/
structure Config where
  Secret : String
  SignKey : PrivateKey
  VerifyKey : PublicKey
  AccessTokenExpireTime : Duration
  RenewTokenExpireTime : Duration
  TrustedPublicKeys : Option (List PublicKey)

/-- The handler built by `jwtMiddleware`, run on the request `r`; `now` is the clock reading
of the token verification. -/
def jwtMiddleware (lib : JwtLib) (tbl : Char → Char) (config : Config) (now : Time)
    (r : Request) : Response :=
  let t := parseAuthHeader r
  match getClaimsFromAccessToken lib now t config.Secret config.VerifyKey with
  | .error _ => .jsonapiError 401 "unauthorized request"
  | .ok claims =>
    if !stringInSliceCaseInsensitive tbl claims.Roles UserRole.AdminRole.String then
      if r.Method = "POST" || r.Method = "DELETE" then
        .jsonapiError 403 "forbidden request"
      else
        match r.Vars.lookup "id" with
        | some id =>
          if r.Method = "PATCH" && id != claims.Subject then
            .jsonapiError 403 "forbidden request"
          else .next
        | none => .next
    else .next

/-- The loop of `authorizeM2MRequest` over the keys still to try; `clock i` is the clock
reading of the verification with the key at position `i` of the configured list. -/
def authorizeM2MLoop (lib : JwtLib) (clock : Nat → Time) (t : String) :
    Nat → List PublicKey → Except Error customClaims
  | _, [] => .error (.errorString "no issuer found")
  | i, pKey :: rest =>
    match getClaimsFromM2MToken lib (clock i) t pKey with
    | .error _ => authorizeM2MLoop lib clock t (i + 1) rest
    | .ok c => .ok c

/-- The function `authorizeM2MRequest`: `pubKeys == nil` holds for the nil slice only. -/
def authorizeM2MRequest (lib : JwtLib) (clock : Nat → Time) (t : String)
    (pubKeys : Option (List PublicKey)) : Except Error customClaims :=
  match pubKeys with
  | none => .error (.errorString "no trusted public keys configured")
  | some keys =>
    if t = "" then .error (.errorString "empty token")
    else authorizeM2MLoop lib clock t 0 keys

/-- What a round trip needs of the library for the claims `c`, signed with `method` under the
signing key `sk` and checked under the verification key `vk`: the claims serialise, signing
succeeds, the compact token parses back to the same method and claims with the signing string
and the signature as its segments, and `Verify` accepts that signature under `vk`. -/
def JwtLib.RoundTrips (lib : JwtLib) (method : SigningMethod) (sk vk : Key)
    (c : customClaims) : Prop :=
  ∃ sstr sig token parts,
    lib.signingStringCustom method c = .ok sstr ∧
    lib.sign method sstr sk = .ok sig ∧
    lib.parseCustom (".".intercalate [sstr, sig]) = .ok (token, parts) ∧
    token.Method = method ∧ token.Claims = c ∧
    ".".intercalate (parts.take 2) = sstr ∧ parts.getD 2 "" = sig ∧
    lib.verify method sstr sig vk = .ok ()

/-! ## A small instance of the library parameters

Tokens are `alg.subject.signature`; the parser knows three subjects; an RSA signature is
accepted under the public key with modulus 33, an HMAC signature under the secret it
repeats. The instance serves to evaluate the definitions on concrete requests. -/

/-- The clock readings of the sample issuance: second 1000. -/
def demoReads : Reads :=
  { nowExp := 1000000000000, nowIat := 1000000000000, uuid := "id-1", nowNbf := 1000000000000 }

/-- A sample administrator. -/
def demoAlice : User :=
  { ID := 1, Username := "alice", Password := "", Version := 0, Roles := [⟨1, "Admin"⟩] }

/-- A sample user without the administrator role. -/
def demoBob : User :=
  { ID := 2, Username := "bob", Password := "", Version := 0, Roles := [⟨3, "MONITOR"⟩] }

/-- The access claims of `demoAlice`, issued for one minute. -/
def demoAliceClaims : customClaims := newCustomClaims demoReads demoAlice "ORANMGR" 60000000000

/-- The access claims of `demoBob`, issued for one minute. -/
def demoBobClaims : customClaims := newCustomClaims demoReads demoBob "ORANMGR" 60000000000

/-- The sample token with the given method, claims and segments. -/
def demoToken (t : String) (method : SigningMethod) (c : customClaims) (parts : List String) :
    Except Error (Token customClaims × List String) :=
  .ok ({ Raw := t, Method := method, Header := [("alg", method.Alg)], Claims := c,
         Signature := "", Valid := false }, parts)

/-- The sample library instance. -/
def demoLib : JwtLib where
  signingStringCustom := fun m c => .ok (".".intercalate [m.Alg, c.Subject])
  signingStringStandard := fun m c => .ok (".".intercalate [m.Alg, c.Subject])
  parseCustom := fun t =>
    if t = "RS256.alice.rsasig" then
      demoToken t SigningMethodRS256 demoAliceClaims ["RS256", "alice", "rsasig"]
    else if t = "RS256.bob.rsasig" then
      demoToken t SigningMethodRS256 demoBobClaims ["RS256", "bob", "rsasig"]
    else if t = "RS256.bob.forged" then
      demoToken t SigningMethodRS256 demoBobClaims ["RS256", "bob", "forged"]
    else if t = "HS256.alice.s3cret" then
      demoToken t SigningMethodHS256 demoAliceClaims ["HS256", "alice", "s3cret"]
    else .error (.ValidationError none [ValidationFlag.Malformed])
  parseStandard := fun _ => .error (.ValidationError none [ValidationFlag.Malformed])
  sign := fun _ _ key =>
    match key with
    | .rsaPrivateKey k => .ok (if k.PublicKey.N = 33 then "rsasig" else "othersig")
    | .bytes b => .ok b
    | .rsaPublicKey _ => .error (.errorString "key is of invalid type")
  verify := fun _ _ sig key =>
    match key with
    | .rsaPublicKey k =>
      if sig = "rsasig" ∧ k.N = 33 then .ok ()
      else .error (.errorString "crypto/rsa: verification error")
    | .bytes b => if sig = b then .ok () else .error (.errorString "signature is invalid")
    | .rsaPrivateKey _ => .error (.errorString "key is of invalid type")

/-- A sample configuration signing with the RSA key pair of modulus 33 (no secret). -/
def demoConfig : Config :=
  { Secret := "", SignKey := ⟨⟨33, 3⟩, 7⟩, VerifyKey := ⟨33, 3⟩,
    AccessTokenExpireTime := 60000000000, RenewTokenExpireTime := 0,
    TrustedPublicKeys := none }

/-- A sample request with the given method, bearer token and path parameter `id`. -/
def demoRequest (method token id : String) : Request :=
  { Method := method, Header := [("Authorization", "Bearer " ++ token)], Vars := [("id", id)] }

/-- The sample verification time: second 1010. -/
def demoNow : Time := 1010000000000

/-! ## `models`: role lists, error kinds, domains -/

/-- The constant `models.ExternalDomain`. -/
def ExternalDomain : String := "EXTERNAL"

/-- The constant `models.InternalDomain`. -/
def InternalDomain : String := "ORANMGR"

/-- The loop of `NewRoleList`: `rL` is the list built so far; the `switch` tries the three role
names in order and the first invalid name ends the loop with an error. -/
def NewRoleListLoop (tbl : Char → Char) : List Role → List String → Except Error (List Role)
  | rL, [] => .ok rL
  | rL, rS :: rest =>
    if strings.ToLower tbl rS = strings.ToLower tbl UserRole.AdminRole.String then
      NewRoleListLoop tbl (rL ++ [{ ID := UserRole.AdminRole.toUint, Name := rS }]) rest
    else if strings.ToLower tbl rS = strings.ToLower tbl UserRole.HelpdeskRole.String then
      NewRoleListLoop tbl (rL ++ [{ ID := UserRole.HelpdeskRole.toUint, Name := rS }]) rest
    else if strings.ToLower tbl rS = strings.ToLower tbl UserRole.MonitorRole.String then
      NewRoleListLoop tbl (rL ++ [{ ID := UserRole.MonitorRole.toUint, Name := rS }]) rest
    else .error (.errorString ("invalid role " ++ rS))

/-- The function `models.NewRoleList`. -/
def NewRoleList (tbl : Char → Char) (roleListString : List String) : Except Error (List Role) :=
  NewRoleListLoop tbl [] roleListString

/-- The error types of `models/base.go` that the repositories return. -/
inductive RepoError
  | DBError (error : String)
  | NotFoundError (error : String)
  | UserError (error : String)
deriving DecidableEq, Repr

/-- The methods of the interface `App.Users` that the session handlers call. -/
structure Users where
  GetAndValidateUser : String → String → Option User
  GetUserByNameOrID : String → Except RepoError User

/-! ## Go standard library: `strconv`, `crypto/x509` -/

/-- Go `strconv.ParseBool`. -/
def strconv.ParseBool (str : String) : Except Error Bool :=
  if str = "1" ∨ str = "t" ∨ str = "T" ∨ str = "true" ∨ str = "TRUE" ∨ str = "True" then
    .ok true
  else if str = "0" ∨ str = "f" ∨ str = "F" ∨ str = "false" ∨ str = "FALSE"
      ∨ str = "False" then
    .ok false
  else .error (.errorString ("strconv.ParseBool: parsing " ++ str ++ ": invalid syntax"))

/-- The private keys `x509.ParsePKCS8PrivateKey` can return: an RSA key, or a key of another
kind (ECDSA, Ed25519, ECDH), named by its Go type. -/
inductive PKCS8Key
  | rsa (k : PrivateKey)
  | other (goType : String)
deriving DecidableEq, Repr

/-! ## `controllers/utils.go`: private keys -/

/-- The function `readPrivateKey`; the two parsers of `crypto/x509` are the parameters
`ParsePKCS1PrivateKey` and `ParsePKCS8PrivateKey`. -/
def readPrivateKey (ParsePKCS1PrivateKey : List UInt8 → Except Error PrivateKey)
    (ParsePKCS8PrivateKey : List UInt8 → Except Error PKCS8Key) (input : List UInt8) :
    Except Error PrivateKey :=
  match ParsePKCS1PrivateKey input with
  | .error _ =>
    match ParsePKCS8PrivateKey input with
    | .error _ => .error (.errorString "private key error: neither PKCS1 nor PKCS8 format")
    | .ok pkcs8 =>
      match pkcs8 with
      | .rsa pvtKey => .ok pvtKey
      | .other _ =>
        .error (.errorString
          "private key error, expected rsa.PrivateKey, found '*rsa.PrivateKey' instead")
  | .ok pvtKey => .ok pvtKey

/-! ## `controllers/session.go` and `cmd/idp.go` -/

/-- The renew-token lifetime that `newControllersConfiguration` puts in the configuration:
the configured `RefreshExpireTime` when `Refresh` is set, zero otherwise. -/
def renewTokenExpireTime (Refresh : Bool) (RefreshExpireTime : Duration) : Duration :=
  if Refresh then RefreshExpireTime else 0

/-- The struct `CreateSessionHandlerRequest`. -/
structure CreateSessionHandlerRequest where
  ID : String
  Username : String
  Password : String
  AccessToken : String
deriving DecidableEq, Repr

/-- The struct `CreateSessionHandlerResponse`. -/
structure CreateSessionHandlerResponse where
  AccessToken : String
  RenewToken : String
deriving DecidableEq, Repr

/-- The struct `RenewTokenHandlerRequest`. -/
structure RenewTokenHandlerRequest where
  UserID : String
  RenewToken : String
deriving DecidableEq, Repr

/-- The part of the struct `App` that the session handlers use: the user repository, the
configuration, and the map `extUsers` as an association list in which the first entry of a
key is its value (an assignment `extUsers[k] = v` puts `(k, v)` in front). -/
structure App where
  Users : Users
  extUsers : List (String × List Role)
  config : Config

/-- What a session handler writes: `jsonapiError(w, code, message)`, or the `Authorization`
header followed by `jsonapiSuccessMetaOnly(w, &responseBody, statusCode)`, or the run-time
panic of a nil dereference. -/
inductive HandlerResult
  | jsonapiError (code : Nat) (message : String)
  | jsonapiSuccessMetaOnly (authorization : String) (responseBody : CreateSessionHandlerResponse)
      (statusCode : Nat)
  | runtimePanic
deriving DecidableEq, Repr

/-- The zero value `&models.User{}`. -/
def User.zero : User :=
  { ID := 0, Username := "", Password := "", Version := 0, Roles := [] }

/-- The access claims that `CreateSessionHandler` builds (its variable `claims`): lifetime zero
when `validate` is set, the configured access-token lifetime otherwise. -/
def sessionClaims (a : App) (rdAccess : Reads) (validate : Bool) (user : User)
    (domain : String) : customClaims :=
  if validate then newCustomClaims rdAccess user domain 0
  else newCustomClaims rdAccess user domain a.config.AccessTokenExpireTime

/-- The end of `CreateSessionHandler`, from the choice of the lifetime on: the access claims
(lifetime zero when `validate` is set), the access token, and the renew token unless the
configured renew lifetime is zero. `rdAccess` and `rdRenew` are the clock readings of the two
claims constructors. The calls of the event sink, whose errors are only logged, are left
out here and in the handlers. -/
def issueSession (lib : JwtLib) (a : App) (rdAccess rdRenew : Reads) (validate : Bool)
    (user : User) (domain : String) : HandlerResult :=
  let claims := sessionClaims a rdAccess validate user domain
  match generateToken lib claims a.config.Secret a.config.SignKey with
  | .error err => .jsonapiError 500 err.message
  | .ok signedAccessToken =>
    let responseBody : CreateSessionHandlerResponse :=
      { AccessToken := signedAccessToken, RenewToken := "" }
    if a.config.RenewTokenExpireTime = 0 then
      .jsonapiSuccessMetaOnly ("Bearer " ++ signedAccessToken) responseBody 200
    else
      let rC := newStandardClaims rdRenew user domain a.config.RenewTokenExpireTime
      match generateTokenStandard lib rC a.config.Secret a.config.SignKey with
      | .error err => .jsonapiError 500 err.message
      | .ok signedRenewToken =>
        .jsonapiSuccessMetaOnly ("Bearer " ++ signedAccessToken)
          { responseBody with RenewToken := signedRenewToken } 200

/-- The variable `validate` of `CreateSessionHandler`: `strconv.ParseBool` of the route variable
`validate` of `mux.Vars(r)`, false when it does not parse (or is absent). -/
def validateParam (r : Request) : Bool :=
  match strconv.ParseBool ((r.Vars.lookup "validate").getD "") with
  | .ok b => b
  | .error _ => false

/-- The variable `t` of `CreateSessionHandler`: the token of the request body when there is
one, the token of the `Authorization` header otherwise. -/
def presentedToken (r : Request) (requestBody : CreateSessionHandlerRequest) : String :=
  if requestBody.AccessToken ≠ "" then requestBody.AccessToken else parseAuthHeader r

/-- The variable `roles` of `CreateSessionHandler` after the call of `NewRoleList` on the roles
of the external claims: the role list, or nil when a name is invalid. -/
def m2mRoles (tbl : Char → Char) (decodedClaims : customClaims) : List Role :=
  match NewRoleList tbl decodedClaims.Roles with
  | .error _ => []
  | .ok roles => roles

/-- The handler `CreateSessionHandler`: the response and the application after the call (only
`extUsers` changes). `body` is the result of `jsonapi.UnmarshalPayload` on the request body,
`clock` gives the clock readings of the verification attempts of `authorizeM2MRequest`. -/
def CreateSessionHandler (lib : JwtLib) (tbl : Char → Char) (a : App) (clock : Nat → Time)
    (rdAccess rdRenew : Reads) (r : Request) (body : Except Error CreateSessionHandlerRequest) :
    HandlerResult × App :=
  let validate := validateParam r
  match body with
  | .error err => (.jsonapiError 400 ("invalid request body: " ++ err.message), a)
  | .ok requestBody =>
    let t := presentedToken r requestBody
    if t ≠ "" then
      match authorizeM2MRequest lib clock t a.config.TrustedPublicKeys with
      | .error _ => (.jsonapiError 401 "supplied token is not valid", a)
      | .ok decodedClaims =>
        let user := { User.zero with Username := decodedClaims.Subject }
        match NewRoleList tbl decodedClaims.Roles with
        | .error _ =>
          let a2 := { a with extUsers := (user.Username, []) :: a.extUsers }
          (issueSession lib a2 rdAccess rdRenew validate user ExternalDomain, a2)
        | .ok roles =>
          let user := { user with Roles := roles }
          let a2 := { a with extUsers := (user.Username, roles) :: a.extUsers }
          (issueSession lib a2 rdAccess rdRenew validate user ExternalDomain, a2)
    else
      match a.Users.GetAndValidateUser requestBody.Username requestBody.Password with
      | none => (.jsonapiError 401 "user not allowed", a)
      | some user => (issueSession lib a rdAccess rdRenew validate user InternalDomain, a)

/-- The handler `RenewTokenHandler` (it leaves the application unchanged). `now` is the clock
reading of the renew-token verification, `rd` the readings of `newCustomClaims`. A repository
error that is neither `NotFoundError` nor `DBError` falls through the `switch` with a nil
user, which `newCustomClaims` dereferences. -/
def RenewTokenHandler (lib : JwtLib) (a : App) (now : Time) (rd : Reads)
    (body : Except Error RenewTokenHandlerRequest) : HandlerResult :=
  match body with
  | .error err => .jsonapiError 400 ("invalid request body: " ++ err.message)
  | .ok renewTokenHandlerRequest =>
    let found : Except HandlerResult (Option User) :=
      match a.extUsers.lookup renewTokenHandlerRequest.UserID with
      | some roles =>
        .ok (some { User.zero with Username := renewTokenHandlerRequest.UserID, Roles := roles })
      | none =>
        match a.Users.GetUserByNameOrID renewTokenHandlerRequest.UserID with
        | .error (.NotFoundError _) => .error (.jsonapiError 401 "user revoked")
        | .error (.DBError _) => .error (.jsonapiError 500 "internal error, retry later")
        | .error (.UserError _) => .ok none
        | .ok user => .ok (some user)
    match found with
    | .error response => response
    | .ok user? =>
      match getClaimsFromRenewToken lib now renewTokenHandlerRequest.RenewToken a.config.Secret
          a.config.VerifyKey with
      | .error _ => .jsonapiError 401 "invalid renew token"
      | .ok claims =>
        match user? with
        | none => .runtimePanic
        | some user =>
          let accessClaims := newCustomClaims rd user claims.Issuer a.config.RenewTokenExpireTime
          match generateToken lib accessClaims a.config.Secret a.config.SignKey with
          | .error err => .jsonapiError 500 err.message
          | .ok signedAccessToken =>
            .jsonapiSuccessMetaOnly ("Bearer " ++ signedAccessToken)
              { AccessToken := signedAccessToken,
                RenewToken := renewTokenHandlerRequest.RenewToken } 200

/-- What the decoding of the claims segment into `jwt.StandardClaims` does with a token that
carries access claims: it reads the standard members and ignores `roles` and `azt` (the
decoder of `encoding/json` skips members the target struct does not have). Stated for the
token string `t`. -/
def JwtLib.IgnoresExtraClaims (lib : JwtLib) (t : String) : Prop :=
  ∀ tok parts, lib.parseCustom t = .ok (tok, parts) →
    lib.parseStandard t
      = .ok ({ Raw := tok.Raw, Method := tok.Method, Header := tok.Header,
               Claims := tok.Claims.toStandardClaims, Signature := tok.Signature,
               Valid := tok.Valid }, parts)

/-! ## A second instance of the library parameters

The parser of `demoLibFor c` knows the tokens of one subject, carrying the claims `c`, and
decodes them into either claim shape; signatures are those of `demoLib`. -/

/-- The sample library instance whose tokens carry the claims `c`. -/
def demoLibFor (c : customClaims) : JwtLib where
  signingStringCustom := demoLib.signingStringCustom
  signingStringStandard := demoLib.signingStringStandard
  parseCustom := fun t =>
    if t = ".".intercalate ["RS256", c.Subject, "rsasig"] then
      demoToken t SigningMethodRS256 c ["RS256", c.Subject, "rsasig"]
    else if t = ".".intercalate ["HS256", c.Subject, "s3cret"] then
      demoToken t SigningMethodHS256 c ["HS256", c.Subject, "s3cret"]
    else .error (.ValidationError none [ValidationFlag.Malformed])
  parseStandard := fun t =>
    if t = ".".intercalate ["RS256", c.Subject, "rsasig"] then
      .ok ({ Raw := t, Method := SigningMethodRS256, Header := [("alg", "RS256")],
             Claims := c.toStandardClaims, Signature := "", Valid := false },
        ["RS256", c.Subject, "rsasig"])
    else if t = ".".intercalate ["HS256", c.Subject, "s3cret"] then
      .ok ({ Raw := t, Method := SigningMethodHS256, Header := [("alg", "HS256")],
             Claims := c.toStandardClaims, Signature := "", Valid := false },
        ["HS256", c.Subject, "s3cret"])
    else .error (.ValidationError none [ValidationFlag.Malformed])
  sign := demoLib.sign
  verify := demoLib.verify

/-- A sample user repository holding `demoAlice` and `demoBob`, with empty passwords. -/
def demoUsers : Users where
  GetAndValidateUser := fun username password =>
    if password ≠ "" then none
    else if username = "alice" then some demoAlice
    else if username = "bob" then some demoBob
    else none
  GetUserByNameOrID := fun nameOrID =>
    if nameOrID = "alice" ∨ nameOrID = "1" then .ok demoAlice
    else if nameOrID = "bob" ∨ nameOrID = "2" then .ok demoBob
    else .error (.NotFoundError ("user " ++ nameOrID ++ " not present in database"))

/-- A repository that knows no user. -/
def demoNoUsers : Users where
  GetAndValidateUser := fun _ _ => none
  GetUserByNameOrID := fun nameOrID =>
    .error (.NotFoundError ("user " ++ nameOrID ++ " not present in database"))

/-- A sample application: five minutes for access tokens, forty hours for renew tokens, one
trusted key. -/
def demoApp : App :=
  { Users := demoUsers, extUsers := [],
    config :=
      { Secret := "", SignKey := ⟨⟨33, 3⟩, 7⟩, VerifyKey := ⟨33, 3⟩,
        AccessTokenExpireTime := 300000000000, RenewTokenExpireTime := 144000000000000,
        TrustedPublicKeys := some [⟨33, 3⟩] } }

/-- The external claims of a machine caller, one of whose role names is not a role. -/
def demoCarolClaims : customClaims :=
  { Audience := "", ExpiresAt := 2000, Id := "ext-1", IssuedAt := 900, Issuer := "partner",
    NotBefore := 900, Subject := "carol", Roles := ["ADMIN", "operator"], Azt := "" }

/-- The external claims of a machine caller with two valid role names. -/
def demoDaveClaims : customClaims :=
  { Audience := "", ExpiresAt := 2000, Id := "ext-2", IssuedAt := 900, Issuer := "partner",
    NotBefore := 900, Subject := "dave", Roles := ["monitor", "HELPDESK"], Azt := "" }

/-- A login request without `Authorization` header whose route variable `validate` has the
given value. -/
def demoLoginRequest (validate : String) : Request :=
  { Method := "POST", Header := [], Vars := [("validate", validate)] }

/-! ## Go standard library: `strconv.Atoi`, `len`, `crypto/x509`, files -/

/-- The range check of Go `strconv.ParseInt` for the 64-bit `int`: a value outside the range
is an error returned with the nearest bound. -/
def strconv.rangeCheck (v : Int) : Int × Option String :=
  if v < -9223372036854775808 then (-9223372036854775808, some "value out of range")
  else if 9223372036854775807 < v then (9223372036854775807, some "value out of range")
  else (v, none)

/-- Go `strconv.Atoi`, as the pair of its results: the value and the error (`none` is nil).
The input is an optional sign followed by one or more decimal digits; on a syntax error the
value is 0. -/
def strconv.Atoi (s : String) : Int × Option String :=
  let signed : Bool × List Char :=
    match s.data with
    | '-' :: rest => (true, rest)
    | '+' :: rest => (false, rest)
    | rest => (false, rest)
  if signed.2 = [] then (0, some "invalid syntax")
  else if !signed.2.all (fun ch => 48 ≤ ch.toNat && ch.toNat ≤ 57) then (0, some "invalid syntax")
  else
    let n : Int := signed.2.foldl (fun n ch => n * 10 + ((ch.toNat - 48 : Nat) : Int)) 0
    strconv.rangeCheck (if signed.1 then -n else n)

/-- The number of bytes of a rune in UTF-8. -/
def utf8RuneLen (r : Char) : Nat :=
  if r.toNat < 0x80 then 1
  else if r.toNat < 0x800 then 2
  else if r.toNat < 0x10000 then 3
  else 4

/-- Go `len(s)` for a string: the number of bytes of `s`. -/
def len (s : String) : Nat := (s.data.map utf8RuneLen).sum

/-- Go conversion `uint(i)` of an `int` (64 bits). -/
def uintOfInt (i : Int) : Nat := (i % 18446744073709551616).toNat

/-- The public keys `x509.ParsePKIXPublicKey` returns and `Certificate.PublicKey` holds: an
RSA key, or a key of another kind (ECDSA, Ed25519, ...), named by its Go type. -/
inductive PKIXKey
  | rsa (k : PublicKey)
  | other (goType : String)
deriving DecidableEq, Repr

/-- The part of `x509.Certificate` the code reads. -/
structure Certificate where
  PublicKey : PKIXKey
deriving DecidableEq, Repr

/-- The parsers of `crypto/x509` and the PEM decoder, taken as parameters; `pemDecode` gives
the bytes of the first PEM block, `none` when there is no block. -/
structure X509 where
  ParsePKCS1PrivateKey : List UInt8 → Except Error PrivateKey
  ParsePKCS8PrivateKey : List UInt8 → Except Error PKCS8Key
  ParsePKCS1PublicKey : List UInt8 → Except Error PublicKey
  ParseCertificate : List UInt8 → Except Error Certificate
  ParsePKIXPublicKey : List UInt8 → Except Error PKIXKey
  pemDecode : List UInt8 → Option (List UInt8)

/-- An entry of a directory listing (`os.FileInfo`). -/
structure FileInfo where
  Name : String
  IsDir : Bool
deriving DecidableEq, Repr

/-- The file system as `ReadPublicKeys` reads it: `ioutil.ReadDir` (entries sorted by name)
and `ioutil.ReadFile`. -/
structure FileSystem where
  ReadDir : String → Except Error (List FileInfo)
  ReadFile : String → Except Error (List UInt8)

/-- How a call ends: it returns a value, or the Go run time panics. -/
inductive Outcome (α : Type)
  | returns (value : α)
  | panics (message : String)
deriving DecidableEq, Repr

/-! ## `controllers/utils.go`: key pairs and the trusted keys -/

/-- The three results of `ReadKeyPair`, `readRSAKeyPair` and `readPKIXKeyPair`; `none` is
`nil`. -/
structure KeyPairResult where
  pubKey : Option PublicKey
  pvtKey : Option PrivateKey
  err : Option Error
deriving DecidableEq, Repr

/-- The function `readRSAKeyPair`. -/
def readRSAKeyPair (x : X509) (rawPubKey rawPvtKey : List UInt8) : KeyPairResult :=
  match x.ParsePKCS1PublicKey rawPubKey with
  | .error err => ⟨none, none, some (.errorString ("public key error " ++ err.message))⟩
  | .ok pubKey =>
    match readPrivateKey x.ParsePKCS1PrivateKey x.ParsePKCS8PrivateKey rawPvtKey with
    | .error err => ⟨none, none, some (.errorString ("private key error " ++ err.message))⟩
    | .ok pvtKey => ⟨some pubKey, some pvtKey, none⟩

/-- The function `readPKIXKeyPair`. -/
def readPKIXKeyPair (x : X509) (rawCert rawPvtKey : List UInt8) : KeyPairResult :=
  match x.ParseCertificate rawCert with
  | .error err => ⟨none, none, some (.errorString ("public key error " ++ err.message))⟩
  | .ok cert =>
    match cert.PublicKey with
    | .other _ =>
      ⟨none, none, some (.errorString
        "the certificate does not contain an RSA public key, found '*rsa.PublicKey' instead")⟩
    | .rsa pubKey =>
      match readPrivateKey x.ParsePKCS1PrivateKey x.ParsePKCS8PrivateKey rawPvtKey with
      | .error err => ⟨none, none, some (.errorString ("private key error " ++ err.message))⟩
      | .ok pvtKey => ⟨some pubKey, some pvtKey, none⟩

/-- The function `ReadKeyPair`. -/
def ReadKeyPair (x : X509) (rawPubKey rawPvtKey : List UInt8) (x509 : Bool) : KeyPairResult :=
  if x509 then readPKIXKeyPair x rawPubKey rawPvtKey
  else readRSAKeyPair x rawPubKey rawPvtKey

/-- Go `append(publicList, key)` on a slice that may be nil. -/
def appendKey (publicList : Option (List PublicKey)) (key : PublicKey) :
    Option (List PublicKey) :=
  match publicList with
  | none => some [key]
  | some keys => some (keys ++ [key])

/-- The loop of `ReadPublicKeys` over the directory entries still to read. The type assertion
`pKey.(*rsa.PublicKey)` has no `ok` result: on a key of another type it panics. -/
def ReadPublicKeysLoop (x : X509) (fs : FileSystem) (publicKeyListPath : String) :
    Option (List PublicKey) → List FileInfo → Outcome (Option (List PublicKey))
  | publicList, [] => .returns publicList
  | publicList, file :: files =>
    if file.IsDir then ReadPublicKeysLoop x fs publicKeyListPath publicList files
    else
      match fs.ReadFile (publicKeyListPath ++ "/" ++ file.Name) with
      | .error _ => ReadPublicKeysLoop x fs publicKeyListPath publicList files
      | .ok data =>
        match x.pemDecode data with
        | none => ReadPublicKeysLoop x fs publicKeyListPath publicList files
        | some blockBytes =>
          match x.ParsePKIXPublicKey blockBytes with
          | .error _ => ReadPublicKeysLoop x fs publicKeyListPath publicList files
          | .ok (.rsa rsaPKey) =>
            ReadPublicKeysLoop x fs publicKeyListPath (appendKey publicList rsaPKey) files
          | .ok (.other goType) =>
            .panics ("interface conversion: interface is " ++ goType
              ++ ", not *rsa.PublicKey")

/-- The function `ReadPublicKeys`. -/
def ReadPublicKeys (x : X509) (fs : FileSystem) (publicKeyListPath : String) :
    Outcome (Option (List PublicKey)) :=
  match fs.ReadDir publicKeyListPath with
  | .error _ => .returns none
  | .ok files => ReadPublicKeysLoop x fs publicKeyListPath none files

/-! ## `models/user.go`: role lists and passwords -/

/-- The method `RoleList.String`: the names of the roles (`Role.String` is the name). -/
def RoleList.String : List Role → List String
  | [] => []
  | r :: rest => r.Name :: RoleList.String rest

/-- The expression `[a-z]` matched against `p` (`MatchString`): some rune of `p` is in it. -/
def matchLower (p : String) : Bool := p.data.any (fun c => 97 ≤ c.toNat && c.toNat ≤ 122)

/-- The expression `[A-Z]` matched against `p`. -/
def matchUpper (p : String) : Bool := p.data.any (fun c => 65 ≤ c.toNat && c.toNat ≤ 90)

/-- The expression `[0-9]` matched against `p`. -/
def matchNumber (p : String) : Bool := p.data.any (fun c => 48 ≤ c.toNat && c.toNat ≤ 57)

/-- The characters of the class of `matchSpecial`, each written escaped in the expression. -/
def specialCharacters : List Char := "!@#$%^&*(\\)-_=+,.?/:;\x7b\x7d[]~".data

/-- The special-character class matched against `p`. -/
def matchSpecial (p : String) : Bool := p.data.any (fun c => specialCharacters.contains c)

/-- The function `validatePassword`; `.ok ()` is the nil error. -/
def validatePassword (p : String) : Except Error Unit :=
  if len p < 8 then .error (.errorString "password must be at least 8 characters long")
  else if !matchLower p then .error (.errorString "password must contain a lower character")
  else if !matchUpper p then .error (.errorString "password must contain an upper character")
  else if !matchNumber p then .error (.errorString "password must contain a digit")
  else if !matchSpecial p then
    .error (.errorString "password must contain a special character")
  else .ok ()

/-! ## `controllers/event.go`: the page count of the summary -/

/-- The type `models.EventSeverity`: the six declared severities. -/
inductive EventSeverity
  | Cleared
  | Indeterminate
  | Warning
  | Minor
  | Major
  | Critical
deriving DecidableEq, Repr

/-- The struct `SeverityCounts`. -/
structure SeverityCounts where
  Cleared : Int
  Critical : Int
  Indeterminate : Int
  Major : Int
  Minor : Int
  Warning : Int
deriving DecidableEq, Repr

/-- The constant `defaultPageSize`. -/
def defaultPageSize : Int := 25

/-- The variable `pageSize` of `GetEventsHandler`: `strconv.Atoi` of the query value
`page[size]`, the default when it does not parse. -/
def pageSizeParam (query : String) : Int :=
  match strconv.Atoi query with
  | (n, none) => n
  | (_, some _) => defaultPageSize

/-- The meta data of `GetEventsHandler` in summary mode: the six counts read from the event
repository and `totalPages`. Go integer division truncates, and panics on a zero divisor
(`none`). -/
def GetEventsHandlerMeta (GetEventsCount : EventSeverity → Int) (pageSize : Int) :
    Option (SeverityCounts × Int) :=
  let sC : SeverityCounts :=
    { Cleared := GetEventsCount .Cleared
      Indeterminate := GetEventsCount .Indeterminate
      Warning := GetEventsCount .Warning
      Minor := GetEventsCount .Minor
      Major := GetEventsCount .Major
      Critical := GetEventsCount .Critical }
  if pageSize = 0 then none
  else
    some (sC, 1 + Int.tdiv
      (sC.Major + sC.Minor + sC.Critical + sC.Cleared + sC.Warning + sC.Indeterminate) pageSize)

/-! ## `gorm`: the table `users`

The database is the list of the rows of `users`, each with its roles preloaded, in
primary-key order, and its statements succeed unless a key is taken: the error branches of the
repository stay in the embedding, the in-memory statements do not reach all of them. -/

/-- What the code reads of the `*gorm.DB` a statement returns. -/
structure GormResult where
  RowsAffected : Int
  Error : Option String
deriving DecidableEq, Repr

/-- The statement `First` under a condition: the first matching row in primary-key order is
loaded into the destination, which is left as it was when no row matches. -/
def gormFirst (rows : List User) (cond : User → Bool) (dest : User) : GormResult × User :=
  match rows.find? cond with
  | some row => (⟨1, none⟩, row)
  | none => (⟨0, some "record not found"⟩, dest)

/-- The statement `Where("username = ?", u).Find(&users)`. -/
def gormFindByUsername (rows : List User) (u : String) : GormResult × List User :=
  let found := rows.filter (fun row => row.Username = u)
  (⟨found.length, none⟩, found)

/-- The statement `Create`: a zero primary key is replaced by the next free one, a key that is
taken is an error. -/
def gormCreate (rows : List User) (u : User) : GormResult × User × List User :=
  let key := if u.ID = 0 then rows.foldl (fun m row => max m row.ID) 0 + 1 else u.ID
  if rows.any (fun row => row.ID = key) then
    (⟨0, some "UNIQUE constraint failed: users.id"⟩, u, rows)
  else
    let row := { u with ID := key }
    (⟨1, none⟩, row,
      rows.filter (fun old => old.ID < key) ++ [row] ++ rows.filter (fun old => key < old.ID))

/-- The statement `Updates(u)`: the non-zero columns of `u` are written to the row of its
primary key. -/
def gormUpdates (rows : List User) (u : User) : GormResult × List User :=
  (⟨(rows.filter (fun row => row.ID = u.ID)).length, none⟩,
    rows.map (fun row =>
      if row.ID = u.ID then
        { row with
          Username := if u.Username = "" then row.Username else u.Username
          Password := if u.Password = "" then row.Password else u.Password
          Version := if u.Version = 0 then row.Version else u.Version }
      else row))

/-- The statement `Model(&u).Association("Roles").Replace(&roles)`: the roles of the row of
`u` become `roles`. -/
def gormReplaceRoles (rows : List User) (u : User) (roles : List Role) : List User :=
  rows.map (fun row => if row.ID = u.ID then { row with Roles := roles } else row)

/-! ## `models/user.go`: the user repository -/

/-- The struct `UserRepo`. -/
structure UserRepo where
  DB : List User
deriving DecidableEq, Repr

/-- The method `UserRepo.GetUserByNameOrID`. -/
def UserRepo.GetUserByNameOrID (uR : UserRepo) (nameOrID : String) : Except RepoError User :=
  let res : GormResult × User :=
    match strconv.Atoi nameOrID with
    | (id, none) => gormFirst uR.DB (fun row => (row.ID : Int) = id) User.zero
    | (_, some _) => gormFirst uR.DB (fun row => row.Username = nameOrID) User.zero
  if res.1.RowsAffected = -1 then .error (.DBError (res.1.Error.getD ""))
  else if res.1.RowsAffected = 0 then
    .error (.NotFoundError ("user " ++ nameOrID ++ " not present in database"))
  else .ok res.2

/-- The method `UserRepo.ValidateUsername`; `.ok ()` is the nil error. -/
def UserRepo.ValidateUsername (uR : UserRepo) (u : String) : Except Error Unit :=
  if u = "" then .error (.errorString "username cannot be empty")
  else if (gormFindByUsername uR.DB u).1.RowsAffected > 0 then
    .error (.errorString ("user " ++ u ++ " already present in database"))
  else .ok ()

/-- The method `UserRepo.Create`; `bcrypt` stands for `bcrypt.GenerateFromPassword`. On
success it gives the user as stored and the repository after the insertion. -/
def UserRepo.Create (bcrypt : String → String) (uR : UserRepo) (u : User) :
    Except RepoError (User × UserRepo) :=
  if u.ID ≠ 0 ∧ (gormFirst uR.DB (fun row => row.ID = u.ID) u).1.RowsAffected ≠ 0 then
    .error (.UserError ("user ID " ++ toString u.ID ++ " already present in database"))
  else
    match uR.ValidateUsername u.Username with
    | .error err => .error (.UserError err.message)
    | .ok () =>
      match validatePassword u.Password with
      | .error err =>
        .error (.UserError ("password does not meet security requirements: " ++ err.message))
      | .ok () =>
        let hashed : User := { u with Password := bcrypt u.Password }
        let res := gormCreate uR.DB hashed
        match res.1.Error with
        | some msg => .error (.DBError msg)
        | none => .ok (res.2.1, ⟨res.2.2⟩)

/-- The method `UserRepo.UpdateUser`. -/
def UserRepo.UpdateUser (uR : UserRepo) (u : User) : Except RepoError UserRepo :=
  if u.ID = 0 then .error (.UserError "user ID is required")
  else
    let res := gormUpdates uR.DB u
    match res.1.Error with
    | some msg => .error (.DBError msg)
    | none => .ok ⟨gormReplaceRoles res.2 u u.Roles⟩

/-- The method `UserRepo.UpdateUserByNameOrID`. On success it gives the user as updated and
the repository after the update. -/
def UserRepo.UpdateUserByNameOrID (tbl : Char → Char) (bcrypt : String → String)
    (uR : UserRepo) (nameOrID username password : String) (roles : List String) :
    Except RepoError (User × UserRepo) :=
  match uR.GetUserByNameOrID nameOrID with
  | .error err => .error err
  | .ok found =>
    match NewRoleList tbl roles with
    | .error err => .error (.UserError err.message)
    | .ok rL =>
      let withRoles : User := if rL.length > 0 then { found with Roles := rL } else found
      let withName : User :=
        if username ≠ "" then { withRoles with Username := username } else withRoles
      let withPassword : Except RepoError User :=
        if password ≠ "" then
          match validatePassword password with
          | .error err =>
            .error (.UserError
              ("password does not meet security requirements: " ++ err.message))
          | .ok () => .ok { withName with Password := bcrypt password }
        else .ok withName
      match withPassword with
      | .error err => .error err
      | .ok changed =>
        let versioned : User := { changed with Version := changed.Version + 1 }
        let u : User :=
          match strconv.Atoi nameOrID with
          | (id, none) => { versioned with ID := uintOfInt id }
          | (_, some _) => versioned
        match uR.UpdateUser u with
        | .error err => .error err
        | .ok after => .ok (u, after)

/-! ## `controllers/user.go` -/

/-- The struct `UserRequest`. -/
structure UserRequest where
  ID : String
  Roles : List String
  Username : String
  Password : String
  Version : Int
deriving DecidableEq, Repr

/-- The struct `UserResponse`. -/
structure UserResponse where
  ID : Nat
  Roles : List String
  Username : String
  Version : Int
deriving DecidableEq, Repr

/-- What a user handler writes: `jsonapiError(w, code, message)` or
`jsonapiSuccess(w, response, statusCode)`. -/
inductive UserHandlerResult
  | jsonapiError (code : Nat) (message : String)
  | jsonapiSuccess (response : UserResponse) (statusCode : Nat)
deriving DecidableEq, Repr

/-- The response body of the user handlers for the user `user`. -/
def userResponse (user : User) : UserResponse :=
  { ID := user.ID, Roles := RoleList.String user.Roles, Username := user.Username,
    Version := user.Version }

/-- The handler `CreateUserHandler` on the repository `uR`; `body` is the result of
`jsonapi.UnmarshalPayload` on the request body. It gives the answer and the repository
afterwards (the user event it also stores has no part in the answer). -/
def CreateUserHandler (tbl : Char → Char) (bcrypt : String → String) (uR : UserRepo)
    (body : Except Error UserRequest) : UserHandlerResult × UserRepo :=
  match body with
  | .error err => (.jsonapiError 400 err.message, uR)
  | .ok requestBody =>
    match NewRoleList tbl requestBody.Roles with
    | .error err => (.jsonapiError 500 err.message, uR)
    | .ok rL =>
      let fresh : User :=
        { ID := 0, Username := requestBody.Username, Password := requestBody.Password,
          Roles := rL, Version := 1 }
      let user : User :=
        if requestBody.ID ≠ "" then
          { fresh with ID := uintOfInt (strconv.Atoi requestBody.ID).1 }
        else fresh
      match uR.Create bcrypt user with
      | .error (.UserError msg) => (.jsonapiError 400 msg, uR)
      | .error (.DBError msg) => (.jsonapiError 500 msg, uR)
      | .error (.NotFoundError _) => (.jsonapiSuccess (userResponse user) 200, uR)
      | .ok (stored, after) => (.jsonapiSuccess (userResponse stored) 200, after)

/-- The handler `PatchUserHandler` for the path parameter `id`. -/
def PatchUserHandler (tbl : Char → Char) (bcrypt : String → String) (uR : UserRepo)
    (body : Except Error UserRequest) (id : String) : UserHandlerResult × UserRepo :=
  let answer : RepoError → UserHandlerResult × UserRepo := fun err =>
    match err with
    | .NotFoundError msg => (.jsonapiError 404 msg, uR)
    | .UserError msg => (.jsonapiError 400 msg, uR)
    | .DBError msg => (.jsonapiError 500 msg, uR)
  match uR.GetUserByNameOrID id with
  | .error err => answer err
  | .ok _ =>
    match body with
    | .error err => (.jsonapiError 400 err.message, uR)
    | .ok requestBody =>
      match uR.UpdateUserByNameOrID tbl bcrypt id requestBody.Username requestBody.Password
          requestBody.Roles with
      | .error err => answer err
      | .ok (user, after) => (.jsonapiSuccess (userResponse user) 200, after)

/-! ## A third instance: parsers, a key directory, a user table, event counts -/

/-- Sample parsers over one-byte inputs: 1 is a PKCS1 public key, 2 a certificate with an RSA
key, 3 a certificate with an ECDSA key, 4 a PKCS1 private key, 5 a PKCS8 RSA private key, 6 a
PKIX RSA public key and 7 a PKIX ECDSA public key; a PEM file is its block after a zero byte. -/
def demoX509 : X509 where
  ParsePKCS1PrivateKey := fun b =>
    if b = [4] then .ok ⟨⟨33, 3⟩, 7⟩ else .error (.errorString "asn1: structure error")
  ParsePKCS8PrivateKey := fun b =>
    if b = [5] then .ok (.rsa ⟨⟨33, 3⟩, 7⟩) else .error (.errorString "asn1: structure error")
  ParsePKCS1PublicKey := fun b =>
    if b = [1] then .ok ⟨33, 3⟩ else .error (.errorString "asn1: structure error")
  ParseCertificate := fun b =>
    if b = [2] then .ok ⟨.rsa ⟨33, 3⟩⟩
    else if b = [3] then .ok ⟨.other "*ecdsa.PublicKey"⟩
    else .error (.errorString "x509: malformed certificate")
  ParsePKIXPublicKey := fun b =>
    if b = [6] then .ok (.rsa ⟨33, 3⟩)
    else if b = [7] then .ok (.other "*ecdsa.PublicKey")
    else .error (.errorString "asn1: structure error")
  pemDecode := fun data =>
    match data with
    | 0 :: block => some block
    | _ => none

/-- A sample key directory `keys`: a subdirectory, an RSA key, a file that is not PEM, a file
that cannot be read and a PEM file that is no key. -/
def demoKeyDir : FileSystem where
  ReadDir := fun path =>
    if path = "keys" then
      .ok [⟨"archive", true⟩, ⟨"partner.pem", false⟩, ⟨"notes.txt", false⟩,
        ⟨"locked.pem", false⟩, ⟨"broken.pem", false⟩]
    else .error (.errorString ("open " ++ path ++ ": no such file or directory"))
  ReadFile := fun path =>
    if path = "keys/partner.pem" then .ok [0, 6]
    else if path = "keys/notes.txt" then .ok [9, 9]
    else if path = "keys/broken.pem" then .ok [0, 9]
    else .error (.errorString ("open " ++ path ++ ": permission denied"))

/-- A sample key directory `keys` holding an RSA key and an ECDSA key. -/
def demoMixedKeyDir : FileSystem where
  ReadDir := fun path =>
    if path = "keys" then .ok [⟨"a-rsa.pem", false⟩, ⟨"b-ecdsa.pem", false⟩]
    else .error (.errorString ("open " ++ path ++ ": no such file or directory"))
  ReadFile := fun path =>
    if path = "keys/a-rsa.pem" then .ok [0, 6]
    else if path = "keys/b-ecdsa.pem" then .ok [0, 7]
    else .error (.errorString ("open " ++ path ++ ": no such file or directory"))

/-- A sample password hash. -/
def demoBcrypt (password : String) : String := "$2a$08$" ++ password

/-- A sample table `users`: the default administrator, a monitor user whose name is `1` and
the monitor user `bob`. -/
def demoRepo : UserRepo :=
  ⟨[{ ID := 1, Username := "admin", Password := "$2a$08$admin", Version := 1,
      Roles := [⟨1, "ADMIN"⟩] },
    { ID := 2, Username := "1", Password := "$2a$08$Qw3rty!x", Version := 1,
      Roles := [⟨3, "MONITOR"⟩] },
    { ID := 3, Username := "bob", Password := "$2a$08$Qw3rty!y", Version := 1,
      Roles := [⟨3, "MONITOR"⟩] }]⟩

/-- The access claims of the monitor user whose name is `1`, issued for one minute. -/
def demoOneClaims : customClaims :=
  newCustomClaims demoReads
    { ID := 2, Username := "1", Password := "", Version := 1, Roles := [⟨3, "MONITOR"⟩] }
    "ORANMGR" 60000000000

/-- A sample PATCH body that sets a new password. -/
def demoPasswordBody : UserRequest :=
  { ID := "", Roles := [], Username := "", Password := "Pwn3d!pwn", Version := 0 }

/-- A sample PATCH body that names the administrator role. -/
def demoRolesBody : UserRequest :=
  { ID := "", Roles := ["ADMIN"], Username := "", Password := "", Version := 0 }

/-- A sample POST body with a role name that is no role. -/
def demoOperatorBody : UserRequest :=
  { ID := "", Roles := ["operator"], Username := "carol", Password := "Qw3rty!zz", Version := 0 }

/-- Sample event counts: 25 events in all. -/
def demoCounts : EventSeverity → Int
  | .Cleared => 3
  | .Indeterminate => 0
  | .Warning => 7
  | .Minor => 5
  | .Major => 6
  | .Critical => 4

/-- The number of pages of size `pageSize` needed to list `n` events as the specification
states it, max(1, ceil(n / pageSize)); the ceiling of a quotient is the opposite of the floor
of the opposite quotient. -/
def pagesNeededSpec (n pageSize : Int) : Int := max 1 (-((-n) / pageSize))

/-- The key that `ReadPublicKeys` obtains from a directory entry: the key of a regular file
that can be read, PEM-decodes and parses as a PKIX public key; `none` for a subdirectory, an
unreadable file, data that is not PEM and an unparsable key. -/
def parsedKey (x : X509) (fs : FileSystem) (publicKeyListPath : String) (file : FileInfo) :
    Option PKIXKey :=
  if file.IsDir then none
  else
    match fs.ReadFile (publicKeyListPath ++ "/" ++ file.Name) with
    | .error _ => none
    | .ok data =>
      match x.pemDecode data with
      | none => none
      | some blockBytes =>
        match x.ParsePKIXPublicKey blockBytes with
        | .error _ => none
        | .ok key => some key

/-- The RSA keys among the keys obtained from the directory entries, in the order of the
entries. -/
def parsedRSAKeys (x : X509) (fs : FileSystem) (publicKeyListPath : String)
    (files : List FileInfo) : List PublicKey :=
  files.filterMap (fun file =>
    match parsedKey x fs publicKeyListPath file with
    | some (.rsa key) => some key
    | _ => none)

/-! ## Shared lemmas -/

theorem stringInSliceCaseInsensitive_iff (tbl : Char → Char) (sL : List String)
    (targetS : String) :
    stringInSliceCaseInsensitive tbl sL targetS = true ↔
      ∃ s ∈ sL, strings.ToLower tbl s = strings.ToLower tbl targetS := by
  induction sL with
  | nil => simp [stringInSliceCaseInsensitive]
  | cons s rest ih =>
    by_cases h : strings.ToLower tbl s = strings.ToLower tbl targetS
    · simp [stringInSliceCaseInsensitive, h]
    · simp [stringInSliceCaseInsensitive, h, ih]

theorem stringInSliceCaseInsensitive_false (tbl : Char → Char) (sL : List String)
    (targetS : String)
    (h : ¬ ∃ s ∈ sL, strings.ToLower tbl s = strings.ToLower tbl targetS) :
    stringInSliceCaseInsensitive tbl sL targetS = false := by
  rw [← Bool.not_eq_true, stringInSliceCaseInsensitive_iff]
  exact h

theorem adminRole_String : UserRole.AdminRole.String = "ADMIN" := by rfl

/-- The decision of `jwtMiddleware` once the token has been verified. -/
theorem jwtMiddleware_verified (lib : JwtLib) (tbl : Char → Char) (config : Config) (now : Time)
    (r : Request) (claims : customClaims)
    (hver : getClaimsFromAccessToken lib now (parseAuthHeader r) config.Secret config.VerifyKey
      = .ok claims) :
    jwtMiddleware lib tbl config now r =
      if !stringInSliceCaseInsensitive tbl claims.Roles "ADMIN" then
        if r.Method = "POST" || r.Method = "DELETE" then
          .jsonapiError 403 "forbidden request"
        else
          match r.Vars.lookup "id" with
          | some id =>
            if r.Method = "PATCH" && id != claims.Subject then
              .jsonapiError 403 "forbidden request"
            else .next
          | none => .next
      else .next := by
  unfold jwtMiddleware
  simp only [hver, adminRole_String]

/-- The answer of `jwtMiddleware` when the verification returns an error. -/
theorem jwtMiddleware_unverified (lib : JwtLib) (tbl : Char → Char) (config : Config)
    (now : Time) (r : Request) (err : Error)
    (hver : getClaimsFromAccessToken lib now (parseAuthHeader r) config.Secret config.VerifyKey
      = .error err) :
    jwtMiddleware lib tbl config now r = .jsonapiError 401 "unauthorized request" := by
  unfold jwtMiddleware
  simp only [hver]

/-- The claims validation passes exactly when each time claim is unset or in order with the
clock. -/
theorem StandardClaims_Valid_eq_nil (c : StandardClaims) (n : Int) :
    c.Valid n = [] ↔
      (c.ExpiresAt = 0 ∨ n ≤ c.ExpiresAt) ∧ (c.IssuedAt = 0 ∨ c.IssuedAt ≤ n)
        ∧ (c.NotBefore = 0 ∨ c.NotBefore ≤ n) := by
  unfold StandardClaims.Valid verifyExp verifyIat verifyNbf
  by_cases h1 : c.ExpiresAt = 0 <;> by_cases h2 : c.IssuedAt = 0 <;>
    by_cases h3 : c.NotBefore = 0 <;>
    by_cases h4 : n ≤ c.ExpiresAt <;> by_cases h5 : c.IssuedAt ≤ n <;>
    by_cases h6 : c.NotBefore ≤ n <;> simp [h1, h2, h3, h4, h5, h6]

/-- When `ParseWithClaims` returns a token: the string parsed, the key function gave a key,
the signature verified under it and the claims validation set no bit. -/
theorem ParseWithClaims_eq_ok {C : Type}
    (parseUnverified : String → Except Error (Token C × List String))
    (verify : SigningMethod → String → String → Key → Except Error Unit)
    (claimsValid : C → Int → List ValidationFlag) (now : Time) (t : String)
    (keyFunc : Keyfunc C) (tok : Token C) :
    ParseWithClaims parseUnverified verify claimsValid now t keyFunc = .ok tok ↔
      ∃ token parts key, parseUnverified t = .ok (token, parts) ∧ keyFunc token = .ok key ∧
        verify token.Method (".".intercalate (parts.take 2)) (parts.getD 2 "") key = .ok () ∧
        claimsValid token.Claims (Time.Unix now) = [] ∧
        tok = { token with Signature := parts.getD 2 "", Valid := true } := by
  unfold ParseWithClaims
  constructor
  · intro h
    cases hp : parseUnverified t with
    | error e =>
      rw [hp] at h
      cases h
    | ok res =>
      obtain ⟨token, parts⟩ := res
      rw [hp] at h
      cases hk : keyFunc token with
      | error e =>
        simp only [hk] at h
        cases h
      | ok key =>
        simp only [hk] at h
        cases hv : verify token.Method (".".intercalate (parts.take 2)) (parts.getD 2 "") key with
        | error e =>
          simp only [hv] at h
          cases h
        | ok u =>
          simp only [hv] at h
          by_cases hc : claimsValid token.Claims (Time.Unix now) = []
          · rw [if_pos hc] at h
            injection h with h
            exact ⟨token, parts, key, rfl, hk, hv, hc, h.symm⟩
          · rw [if_neg hc] at h
            cases h
  · rintro ⟨token, parts, key, hp, hk, hv, hc, rfl⟩
    simp only [hp, hk, hv, if_pos hc]

/-- When `getClaimsFromAccessToken` returns claims. -/
theorem getClaimsFromAccessToken_eq_ok (lib : JwtLib) (now : Time) (t secret : String)
    (verifyKey : PublicKey) (c : customClaims) :
    getClaimsFromAccessToken lib now t secret verifyKey = .ok c ↔
      ∃ token parts key, lib.parseCustom t = .ok (token, parts) ∧
        getKeyFunc secret verifyKey token = .ok key ∧
        lib.verify token.Method (".".intercalate (parts.take 2)) (parts.getD 2 "") key = .ok () ∧
        token.Claims.toStandardClaims.Valid (Time.Unix now) = [] ∧ c = token.Claims := by
  unfold getClaimsFromAccessToken
  constructor
  · intro h
    cases hp : ParseWithClaims lib.parseCustom lib.verify (fun c => c.toStandardClaims.Valid) now t
        (getKeyFunc secret verifyKey) with
    | error e => simp [hp] at h
    | ok tok =>
      obtain ⟨token, parts, key, h1, h2, h3, h4, h5⟩ := (ParseWithClaims_eq_ok _ _ _ _ _ _ _).mp hp
      subst h5
      simp [hp] at h
      exact ⟨token, parts, key, h1, h2, h3, h4, h.symm⟩
  · rintro ⟨token, parts, key, h1, h2, h3, h4, rfl⟩
    have hp := (ParseWithClaims_eq_ok lib.parseCustom lib.verify
      (fun c => c.toStandardClaims.Valid) now t (getKeyFunc secret verifyKey) _).mpr
      ⟨token, parts, key, h1, h2, h3, h4, rfl⟩
    simp [hp]

/-- When `getClaimsFromM2MToken` returns claims. -/
theorem getClaimsFromM2MToken_eq_ok (lib : JwtLib) (now : Time) (t : String)
    (verifyKey : PublicKey) (c : customClaims) :
    getClaimsFromM2MToken lib now t verifyKey = .ok c ↔
      ∃ token parts key, lib.parseCustom t = .ok (token, parts) ∧
        m2mKeyFunc verifyKey token = .ok key ∧
        lib.verify token.Method (".".intercalate (parts.take 2)) (parts.getD 2 "") key = .ok () ∧
        token.Claims.toStandardClaims.Valid (Time.Unix now) = [] ∧ c = token.Claims := by
  unfold getClaimsFromM2MToken
  constructor
  · intro h
    cases hp : ParseWithClaims lib.parseCustom lib.verify (fun c => c.toStandardClaims.Valid) now t
        (m2mKeyFunc verifyKey) with
    | error e => simp [hp] at h
    | ok tok =>
      obtain ⟨token, parts, key, h1, h2, h3, h4, h5⟩ := (ParseWithClaims_eq_ok _ _ _ _ _ _ _).mp hp
      subst h5
      simp [hp] at h
      exact ⟨token, parts, key, h1, h2, h3, h4, h.symm⟩
  · rintro ⟨token, parts, key, h1, h2, h3, h4, rfl⟩
    have hp := (ParseWithClaims_eq_ok lib.parseCustom lib.verify
      (fun c => c.toStandardClaims.Valid) now t (m2mKeyFunc verifyKey) _).mpr
      ⟨token, parts, key, h1, h2, h3, h4, rfl⟩
    simp [hp]

/-- A result that is no claims is an error. -/
theorem except_error_of_not_ok {α : Type} (res : Except Error α)
    (hno : ∀ val, ¬ res = Except.ok val) : ∃ err, res = Except.error err := by
  rcases res with err | val
  · exact ⟨err, rfl⟩
  · exact (hno val rfl).elim

/-- The key function of `getKeyFunc` returns a key exactly for the expected method family. -/
theorem getKeyFunc_eq_ok {C : Type} (secret : String) (verifyKey : PublicKey) (token : Token C)
    (key : Key) :
    getKeyFunc secret verifyKey token = .ok key ↔
      (secret = "" ∧ token.Method.isRSA = true ∧ key = Key.rsaPublicKey verifyKey)
        ∨ (secret ≠ "" ∧ token.Method.isHMAC = true ∧ key = Key.bytes secret) := by
  unfold getKeyFunc
  by_cases hs : secret = ""
  · subst hs
    cases hm : token.Method.isRSA
    · simp [hm]
    · simp only [if_true, hm, Bool.not_true, Bool.false_eq_true, if_false, Except.ok.injEq]
      constructor
      · intro h
        exact Or.inl ⟨trivial, trivial, h.symm⟩
      · rintro (⟨_, _, h⟩ | ⟨h, _⟩)
        · exact h.symm
        · exact absurd rfl h
  · cases hm : token.Method.isHMAC
    · simp [hs, hm]
    · simp only [if_neg hs, hm, Bool.not_true, Bool.false_eq_true, if_false, Except.ok.injEq]
      constructor
      · intro h
        exact Or.inr ⟨hs, trivial, h.symm⟩
      · rintro (⟨h, _⟩ | ⟨_, _, h⟩)
        · exact absurd h hs
        · exact h.symm

theorem isRSA_eq_false (m : SigningMethod) (h : ∀ alg, m ≠ SigningMethod.SigningMethodRSA alg) :
    m.isRSA = false := by
  cases m <;> simp_all [SigningMethod.isRSA]

theorem isHMAC_eq_false (m : SigningMethod)
    (h : ∀ alg, m ≠ SigningMethod.SigningMethodHMAC alg) : m.isHMAC = false := by
  cases m <;> simp_all [SigningMethod.isHMAC]

/-- The loop of `authorizeM2MRequest` returns the claims of the first key that verifies. -/
theorem authorizeM2MLoop_first (lib : JwtLib) (clock : Nat → Time) (t : String) :
    ∀ (pre : List PublicKey) (i : Nat) (k : PublicKey) (post : List PublicKey)
      (c : customClaims),
      (∀ j (hj : j < pre.length),
        ∃ e, getClaimsFromM2MToken lib (clock (i + j)) t pre[j] = .error e) →
      getClaimsFromM2MToken lib (clock (i + pre.length)) t k = .ok c →
      authorizeM2MLoop lib clock t i (pre ++ k :: post) = .ok c := by
  intro pre
  induction pre with
  | nil =>
    intro i k post c _ hk
    simp only [List.nil_append, authorizeM2MLoop]
    simp only [List.length_nil, Nat.add_zero] at hk
    rw [hk]
  | cons p pre ih =>
    intro i k post c hpre hk
    obtain ⟨e, he⟩ := hpre 0 (by simp)
    simp only [Nat.add_zero, List.getElem_cons_zero] at he
    simp only [List.cons_append, authorizeM2MLoop, he]
    apply ih (i + 1) k post c
    · intro j hj
      obtain ⟨e2, he2⟩ := hpre (j + 1) (by simp; omega)
      simp only [List.getElem_cons_succ] at he2
      refine ⟨e2, ?_⟩
      rw [← he2]
      congr 2
      omega
    · rw [← hk]
      congr 2
      simp only [List.length_cons]
      omega

/-- When the loop of `authorizeM2MRequest` returns claims, they are those of a key that
verifies and every key before it failed. -/
theorem authorizeM2MLoop_ok (lib : JwtLib) (clock : Nat → Time) (t : String) :
    ∀ (keys : List PublicKey) (i : Nat) (c : customClaims),
      authorizeM2MLoop lib clock t i keys = .ok c →
      ∃ pre k post, keys = pre ++ k :: post ∧
        (∀ j (hj : j < pre.length),
          ∃ e, getClaimsFromM2MToken lib (clock (i + j)) t pre[j] = .error e) ∧
        getClaimsFromM2MToken lib (clock (i + pre.length)) t k = .ok c := by
  intro keys
  induction keys with
  | nil =>
    intro i c h
    simp only [authorizeM2MLoop] at h
    cases h
  | cons p rest ih =>
    intro i c h
    simp only [authorizeM2MLoop] at h
    cases hp : getClaimsFromM2MToken lib (clock i) t p with
    | ok c2 =>
      rw [hp] at h
      injection h with h
      subst h
      refine ⟨[], p, rest, rfl, ?_, ?_⟩
      · intro j hj
        simp at hj
      · simpa using hp
    | error e =>
      rw [hp] at h
      obtain ⟨pre, k, post, hkeys, hpre, hk⟩ := ih (i + 1) c h
      refine ⟨p :: pre, k, post, by rw [hkeys]; rfl, ?_, ?_⟩
      · intro j hj
        cases j with
        | zero => exact ⟨e, by simpa using hp⟩
        | succ j =>
          obtain ⟨e2, he2⟩ := hpre j (by simpa using hj)
          refine ⟨e2, ?_⟩
          simp only [List.getElem_cons_succ]
          rw [← he2]
          congr 2
          omega
      · rw [← hk]
        congr 2
        simp only [List.length_cons]
        omega

/-- The loop of `authorizeM2MRequest` ends in the no-issuer error exactly when every key
fails; it returns no other error. -/
theorem authorizeM2MLoop_error (lib : JwtLib) (clock : Nat → Time) (t : String) :
    ∀ (keys : List PublicKey) (i : Nat),
      (authorizeM2MLoop lib clock t i keys = .error (.errorString "no issuer found") ↔
        ∀ j (hj : j < keys.length),
          ∃ e, getClaimsFromM2MToken lib (clock (i + j)) t keys[j] = .error e) := by
  intro keys
  induction keys with
  | nil =>
    intro i
    simp [authorizeM2MLoop]
  | cons p rest ih =>
    intro i
    simp only [authorizeM2MLoop]
    cases hp : getClaimsFromM2MToken lib (clock i) t p with
    | ok c2 =>
      simp only []
      constructor
      · intro h
        cases h
      · intro h
        obtain ⟨e, he⟩ := h 0 (by simp)
        simp only [Nat.add_zero, List.getElem_cons_zero] at he
        rw [hp] at he
        cases he
    | error e =>
      simp only []
      rw [ih (i + 1)]
      constructor
      · intro h j hj
        cases j with
        | zero => exact ⟨e, by simpa using hp⟩
        | succ j =>
          obtain ⟨e2, he2⟩ := h j (by simpa using hj)
          refine ⟨e2, ?_⟩
          simp only [List.getElem_cons_succ]
          rw [← he2]
          congr 2
          omega
      · intro h j hj
        obtain ⟨e2, he2⟩ := h (j + 1) (by simp; omega)
        simp only [List.getElem_cons_succ] at he2
        refine ⟨e2, ?_⟩
        rw [← he2]
        congr 2
        omega

/-- The role names collected by `newCustomClaims` are the names of the roles, in order. -/
theorem roleNames_eq_map (roles : List Role) : roleNames roles = roles.map Role.Name := by
  induction roles with
  | nil => rfl
  | cons r rest ih => simp [roleNames, ih]

/-- A token whose claims pass the validation at the clock of the verification makes the round
trip, in either configuration. -/
theorem accessToken_accepted (lib : JwtLib) (c : customClaims) (now : Time)
    (signKey : PrivateKey) (verifyKey : PublicKey)
    (hvalid : c.toStandardClaims.Valid (Time.Unix now) = []) :
    (∀ secret, secret ≠ "" →
        lib.RoundTrips SigningMethodHS256 (Key.bytes secret) (Key.bytes secret) c →
        ∃ tok, generateToken lib c secret signKey = .ok tok ∧
          getClaimsFromAccessToken lib now tok secret verifyKey = .ok c)
      ∧ (lib.RoundTrips SigningMethodRS256 (Key.rsaPrivateKey signKey)
          (Key.rsaPublicKey verifyKey) c →
        ∃ tok, generateToken lib c "" signKey = .ok tok ∧
          getClaimsFromAccessToken lib now tok "" verifyKey = .ok c) := by
  constructor
  · intro secret hs hrt
    obtain ⟨sstr, sig, token, parts, h1, h2, h3, h4, h5, h6, h7, h8⟩ := hrt
    refine ⟨".".intercalate [sstr, sig], ?_, ?_⟩
    · simp only [generateToken, if_neg hs, SignedString, h1, h2]
    · rw [getClaimsFromAccessToken_eq_ok]
      refine ⟨token, parts, Key.bytes secret, h3, ?_, ?_, ?_, h5.symm⟩
      · rw [getKeyFunc_eq_ok]
        exact Or.inr ⟨hs, by rw [h4]; rfl, rfl⟩
      · rw [h4, h6, h7]
        exact h8
      · rw [h5]
        exact hvalid
  · intro hrt
    obtain ⟨sstr, sig, token, parts, h1, h2, h3, h4, h5, h6, h7, h8⟩ := hrt
    refine ⟨".".intercalate [sstr, sig], ?_, ?_⟩
    · simp only [generateToken, if_true, SignedString, h1, h2]
    · rw [getClaimsFromAccessToken_eq_ok]
      refine ⟨token, parts, Key.rsaPublicKey verifyKey, h3, ?_, ?_, ?_, h5.symm⟩
      · rw [getKeyFunc_eq_ok]
        exact Or.inl ⟨rfl, by rw [h4]; rfl, rfl⟩
      · rw [h4, h6, h7]
        exact h8
      · rw [h5]
        exact hvalid

/-- A token whose expiry second is set and lies before the second of the verification is
rejected. -/
theorem getClaimsFromAccessToken_expired (lib : JwtLib) (now : Time) (t secret : String)
    (verifyKey : PublicKey) (tok : Token customClaims) (parts : List String)
    (hp : lib.parseCustom t = .ok (tok, parts)) (hset : tok.Claims.ExpiresAt ≠ 0)
    (hlate : tok.Claims.ExpiresAt < Time.Unix now) :
    ∃ e, getClaimsFromAccessToken lib now t secret verifyKey = .error e := by
  apply except_error_of_not_ok
  intro c hc
  obtain ⟨token2, parts2, key, h1, _, _, h4, _⟩ :=
    (getClaimsFromAccessToken_eq_ok _ _ _ _ _ _).mp hc
  rw [hp] at h1
  injection h1 with h1
  injection h1 with ht _
  subst ht
  rcases ((StandardClaims_Valid_eq_nil _ _).mp h4).1 with h | h
  · exact hset h
  · omega

/-- The compact form of a token is not the empty string. -/
theorem SignedString_ne_empty (signingString : Except Error String)
    (sign : SigningMethod → String → Key → Except Error String) (method : SigningMethod)
    (key : Key) (tok : String) (h : SignedString signingString sign method key = .ok tok) :
    tok ≠ "" := by
  unfold SignedString at h
  cases signingString with
  | error e => cases h
  | ok sstr =>
    simp only [] at h
    cases hs : sign method sstr key with
    | error e =>
      rw [hs] at h
      cases h
    | ok sig =>
      rw [hs] at h
      injection h with h
      intro hempty
      rw [hempty] at h
      have hlen := congrArg String.length h
      simp [String.intercalate, String.intercalate.go] at hlen
      exact absurd hlen.1.2 (by decide)

/-- A renew token that `generateToken` returns is not the empty string. -/
theorem generateTokenStandard_ne_empty (lib : JwtLib) (rC : StandardClaims) (secret : String)
    (signKey : PrivateKey) (tok : String)
    (h : generateTokenStandard lib rC secret signKey = .ok tok) : tok ≠ "" := by
  unfold generateTokenStandard at h
  by_cases hs : secret = ""
  · simp only [hs, if_true] at h
    cases hx : SignedString (lib.signingStringStandard SigningMethodRS256 rC) lib.sign
        SigningMethodRS256 (Key.rsaPrivateKey signKey) with
    | error e =>
      rw [hx] at h
      cases h
    | ok tok2 =>
      rw [hx] at h
      injection h with h
      subst h
      exact SignedString_ne_empty _ _ _ _ _ hx
  · simp only [if_neg hs] at h
    cases hx : SignedString (lib.signingStringStandard SigningMethodHS256 rC) lib.sign
        SigningMethodHS256 (Key.bytes secret) with
    | error e =>
      rw [hx] at h
      cases h
    | ok tok2 =>
      rw [hx] at h
      injection h with h
      subst h
      exact SignedString_ne_empty _ _ _ _ _ hx

/-- A successful answer of the end of `CreateSessionHandler`: status 200, the access token
signed from the session claims, and a renew token exactly when the renew lifetime is not
zero. -/
theorem issueSession_success (lib : JwtLib) (a : App) (rdAccess rdRenew : Reads)
    (validate : Bool) (user : User) (domain auth : String)
    (rb : CreateSessionHandlerResponse) (st : Nat)
    (h : issueSession lib a rdAccess rdRenew validate user domain
      = .jsonapiSuccessMetaOnly auth rb st) :
    generateToken lib (sessionClaims a rdAccess validate user domain) a.config.Secret
        a.config.SignKey = .ok rb.AccessToken
      ∧ auth = "Bearer " ++ rb.AccessToken ∧ st = 200
      ∧ ((a.config.RenewTokenExpireTime = 0 ∧ rb.RenewToken = "")
        ∨ (a.config.RenewTokenExpireTime ≠ 0 ∧
            generateTokenStandard lib
              (newStandardClaims rdRenew user domain a.config.RenewTokenExpireTime)
              a.config.Secret a.config.SignKey = .ok rb.RenewToken)) := by
  unfold issueSession at h
  cases hg : generateToken lib (sessionClaims a rdAccess validate user domain) a.config.Secret
      a.config.SignKey with
  | error e =>
    simp only [hg] at h
    cases h
  | ok tok =>
    simp only [hg] at h
    by_cases hz : a.config.RenewTokenExpireTime = 0
    · rw [if_pos hz] at h
      injection h with h1 h2 h3
      subst h1 h2 h3
      exact ⟨rfl, rfl, rfl, Or.inl ⟨hz, rfl⟩⟩
    · rw [if_neg hz] at h
      cases hr : generateTokenStandard lib
          (newStandardClaims rdRenew user domain a.config.RenewTokenExpireTime)
          a.config.Secret a.config.SignKey with
      | error e =>
        simp only [hr] at h
        cases h
      | ok rtok =>
        simp only [hr] at h
        injection h with h1 h2 h3
        subst h1 h2 h3
        exact ⟨rfl, rfl, rfl, Or.inr ⟨hz, rfl⟩⟩

/-- What `CreateSessionHandler` does once `authorizeM2MRequest` has accepted the presented
token: the user is the subject of the external claims with the roles that `NewRoleList` kept,
the same roles are stored in `extUsers`, and the session is issued for the external domain. -/
theorem CreateSessionHandler_m2m (lib : JwtLib) (tbl : Char → Char) (a : App)
    (clock : Nat → Time) (rdAccess rdRenew : Reads) (r : Request)
    (requestBody : CreateSessionHandlerRequest) (decoded : customClaims)
    (ht : presentedToken r requestBody ≠ "")
    (hauth : authorizeM2MRequest lib clock (presentedToken r requestBody)
      a.config.TrustedPublicKeys = .ok decoded) :
    CreateSessionHandler lib tbl a clock rdAccess rdRenew r (.ok requestBody)
      = (issueSession lib
          { a with extUsers := (decoded.Subject, m2mRoles tbl decoded) :: a.extUsers }
          rdAccess rdRenew (validateParam r)
          { User.zero with Username := decoded.Subject, Roles := m2mRoles tbl decoded }
          ExternalDomain,
        { a with extUsers := (decoded.Subject, m2mRoles tbl decoded) :: a.extUsers }) := by
  unfold CreateSessionHandler
  simp only [ht, ne_eq, not_false_eq_true, if_true, hauth]
  unfold m2mRoles
  cases NewRoleList tbl decoded.Roles <;> rfl

/-- What `CreateSessionHandler` does with a request that presents no token. -/
theorem CreateSessionHandler_credentials (lib : JwtLib) (tbl : Char → Char) (a : App)
    (clock : Nat → Time) (rdAccess rdRenew : Reads) (r : Request)
    (requestBody : CreateSessionHandlerRequest) (ht : presentedToken r requestBody = "") :
    CreateSessionHandler lib tbl a clock rdAccess rdRenew r (.ok requestBody)
      = match a.Users.GetAndValidateUser requestBody.Username requestBody.Password with
        | none => (.jsonapiError 401 "user not allowed", a)
        | some user =>
          (issueSession lib a rdAccess rdRenew (validateParam r) user InternalDomain, a) := by
  unfold CreateSessionHandler
  simp only [ht, ne_eq, not_true_eq_false, if_false]

/-- A successful answer of `CreateSessionHandler` is the answer of the end of the handler for
some user and domain, under the configuration of the call. -/
theorem CreateSessionHandler_success (lib : JwtLib) (tbl : Char → Char) (a : App)
    (clock : Nat → Time) (rdAccess rdRenew : Reads) (r : Request)
    (body : Except Error CreateSessionHandlerRequest) (auth : String)
    (rb : CreateSessionHandlerResponse) (st : Nat)
    (h : (CreateSessionHandler lib tbl a clock rdAccess rdRenew r body).1
      = .jsonapiSuccessMetaOnly auth rb st) :
    ∃ (a2 : App) (user : User) (domain : String), a2.config = a.config ∧
      issueSession lib a2 rdAccess rdRenew (validateParam r) user domain
        = .jsonapiSuccessMetaOnly auth rb st := by
  cases body with
  | error e =>
    simp only [CreateSessionHandler] at h
    cases h
  | ok requestBody =>
    by_cases ht : presentedToken r requestBody = ""
    · rw [CreateSessionHandler_credentials lib tbl a clock rdAccess rdRenew r requestBody ht] at h
      cases hu : a.Users.GetAndValidateUser requestBody.Username requestBody.Password with
      | none =>
        simp only [hu] at h
        cases h
      | some user =>
        simp only [hu] at h
        exact ⟨a, user, InternalDomain, rfl, h⟩
    · cases hauth : authorizeM2MRequest lib clock (presentedToken r requestBody)
          a.config.TrustedPublicKeys with
      | error e =>
        simp only [CreateSessionHandler, ht, ne_eq, not_false_eq_true, if_true, hauth] at h
        cases h
      | ok decoded =>
        rw [CreateSessionHandler_m2m lib tbl a clock rdAccess rdRenew r requestBody decoded ht
          hauth] at h
        exact ⟨_, _, ExternalDomain, rfl, h⟩

/-- When `getClaimsFromRenewToken` returns claims. -/
theorem getClaimsFromRenewToken_eq_ok (lib : JwtLib) (now : Time) (t secret : String)
    (verifyKey : PublicKey) (c : StandardClaims) :
    getClaimsFromRenewToken lib now t secret verifyKey = .ok c ↔
      ∃ token parts key, lib.parseStandard t = .ok (token, parts) ∧
        getKeyFunc secret verifyKey token = .ok key ∧
        lib.verify token.Method (".".intercalate (parts.take 2)) (parts.getD 2 "") key = .ok () ∧
        token.Claims.Valid (Time.Unix now) = [] ∧ c = token.Claims := by
  unfold getClaimsFromRenewToken
  constructor
  · intro h
    cases hp : ParseWithClaims lib.parseStandard lib.verify StandardClaims.Valid now t
        (getKeyFunc secret verifyKey) with
    | error e => simp [hp] at h
    | ok tok =>
      obtain ⟨token, parts, key, h1, h2, h3, h4, h5⟩ := (ParseWithClaims_eq_ok _ _ _ _ _ _ _).mp hp
      subst h5
      simp [hp] at h
      exact ⟨token, parts, key, h1, h2, h3, h4, h.symm⟩
  · rintro ⟨token, parts, key, h1, h2, h3, h4, rfl⟩
    have hp := (ParseWithClaims_eq_ok lib.parseStandard lib.verify
      StandardClaims.Valid now t (getKeyFunc secret verifyKey) _).mpr
      ⟨token, parts, key, h1, h2, h3, h4, rfl⟩
    simp [hp]

/-- The subject and the roles of the session claims are the name and the role names of the
user they are built for. -/
theorem sessionClaims_subject_roles (a : App) (rdAccess : Reads) (validate : Bool) (user : User)
    (domain : String) :
    (sessionClaims a rdAccess validate user domain).Subject = user.Username
      ∧ (sessionClaims a rdAccess validate user domain).Roles = user.Roles.map Role.Name := by
  unfold sessionClaims
  cases validate
  · exact ⟨rfl, roleNames_eq_map user.Roles⟩
  · exact ⟨rfl, roleNames_eq_map user.Roles⟩

/-- The loop of `NewRoleList`, when it succeeds, appends one role per name, named as the
input. -/
theorem NewRoleListLoop_names (tbl : Char → Char) :
    ∀ (names : List String) (acc roles : List Role),
      NewRoleListLoop tbl acc names = .ok roles →
      roles.map Role.Name = acc.map Role.Name ++ names := by
  intro names
  induction names with
  | nil =>
    intro acc roles h
    simp only [NewRoleListLoop] at h
    injection h with h
    subst h
    simp
  | cons rS rest ih =>
    intro acc roles h
    simp only [NewRoleListLoop] at h
    split at h
    · have := ih _ _ h
      simpa using this
    · split at h
      · have := ih _ _ h
        simpa using this
      · split at h
        · have := ih _ _ h
          simpa using this
        · cases h

/-- The loop of `NewRoleList` succeeds exactly when every name is one of the three role names,
compared without regard to case. -/
theorem NewRoleListLoop_ok_iff (tbl : Char → Char) :
    ∀ (names : List String) (acc : List Role),
      (∃ roles, NewRoleListLoop tbl acc names = .ok roles) ↔
        ∀ rS ∈ names,
          strings.ToLower tbl rS = strings.ToLower tbl "ADMIN"
            ∨ strings.ToLower tbl rS = strings.ToLower tbl "HELPDESK"
            ∨ strings.ToLower tbl rS = strings.ToLower tbl "MONITOR" := by
  intro names
  induction names with
  | nil =>
    intro acc
    simp [NewRoleListLoop]
  | cons rS rest ih =>
    intro acc
    have ha : UserRole.AdminRole.String = "ADMIN" := rfl
    have hh : UserRole.HelpdeskRole.String = "HELPDESK" := rfl
    have hm : UserRole.MonitorRole.String = "MONITOR" := rfl
    simp only [NewRoleListLoop, ha, hh, hm, List.mem_cons, forall_eq_or_imp]
    by_cases h1 : strings.ToLower tbl rS = strings.ToLower tbl "ADMIN"
    · simp only [h1, if_true, true_or, true_and]
      exact ih _
    · by_cases h2 : strings.ToLower tbl rS = strings.ToLower tbl "HELPDESK"
      · simp only [h1, h2, if_true, if_false, true_or, or_true, true_and]
        exact ih _
      · by_cases h3 : strings.ToLower tbl rS = strings.ToLower tbl "MONITOR"
        · simp only [h1, h2, h3, if_true, if_false, or_true, true_and]
          exact ih _
        · simp [h1, h2, h3]

/-- The role names kept for an external caller: those of the token when `NewRoleList` accepts
them all, none otherwise. -/
theorem m2mRoles_names (tbl : Char → Char) (decoded : customClaims) :
    ((∃ roles, NewRoleList tbl decoded.Roles = .ok roles) →
        (m2mRoles tbl decoded).map Role.Name = decoded.Roles)
      ∧ ((∃ e, NewRoleList tbl decoded.Roles = .error e) → m2mRoles tbl decoded = []) := by
  unfold m2mRoles
  constructor
  · rintro ⟨roles, h⟩
    rw [h]
    have := NewRoleListLoop_names tbl decoded.Roles [] roles h
    simpa using this
  · rintro ⟨e, h⟩
    rw [h]

/-- A successful answer of `RenewTokenHandler`: the body decoded, the user came from `extUsers`
or else from the repository, the renew token verified, and the access token is signed from
the claims that `newCustomClaims` builds for that user, the issuer of the renew token and the
configured `RenewTokenExpireTime`. -/
theorem RenewTokenHandler_success (lib : JwtLib) (a : App) (now : Time) (rd : Reads)
    (body : Except Error RenewTokenHandlerRequest) (auth : String)
    (rb : CreateSessionHandlerResponse) (st : Nat)
    (h : RenewTokenHandler lib a now rd body = .jsonapiSuccessMetaOnly auth rb st) :
    ∃ (req : RenewTokenHandlerRequest) (user : User) (claims : StandardClaims),
      body = .ok req ∧
      ((∃ roles, a.extUsers.lookup req.UserID = some roles ∧
          user = { User.zero with Username := req.UserID, Roles := roles })
        ∨ (a.extUsers.lookup req.UserID = none ∧
            a.Users.GetUserByNameOrID req.UserID = .ok user)) ∧
      getClaimsFromRenewToken lib now req.RenewToken a.config.Secret a.config.VerifyKey
        = .ok claims ∧
      generateToken lib (newCustomClaims rd user claims.Issuer a.config.RenewTokenExpireTime)
        a.config.Secret a.config.SignKey = .ok rb.AccessToken ∧
      rb.RenewToken = req.RenewToken ∧ auth = "Bearer " ++ rb.AccessToken ∧ st = 200 := by
  cases body with
  | error e =>
    simp only [RenewTokenHandler] at h
    cases h
  | ok req =>
    have tail : ∀ user : User,
        (match getClaimsFromRenewToken lib now req.RenewToken a.config.Secret
            a.config.VerifyKey with
          | .error _ => HandlerResult.jsonapiError 401 "invalid renew token"
          | .ok claims =>
            match generateToken lib
                (newCustomClaims rd user claims.Issuer a.config.RenewTokenExpireTime)
                a.config.Secret a.config.SignKey with
            | .error err => .jsonapiError 500 err.message
            | .ok signedAccessToken =>
              .jsonapiSuccessMetaOnly ("Bearer " ++ signedAccessToken)
                { AccessToken := signedAccessToken, RenewToken := req.RenewToken } 200)
          = .jsonapiSuccessMetaOnly auth rb st →
        ∃ claims : StandardClaims,
          getClaimsFromRenewToken lib now req.RenewToken a.config.Secret a.config.VerifyKey
            = .ok claims ∧
          generateToken lib (newCustomClaims rd user claims.Issuer a.config.RenewTokenExpireTime)
            a.config.Secret a.config.SignKey = .ok rb.AccessToken ∧
          rb.RenewToken = req.RenewToken ∧ auth = "Bearer " ++ rb.AccessToken ∧ st = 200 := by
      intro user hx
      cases hc : getClaimsFromRenewToken lib now req.RenewToken a.config.Secret
          a.config.VerifyKey with
      | error e =>
        simp only [hc] at hx
        cases hx
      | ok claims =>
        simp only [hc] at hx
        cases hg : generateToken lib
            (newCustomClaims rd user claims.Issuer a.config.RenewTokenExpireTime)
            a.config.Secret a.config.SignKey with
        | error e =>
          simp only [hg] at hx
          cases hx
        | ok tok =>
          simp only [hg] at hx
          injection hx with h1 h2 h3
          subst h1 h2 h3
          exact ⟨claims, rfl, hg, rfl, rfl, rfl⟩
    simp only [RenewTokenHandler] at h
    cases hl : a.extUsers.lookup req.UserID with
    | some roles =>
      simp only [hl] at h
      obtain ⟨claims, h1, h2, h3, h4, h5⟩ := tail _ (by
        cases hc : getClaimsFromRenewToken lib now req.RenewToken a.config.Secret
          a.config.VerifyKey <;> simp only [hc] at h ⊢ <;> exact h)
      exact ⟨req, _, claims, rfl, Or.inl ⟨roles, hl, rfl⟩, h1, h2, h3, h4, h5⟩
    | none =>
      simp only [hl] at h
      cases hu : a.Users.GetUserByNameOrID req.UserID with
      | error e =>
        cases e with
        | DBError m =>
          simp only [hu] at h
          cases h
        | NotFoundError m =>
          simp only [hu] at h
          cases h
        | UserError m =>
          simp only [hu] at h
          cases hc : getClaimsFromRenewToken lib now req.RenewToken a.config.Secret
            a.config.VerifyKey <;> simp only [hc] at h <;> cases h
      | ok user =>
        simp only [hu] at h
        obtain ⟨claims, h1, h2, h3, h4, h5⟩ := tail user (by
          cases hc : getClaimsFromRenewToken lib now req.RenewToken a.config.Secret
            a.config.VerifyKey <;> simp only [hc] at h ⊢ <;> exact h)
        exact ⟨req, user, claims, rfl, Or.inr ⟨hl, hu⟩, h1, h2, h3, h4, h5⟩

/-- The answer of `RenewTokenHandler` for a user found in `extUsers`, a renew token that
verifies and a signature that succeeds. -/
theorem RenewTokenHandler_cached (lib : JwtLib) (a : App) (now : Time) (rd : Reads)
    (req : RenewTokenHandlerRequest) (roles : List Role) (claims : StandardClaims)
    (tok : String) (hl : a.extUsers.lookup req.UserID = some roles)
    (hc : getClaimsFromRenewToken lib now req.RenewToken a.config.Secret a.config.VerifyKey
      = .ok claims)
    (hg : generateToken lib
      (newCustomClaims rd { User.zero with Username := req.UserID, Roles := roles }
        claims.Issuer a.config.RenewTokenExpireTime)
      a.config.Secret a.config.SignKey = .ok tok) :
    RenewTokenHandler lib a now rd (.ok req)
      = .jsonapiSuccessMetaOnly ("Bearer " ++ tok)
          { AccessToken := tok, RenewToken := req.RenewToken } 200 := by
  simp only [RenewTokenHandler, hl, hc, hg]

/-- The answer of `RenewTokenHandler` for a user absent from `extUsers` and found by the
repository, a renew token that verifies and a signature that succeeds. -/
theorem RenewTokenHandler_stored (lib : JwtLib) (a : App) (now : Time) (rd : Reads)
    (req : RenewTokenHandlerRequest) (user : User) (claims : StandardClaims)
    (tok : String) (hl : a.extUsers.lookup req.UserID = none)
    (hu : a.Users.GetUserByNameOrID req.UserID = .ok user)
    (hc : getClaimsFromRenewToken lib now req.RenewToken a.config.Secret a.config.VerifyKey
      = .ok claims)
    (hg : generateToken lib
      (newCustomClaims rd user claims.Issuer a.config.RenewTokenExpireTime)
      a.config.Secret a.config.SignKey = .ok tok) :
    RenewTokenHandler lib a now rd (.ok req)
      = .jsonapiSuccessMetaOnly ("Bearer " ++ tok)
          { AccessToken := tok, RenewToken := req.RenewToken } 200 := by
  simp only [RenewTokenHandler, hl, hu, hc, hg]

theorem RoleList_String_eq_map (rL : List Role) : RoleList.String rL = rL.map Role.Name := by
  induction rL with
  | nil => rfl
  | cons r rest ih => simp [RoleList.String, ih]

/-- Each role that the loop of `NewRoleList` adds carries the name it was built from and the
ordinal of a role that this name matches. -/
theorem NewRoleListLoop_roles (tbl : Char → Char) :
    ∀ (names : List String) (acc roles : List Role),
      NewRoleListLoop tbl acc names = .ok roles →
      ∃ added, roles = acc ++ added ∧
        List.Forall₂ (fun rS r => r.Name = rS ∧
          ((strings.ToLower tbl rS = strings.ToLower tbl "ADMIN" ∧ r.ID = 1)
            ∨ (strings.ToLower tbl rS = strings.ToLower tbl "HELPDESK" ∧ r.ID = 2)
            ∨ (strings.ToLower tbl rS = strings.ToLower tbl "MONITOR" ∧ r.ID = 3)))
          names added := by
  intro names
  induction names with
  | nil =>
    intro acc roles h
    simp only [NewRoleListLoop] at h
    injection h with h
    exact ⟨[], by simp [h], List.Forall₂.nil⟩
  | cons rS rest ih =>
    intro acc roles h
    have ha : UserRole.AdminRole.String = "ADMIN" := rfl
    have hh : UserRole.HelpdeskRole.String = "HELPDESK" := rfl
    have hm : UserRole.MonitorRole.String = "MONITOR" := rfl
    simp only [NewRoleListLoop, ha, hh, hm] at h
    split at h
    · next h1 =>
      obtain ⟨added, hr, hall⟩ := ih _ _ h
      exact ⟨_ :: added, by simpa using hr,
        List.Forall₂.cons ⟨rfl, Or.inl ⟨h1, rfl⟩⟩ hall⟩
    · split at h
      · next h2 =>
        obtain ⟨added, hr, hall⟩ := ih _ _ h
        exact ⟨_ :: added, by simpa using hr,
          List.Forall₂.cons ⟨rfl, Or.inr (Or.inl ⟨h2, rfl⟩)⟩ hall⟩
      · split at h
        · next h3 =>
          obtain ⟨added, hr, hall⟩ := ih _ _ h
          exact ⟨_ :: added, by simpa using hr,
            List.Forall₂.cons ⟨rfl, Or.inr (Or.inr ⟨h3, rfl⟩)⟩ hall⟩
        · cases h

theorem utf8RuneLen_pos (r : Char) : 1 ≤ utf8RuneLen r := by
  unfold utf8RuneLen
  split
  · exact Nat.le_refl 1
  · split
    · decide
    · split <;> decide

/-- A string has at least as many bytes as characters. -/
theorem length_le_len (s : String) : s.length ≤ len s := by
  have key : ∀ cs : List Char, cs.length ≤ (cs.map utf8RuneLen).sum := by
    intro cs
    induction cs with
    | nil => simp
    | cons c rest ih =>
      have := utf8RuneLen_pos c
      simp only [List.length_cons, List.map_cons, List.sum_cons]
      omega
  exact key s.data

/-! ### Page counts -/

theorem neg_ediv_of_emod_eq_zero (n p : Int) (hp : 1 ≤ p) (hr : n % p = 0) :
    (-n) / p = -(n / p) := by
  have hd := Int.ediv_add_emod n p
  have hu := (Int.ediv_emod_unique (a := -n) (b := p) (q := -(n / p)) (r := 0)
    (by omega)).mpr ⟨by rw [mul_neg]; omega, le_refl 0, by omega⟩
  exact hu.1

theorem neg_ediv_of_emod_pos (n p : Int) (hp : 1 ≤ p) (hr : 0 < n % p) :
    (-n) / p = -(n / p) - 1 := by
  have hd := Int.ediv_add_emod n p
  have hlt := Int.emod_lt_of_pos n (by omega : 0 < p)
  have hu := (Int.ediv_emod_unique (a := -n) (b := p) (q := -(n / p) - 1) (r := p - n % p)
    (by omega)).mpr ⟨by rw [mul_sub, mul_neg, mul_one]; omega, by omega, by omega⟩
  exact hu.1

theorem totalPages_arith (n p : Int) (hn : 0 ≤ n) (hp : 1 ≤ p) :
    (¬ (0 < n ∧ n % p = 0) → 1 + n / p = pagesNeededSpec n p)
      ∧ (0 < n ∧ n % p = 0 → 1 + n / p = pagesNeededSpec n p + 1) := by
  have hq : 0 ≤ n / p := Int.ediv_nonneg hn (by omega)
  have hr0 : 0 ≤ n % p := Int.emod_nonneg n (by omega)
  have hd := Int.ediv_add_emod n p
  unfold pagesNeededSpec
  constructor
  · intro hnot
    by_cases hr : n % p = 0
    · have hn0 : n = 0 := by
        by_contra hne
        exact hnot ⟨by omega, hr⟩
      subst hn0
      simp
    · rw [neg_ediv_of_emod_pos n p hp (by omega)]
      rw [max_eq_right (by omega)]
      omega
  · rintro ⟨hpos, hr⟩
    rw [neg_ediv_of_emod_eq_zero n p hp hr]
    have hq1 : 1 ≤ n / p := by
      by_contra hlt
      have hq0 : n / p = 0 := by omega
      rw [hq0, hr] at hd
      simp at hd
      omega
    rw [max_eq_right (by omega)]
    omega

/-! ### Key pairs and the trusted keys -/

/-- The three ways an entry of the directory moves the loop of `ReadPublicKeys`. -/
theorem ReadPublicKeysLoop_cons (x : X509) (fs : FileSystem) (path : String)
    (acc : Option (List PublicKey)) (file : FileInfo) (files : List FileInfo) :
    ReadPublicKeysLoop x fs path acc (file :: files) =
      match parsedKey x fs path file with
      | none => ReadPublicKeysLoop x fs path acc files
      | some (.rsa key) => ReadPublicKeysLoop x fs path (appendKey acc key) files
      | some (.other goType) =>
        .panics ("interface conversion: interface is " ++ goType ++ ", not *rsa.PublicKey") := by
  simp only [ReadPublicKeysLoop, parsedKey]
  by_cases hdir : file.IsDir = true
  · simp [hdir]
  · simp only [hdir]
    cases hread : fs.ReadFile (path ++ "/" ++ file.Name) with
    | error e => simp
    | ok data =>
      cases hpem : x.pemDecode data with
      | none => simp [hpem]
      | some blockBytes =>
        cases hkey : x.ParsePKIXPublicKey blockBytes with
        | error e => simp [hpem, hkey]
        | ok key => cases key <;> simp [hpem, hkey]

theorem foldl_appendKey_some (keys held : List PublicKey) :
    keys.foldl appendKey (some held) = some (held ++ keys) := by
  induction keys generalizing held with
  | nil => simp
  | cons key rest ih => simp [appendKey, ih]

/-- Appending keys one by one to the nil slice gives the nil slice for no key and the slice
of the keys otherwise. -/
theorem foldl_appendKey_none (keys : List PublicKey) :
    (keys.foldl appendKey none).getD [] = keys
      ∧ (keys.foldl appendKey none = none ↔ keys = []) := by
  cases keys with
  | nil => simp
  | cons key rest => simp [appendKey, foldl_appendKey_some]

/-- When no entry holds a key of another kind the loop returns, having appended the RSA keys
in the order of the entries. -/
theorem ReadPublicKeysLoop_returns (x : X509) (fs : FileSystem) (path : String)
    (files : List FileInfo) :
    ∀ acc : Option (List PublicKey),
      (∀ file ∈ files, ∀ goType, parsedKey x fs path file ≠ some (.other goType)) →
      ReadPublicKeysLoop x fs path acc files
        = .returns ((parsedRSAKeys x fs path files).foldl appendKey acc) := by
  induction files with
  | nil =>
    intro acc _
    simp [ReadPublicKeysLoop, parsedRSAKeys]
  | cons file rest ih =>
    intro acc hno
    have hrest : ∀ f ∈ rest, ∀ goType, parsedKey x fs path f ≠ some (.other goType) :=
      fun f hf => hno f (List.mem_cons_of_mem _ hf)
    have hfile := hno file (List.mem_cons_self _ _)
    rw [ReadPublicKeysLoop_cons]
    cases hk : parsedKey x fs path file with
    | none =>
      simp only [parsedRSAKeys, List.filterMap_cons, hk]
      exact ih acc hrest
    | some key =>
      cases key with
      | rsa k =>
        simp only [parsedRSAKeys, List.filterMap_cons, hk, List.foldl_cons]
        exact ih (appendKey acc k) hrest
      | other goType => exact absurd hk (hfile goType)

/-- When some entry holds a key of another kind the loop panics. -/
theorem ReadPublicKeysLoop_panics (x : X509) (fs : FileSystem) (path : String)
    (files : List FileInfo) :
    ∀ acc : Option (List PublicKey),
      (∃ file ∈ files, ∃ goType, parsedKey x fs path file = some (.other goType)) →
      ∃ message, ReadPublicKeysLoop x fs path acc files = .panics message := by
  induction files with
  | nil =>
    rintro acc ⟨file, hmem, _⟩
    cases hmem
  | cons file rest ih =>
    rintro acc ⟨bad, hmem, goType, hbad⟩
    rw [ReadPublicKeysLoop_cons]
    cases hk : parsedKey x fs path file with
    | none =>
      rcases List.mem_cons.mp hmem with heq | hin
      · subst heq
        rw [hk] at hbad
        cases hbad
      · exact ih acc ⟨bad, hin, goType, hbad⟩
    | some key =>
      cases key with
      | rsa k =>
        rcases List.mem_cons.mp hmem with heq | hin
        · subst heq
          rw [hk] at hbad
          cases hbad
        · exact ih (appendKey acc k) ⟨bad, hin, goType, hbad⟩
      | other t => exact ⟨_, rfl⟩

/-! ### The `Authorization` header -/

theorem countLoop_of_Index_none (substr s : List Char) (fuel : Nat)
    (h : strings.Index s substr = none) : strings.countLoop substr fuel s = 0 := by
  cases fuel with
  | zero => rfl
  | succ n => simp [strings.countLoop, h]

theorem dropWhile_of_head_not (p : Char → Bool) (cs : List Char)
    (h : ∀ c, cs.head? = some c → p c = false) : cs.dropWhile p = cs := by
  cases cs with
  | nil => rfl
  | cons c rest => simp [List.dropWhile, h c rfl]

/-- A string that neither starts nor ends with white space is left as it is by
`strings.TrimSpace`. -/
theorem TrimSpace_of_trimmed (t : String)
    (hfirst : ∀ c, t.data.head? = some c → unicode.IsSpace c = false)
    (hlast : ∀ c, t.data.getLast? = some c → unicode.IsSpace c = false) :
    strings.TrimSpace t = t := by
  unfold strings.TrimSpace
  rw [dropWhile_of_head_not _ _ hfirst,
    dropWhile_of_head_not _ _ (by simpa [List.head?_reverse] using hlast)]
  simp

/-- The header `t` alone, for a `t` in which `Bearer` does not occur, is not split. -/
theorem SplitAfter_of_Index_none (t : String)
    (h : strings.Index t.data "Bearer".data = none) :
    strings.SplitAfter t "Bearer" = [t] := by
  simp [strings.SplitAfter, strings.Count, countLoop_of_Index_none _ _ _ h,
    strings.genSplitLoop]

/-- The header `Bearer t`, for a `t` in which `Bearer` does not occur, is split once, after
the keyword. -/
theorem SplitAfter_Bearer (t : String)
    (h : strings.Index t.data "Bearer".data = none) :
    strings.SplitAfter ("Bearer " ++ t) "Bearer" = ["Bearer", " " ++ t] := by
  have hdata : ("Bearer " ++ t).data = 'B' :: 'e' :: 'a' :: 'r' :: 'e' :: 'r' :: ' ' :: t.data := by
    rw [String.data_append]
    rfl
  have hsep : "Bearer".data = ['B', 'e', 'a', 'r', 'e', 'r'] := rfl
  have hrest : strings.Index (' ' :: t.data) ['B', 'e', 'a', 'r', 'e', 'r'] = none := by
    rw [hsep] at h
    simp [strings.Index, List.isPrefixOf, h]
  have hfirst : strings.Index ('B' :: 'e' :: 'a' :: 'r' :: 'e' :: 'r' :: ' ' :: t.data)
      ['B', 'e', 'a', 'r', 'e', 'r'] = some 0 := by
    simp [strings.Index, List.isPrefixOf]
  have hcount : strings.Count ('B' :: 'e' :: 'a' :: 'r' :: 'e' :: 'r' :: ' ' :: t.data)
      ['B', 'e', 'a', 'r', 'e', 'r'] = 1 := by
    have hl : ('B' :: 'e' :: 'a' :: 'r' :: 'e' :: 'r' :: ' ' :: t.data).length
        = (t.data.length + 6) + 1 := by simp
    unfold strings.Count
    rw [hl, strings.countLoop, hfirst]
    show strings.countLoop ['B', 'e', 'a', 'r', 'e', 'r'] (t.data.length + 6)
      (' ' :: t.data) + 1 = 1
    rw [countLoop_of_Index_none _ _ _ hrest]
  have hlen : "Bearer".length = 6 := by decide
  have hsplit : strings.genSplitLoop ['B', 'e', 'a', 'r', 'e', 'r'] 6 1
      ('B' :: 'e' :: 'a' :: 'r' :: 'e' :: 'r' :: ' ' :: t.data)
      = [['B', 'e', 'a', 'r', 'e', 'r'], ' ' :: t.data] := by
    rw [strings.genSplitLoop, hfirst]
    rfl
  have h2 : (" " ++ t) = String.mk (' ' :: t.data) := by
    apply String.ext
    rw [String.data_append]
    rfl
  unfold strings.SplitAfter
  rw [hdata, hsep, hcount, hlen, hsplit, h2]
  rfl

theorem TrimSpace_space_append (t : String) :
    strings.TrimSpace (" " ++ t) = strings.TrimSpace t := by
  have hdata : (" " ++ t).data = ' ' :: t.data := by
    rw [String.data_append]
    rfl
  have hspace : unicode.IsSpace ' ' = true := by decide
  unfold strings.TrimSpace
  rw [hdata, List.dropWhile_cons, if_pos hspace]

/-! ### The user repository and the user handlers -/

/-- A PATCH of claims without ADMIN that `jwtMiddleware` hands on names the subject in its
path parameter. -/
theorem jwtMiddleware_patch_next_self (lib : JwtLib) (tbl : Char → Char) (config : Config)
    (now : Time) (r : Request) (claims : customClaims) (id : String)
    (hver : getClaimsFromAccessToken lib now (parseAuthHeader r) config.Secret config.VerifyKey
      = .ok claims)
    (hnoadmin : ¬ ∃ s ∈ claims.Roles, strings.ToLower tbl s = strings.ToLower tbl "ADMIN")
    (hmethod : r.Method = "PATCH") (hid : r.Vars.lookup "id" = some id)
    (hnext : jwtMiddleware lib tbl config now r = .next) : id = claims.Subject := by
  rw [jwtMiddleware_verified lib tbl config now r claims hver] at hnext
  have h := stringInSliceCaseInsensitive_false tbl claims.Roles "ADMIN" hnoadmin
  by_contra hne
  simp [h, hmethod, hid, hne] at hnext

/-- The record that `GetUserByNameOrID` returns: the first row whose primary key is the
number when the argument parses as an integer, the first row of that username otherwise. -/
theorem GetUserByNameOrID_eq_ok (uR : UserRepo) (nameOrID : String) (user : User) :
    uR.GetUserByNameOrID nameOrID = .ok user ↔
      (∃ n, strconv.Atoi nameOrID = (n, none)
          ∧ uR.DB.find? (fun row => (row.ID : Int) = n) = some user)
        ∨ (∃ n msg, strconv.Atoi nameOrID = (n, some msg)
          ∧ uR.DB.find? (fun row => row.Username = nameOrID) = some user) := by
  unfold UserRepo.GetUserByNameOrID
  rcases hA : strconv.Atoi nameOrID with ⟨n, _ | msg⟩
  · cases hf : uR.DB.find? (fun row => (row.ID : Int) = n) with
    | none => simp [gormFirst, hf]
    | some row => simp [gormFirst, hf]
  · cases hf : uR.DB.find? (fun row => row.Username = nameOrID) with
    | none => simp [gormFirst, hf]
    | some row => simp [gormFirst, hf]

theorem rangeCheck_eq_ok (v n : Int) (h : strconv.rangeCheck v = (n, none)) :
    n ≤ 9223372036854775807 := by
  unfold strconv.rangeCheck at h
  split at h
  · cases h
  · split at h
    · cases h
    · injection h with hv _
      omega

/-- The conversion `uint(id)` gives back the primary key that `id` was compared with. -/
theorem uintOfInt_of_Atoi (nameOrID : String) (n : Int) (k : Nat)
    (hA : strconv.Atoi nameOrID = (n, none)) (hk : (k : Int) = n) : uintOfInt n = k := by
  have hbound : n ≤ 9223372036854775807 := by
    unfold strconv.Atoi at hA
    simp only at hA
    split at hA
    · cases hA
    · split at hA
      · cases hA
      · exact rangeCheck_eq_ok _ _ hA
  unfold uintOfInt
  omega

/-- The role lists after `Updates` and the replacement of the association: the row of the
primary key of `u` has the roles of `u`, every other row keeps its roles. -/
theorem gorm_update_roles (rows : List User) (u : User) :
    (gormReplaceRoles (gormUpdates rows u).2 u u.Roles).map (fun row => (row.ID, row.Roles))
      = rows.map (fun row => (row.ID, if row.ID = u.ID then u.Roles else row.Roles)) := by
  simp only [gormReplaceRoles, gormUpdates, List.map_map]
  apply List.map_congr_left
  intro row _
  by_cases h : row.ID = u.ID <;> simp [h]

/-- A successful `UpdateUser` writes the columns of `u` and replaces its roles. -/
theorem UpdateUser_eq_ok (uR : UserRepo) (u : User) (after : UserRepo)
    (h : uR.UpdateUser u = .ok after) :
    after = ⟨gormReplaceRoles (gormUpdates uR.DB u).2 u u.Roles⟩ := by
  unfold UserRepo.UpdateUser at h
  split at h
  · cases h
  · simp only [gormUpdates] at h
    injection h with h
    rw [← h]
    rfl

theorem UpdateUser_then_ok (uR : UserRepo) (written u : User) (after : UserRepo)
    (h : (match uR.UpdateUser written with
      | .error err => (.error err : Except RepoError (User × UserRepo))
      | .ok done => .ok (written, done)) = .ok (u, after)) :
    written = u ∧ uR.UpdateUser written = .ok after := by
  cases hU : uR.UpdateUser written with
  | error e =>
    rw [hU] at h
    cases h
  | ok done =>
    rw [hU] at h
    injection h with h
    injection h with h1 h2
    exact ⟨h1, by rw [h2]⟩

/-- A successful `UpdateUserByNameOrID`: the record found for the argument, with the roles
named when at least one is named, the username and the hashed password when they are given,
and the next version, is what is written to the row of that record. -/
theorem UpdateUserByNameOrID_eq_ok (tbl : Char → Char) (bcrypt : String → String)
    (uR : UserRepo) (nameOrID username password : String) (roles : List String)
    (u : User) (after : UserRepo)
    (h : uR.UpdateUserByNameOrID tbl bcrypt nameOrID username password roles
      = .ok (u, after)) :
    ∃ found rL,
      uR.GetUserByNameOrID nameOrID = .ok found ∧
      NewRoleList tbl roles = .ok rL ∧
      u.ID = found.ID ∧
      u.Roles = (if roles = [] then found.Roles else rL) ∧
      u.Username = (if username = "" then found.Username else username) ∧
      u.Password = (if password = "" then found.Password else bcrypt password) ∧
      u.Version = found.Version + 1 ∧
      after = ⟨gormReplaceRoles (gormUpdates uR.DB u).2 u u.Roles⟩ := by
  unfold UserRepo.UpdateUserByNameOrID at h
  cases hg : uR.GetUserByNameOrID nameOrID with
  | error e => simp [hg] at h
  | ok found =>
    cases hr : NewRoleList tbl roles with
    | error e => simp [hg, hr] at h
    | ok rL =>
      have hlen : rL.length = roles.length := by
        obtain ⟨added, hadd, hall⟩ := NewRoleListLoop_roles tbl roles [] rL hr
        simp only [List.nil_append] at hadd
        rw [hadd]
        exact hall.length_eq.symm
      have hpos : rL.length > 0 ↔ roles ≠ [] := by
        rw [hlen]
        cases roles <;> simp
      have hkey : ∀ m, strconv.Atoi nameOrID = (m, none) → uintOfInt m = found.ID := by
        intro m hA
        rcases (GetUserByNameOrID_eq_ok uR nameOrID found).mp hg with
          ⟨m2, hA2, hf⟩ | ⟨m2, msg, hA2, _⟩
        · rw [hA] at hA2
          injection hA2 with hm _
          subst hm
          have hp := List.find?_some hf
          exact uintOfInt_of_Atoi nameOrID m found.ID hA (by simpa using hp)
        · rw [hA] at hA2
          injection hA2 with _ hcontra
          cases hcontra
      refine ⟨found, rL, rfl, rfl, ?_⟩
      simp only [hg, hr] at h
      have hempty : roles = [] → ¬ rL.length > 0 := fun he hl => (hpos.mp hl) he
      have hfull : ¬ roles = [] → rL.length > 0 := fun hne => hpos.mpr hne
      rcases hA : strconv.Atoi nameOrID with ⟨m, _ | msg⟩ <;>
        by_cases hroles : roles = [] <;> by_cases hname : username = "" <;>
        by_cases hpass : password = "" <;> cases hv : validatePassword password <;>
        first
          | (have hl := hempty hroles
             simp only [hA, hl, hname, hpass, hv, if_true, if_false, ne_eq, not_true_eq_false,
               not_false_eq_true] at h)
          | (have hl := hfull hroles
             simp only [hA, hl, hname, hpass, hv, if_true, if_false, ne_eq, not_true_eq_false,
               not_false_eq_true] at h)
      all_goals first
        | cases h
        | (obtain ⟨hw, hU⟩ := UpdateUser_then_ok _ _ _ _ h
           have hafter := UpdateUser_eq_ok _ _ _ hU
           rw [hw] at hafter
           subst hw
           first
             | exact ⟨hkey m hA, by simp [hroles, hname, hpass], by simp [hroles, hname, hpass],
                 by simp [hroles, hname, hpass], by simp [hroles, hname, hpass], hafter⟩
             | exact ⟨rfl, by simp [hroles, hname, hpass], by simp [hroles, hname, hpass],
                 by simp [hroles, hname, hpass], by simp [hroles, hname, hpass], hafter⟩)

/-- A successful answer of `PatchUserHandler`: the body decoded and `UpdateUserByNameOrID`
succeeded on the path parameter and the members of the body. -/
theorem PatchUserHandler_success (tbl : Char → Char) (bcrypt : String → String)
    (uR : UserRepo) (body : Except Error UserRequest) (id : String)
    (response : UserResponse) (st : Nat) (after : UserRepo)
    (h : PatchUserHandler tbl bcrypt uR body id = (.jsonapiSuccess response st, after)) :
    ∃ requestBody u,
      body = .ok requestBody ∧
      uR.UpdateUserByNameOrID tbl bcrypt id requestBody.Username requestBody.Password
        requestBody.Roles = .ok (u, after) ∧
      response = userResponse u ∧ st = 200 := by
  unfold PatchUserHandler at h
  cases hg : uR.GetUserByNameOrID id with
  | error e =>
    rw [hg] at h
    cases e <;> simp at h
  | ok found =>
    rw [hg] at h
    cases body with
    | error e => simp at h
    | ok requestBody =>
      cases hu : uR.UpdateUserByNameOrID tbl bcrypt id requestBody.Username
        requestBody.Password requestBody.Roles with
      | error e =>
        simp only [hu] at h
        cases e <;> simp at h
      | ok pair =>
        obtain ⟨u, done⟩ := pair
        simp only [hu] at h
        injection h with h1 h2
        injection h1 with h3 h4
        subst h2 h3 h4
        exact ⟨requestBody, u, rfl, hu, rfl, rfl⟩

/-- The validation failures of `UserRepo.Create` are user errors: an empty username, a
username that a row already has, and a password that `validatePassword` rejects. -/
theorem Create_user_error (bcrypt : String → String) (uR : UserRepo) (u : User)
    (h : u.Username = "" ∨ (∃ row ∈ uR.DB, row.Username = u.Username)
      ∨ (∃ err, validatePassword u.Password = .error err)) :
    ∃ msg, uR.Create bcrypt u = .error (.UserError msg) := by
  unfold UserRepo.Create
  split
  · exact ⟨_, rfl⟩
  · by_cases hempty : u.Username = ""
    · simp [UserRepo.ValidateUsername, hempty]
    · by_cases hused : ∃ row ∈ uR.DB, row.Username = u.Username
      · obtain ⟨row, hmem, hrow⟩ := hused
        have hpos : 0 < (List.filter (fun row => decide (row.Username = u.Username))
            uR.DB).length :=
          List.length_pos_of_mem (List.mem_filter.mpr ⟨hmem, by simpa using hrow⟩)
        simp [UserRepo.ValidateUsername, hempty, gormFindByUsername, hpos]
      · rcases h with h | h | ⟨err, hv⟩
        · exact absurd h hempty
        · exact absurd h hused
        · cases hval : uR.ValidateUsername u.Username with
          | error e => exact ⟨_, rfl⟩
          | ok done => simp [hv]

/-! ## The authorization decision (`jwtMiddleware`) -/

/-- C1: whatever the method and the target identity, a request whose verified access claims
carry the ADMIN role (names compared without regard to case) is handed to the next handler. -/
theorem jwtMiddleware_admin_allowed (lib : JwtLib) (tbl : Char → Char) (config : Config)
    (now : Time) (r : Request) (claims : customClaims)
    (hver : getClaimsFromAccessToken lib now (parseAuthHeader r) config.Secret config.VerifyKey
      = .ok claims)
    (hadmin : ∃ s ∈ claims.Roles, strings.ToLower tbl s = strings.ToLower tbl "ADMIN") :
    jwtMiddleware lib tbl config now r = .next := by
  rw [jwtMiddleware_verified lib tbl config now r claims hver]
  have h := (stringInSliceCaseInsensitive_iff tbl claims.Roles "ADMIN").mpr hadmin
  simp [h]

/-- C1, evaluated: the administrator of the sample instance may DELETE another user. -/
theorem jwtMiddleware_admin_allowed_witness :
    jwtMiddleware demoLib id demoConfig demoNow (demoRequest "DELETE" "RS256.alice.rsasig" "bob")
      = .next :=
  jwtMiddleware_admin_allowed demoLib id demoConfig demoNow
    (demoRequest "DELETE" "RS256.alice.rsasig" "bob") demoAliceClaims (by rfl)
    ⟨"Admin", by decide, by rfl⟩

/-- C2: when the verified claims carry no ADMIN role, a POST or a DELETE is answered
403 "forbidden request" and the next handler is not invoked, whatever the target identity. -/
theorem jwtMiddleware_nonadmin_post_delete_forbidden (lib : JwtLib) (tbl : Char → Char)
    (config : Config) (now : Time) (r : Request) (claims : customClaims)
    (hver : getClaimsFromAccessToken lib now (parseAuthHeader r) config.Secret config.VerifyKey
      = .ok claims)
    (hnoadmin : ¬ ∃ s ∈ claims.Roles, strings.ToLower tbl s = strings.ToLower tbl "ADMIN")
    (hmethod : r.Method = "POST" ∨ r.Method = "DELETE") :
    jwtMiddleware lib tbl config now r = .jsonapiError 403 "forbidden request" := by
  rw [jwtMiddleware_verified lib tbl config now r claims hver]
  have h := stringInSliceCaseInsensitive_false tbl claims.Roles "ADMIN" hnoadmin
  rcases hmethod with hm | hm <;> simp [h, hm]

/-- C2, evaluated: the sample monitor user may not DELETE its own record. -/
theorem jwtMiddleware_nonadmin_post_delete_forbidden_witness :
    jwtMiddleware demoLib id demoConfig demoNow (demoRequest "DELETE" "RS256.bob.rsasig" "bob")
      = .jsonapiError 403 "forbidden request" :=
  jwtMiddleware_nonadmin_post_delete_forbidden demoLib id demoConfig demoNow
    (demoRequest "DELETE" "RS256.bob.rsasig" "bob") demoBobClaims (by rfl) (by decide)
    (Or.inr (by rfl))

/-- C3: when the verified claims carry no ADMIN role, a PATCH whose path parameter `id`
differs from the subject of the claims is answered 403 "forbidden request" and the next
handler is not invoked. -/
theorem jwtMiddleware_nonadmin_patch_other_forbidden (lib : JwtLib) (tbl : Char → Char)
    (config : Config) (now : Time) (r : Request) (claims : customClaims) (id : String)
    (hver : getClaimsFromAccessToken lib now (parseAuthHeader r) config.Secret config.VerifyKey
      = .ok claims)
    (hnoadmin : ¬ ∃ s ∈ claims.Roles, strings.ToLower tbl s = strings.ToLower tbl "ADMIN")
    (hmethod : r.Method = "PATCH") (hid : r.Vars.lookup "id" = some id)
    (hother : id ≠ claims.Subject) :
    jwtMiddleware lib tbl config now r = .jsonapiError 403 "forbidden request" := by
  rw [jwtMiddleware_verified lib tbl config now r claims hver]
  have h := stringInSliceCaseInsensitive_false tbl claims.Roles "ADMIN" hnoadmin
  simp [h, hmethod, hid, hother]

/-- C3, evaluated: the sample monitor user may not PATCH the administrator. -/
theorem jwtMiddleware_nonadmin_patch_other_forbidden_witness :
    jwtMiddleware demoLib id demoConfig demoNow (demoRequest "PATCH" "RS256.bob.rsasig" "alice")
      = .jsonapiError 403 "forbidden request" :=
  jwtMiddleware_nonadmin_patch_other_forbidden demoLib id demoConfig demoNow
    (demoRequest "PATCH" "RS256.bob.rsasig" "alice") demoBobClaims "alice" (by rfl) (by decide)
    (by rfl) (by rfl) (by decide)

/-- C4: when the verified claims carry no ADMIN role, every request that is neither a POST,
nor a DELETE, nor a PATCH whose path parameter `id` differs from the subject is handed to the
next handler; in particular a PATCH on the subject itself and every GET are. -/
theorem jwtMiddleware_nonadmin_otherwise_allowed (lib : JwtLib) (tbl : Char → Char)
    (config : Config) (now : Time) (r : Request) (claims : customClaims)
    (hver : getClaimsFromAccessToken lib now (parseAuthHeader r) config.Secret config.VerifyKey
      = .ok claims)
    (hnoadmin : ¬ ∃ s ∈ claims.Roles, strings.ToLower tbl s = strings.ToLower tbl "ADMIN") :
    (r.Method ≠ "POST" → r.Method ≠ "DELETE" →
        ¬ (r.Method = "PATCH" ∧ ∃ id, r.Vars.lookup "id" = some id ∧ id ≠ claims.Subject) →
        jwtMiddleware lib tbl config now r = .next)
      ∧ (r.Method = "PATCH" → r.Vars.lookup "id" = some claims.Subject →
          jwtMiddleware lib tbl config now r = .next)
      ∧ (r.Method = "GET" → jwtMiddleware lib tbl config now r = .next) := by
  have main : r.Method ≠ "POST" → r.Method ≠ "DELETE" →
      ¬ (r.Method = "PATCH" ∧ ∃ id, r.Vars.lookup "id" = some id ∧ id ≠ claims.Subject) →
      jwtMiddleware lib tbl config now r = .next := by
    intro hpost hdelete hpatch
    rw [jwtMiddleware_verified lib tbl config now r claims hver]
    have h := stringInSliceCaseInsensitive_false tbl claims.Roles "ADMIN" hnoadmin
    simp only [h, hpost, hdelete]
    cases hv : r.Vars.lookup "id" with
    | none => simp
    | some id =>
      by_cases hm : r.Method = "PATCH"
      · have hself : id = claims.Subject := by
          by_contra hne
          exact hpatch ⟨hm, id, hv, hne⟩
        simp [hself]
      · simp [hm]
  refine ⟨main, ?_, ?_⟩
  · intro hm hid
    refine main (by rw [hm]; decide) (by rw [hm]; decide) ?_
    rintro ⟨_, id, hid2, hne⟩
    rw [hid] at hid2
    exact hne (Option.some.inj hid2).symm
  · intro hm
    refine main (by rw [hm]; decide) (by rw [hm]; decide) ?_
    rintro ⟨hp, _⟩
    rw [hm] at hp
    exact absurd hp (by decide)

/-- C4, evaluated: the sample monitor user may PATCH its own record. -/
theorem jwtMiddleware_nonadmin_otherwise_allowed_witness :
    jwtMiddleware demoLib id demoConfig demoNow (demoRequest "PATCH" "RS256.bob.rsasig" "bob")
      = .next :=
  (jwtMiddleware_nonadmin_otherwise_allowed demoLib id demoConfig demoNow
    (demoRequest "PATCH" "RS256.bob.rsasig" "bob") demoBobClaims (by rfl) (by decide)).1
    (by decide) (by decide) (by decide)

/-- C5: whatever the method, the path parameter and the roles written in the token, a request
whose access token fails verification is answered 401 "unauthorized request" and the next
handler is not invoked. That covers every error of the verification, and in particular a
string the parser rejects (a missing or malformed token), a method outside the expected
family, a signature the library does not verify under the configured key, an expired token
and a token not yet valid. -/
theorem jwtMiddleware_unauthorized (lib : JwtLib) (tbl : Char → Char) (config : Config)
    (now : Time) (r : Request) :
    (∀ err, getClaimsFromAccessToken lib now (parseAuthHeader r) config.Secret config.VerifyKey
        = .error err →
        jwtMiddleware lib tbl config now r = .jsonapiError 401 "unauthorized request")
      ∧ (∀ err, lib.parseCustom (parseAuthHeader r) = .error err →
        jwtMiddleware lib tbl config now r = .jsonapiError 401 "unauthorized request")
      ∧ (∀ token parts, lib.parseCustom (parseAuthHeader r) = .ok (token, parts) →
          ((config.Secret = "" ∧ ∀ alg, token.Method ≠ SigningMethod.SigningMethodRSA alg)
            ∨ (config.Secret ≠ "" ∧ ∀ alg, token.Method ≠ SigningMethod.SigningMethodHMAC alg)
            ∨ (∀ key, getKeyFunc config.Secret config.VerifyKey token = .ok key →
                ∃ e, lib.verify token.Method (".".intercalate (parts.take 2))
                  (parts.getD 2 "") key = .error e)
            ∨ (token.Claims.ExpiresAt ≠ 0 ∧ token.Claims.ExpiresAt < Time.Unix now)
            ∨ (token.Claims.NotBefore ≠ 0 ∧ Time.Unix now < token.Claims.NotBefore)
            ∨ (token.Claims.IssuedAt ≠ 0 ∧ Time.Unix now < token.Claims.IssuedAt)) →
          jwtMiddleware lib tbl config now r = .jsonapiError 401 "unauthorized request") := by
  have gen : ∀ err, getClaimsFromAccessToken lib now (parseAuthHeader r) config.Secret
      config.VerifyKey = .error err →
      jwtMiddleware lib tbl config now r = .jsonapiError 401 "unauthorized request" :=
    fun err h => jwtMiddleware_unverified lib tbl config now r err h
  refine ⟨gen, ?_, ?_⟩
  · intro err hp
    obtain ⟨e, he⟩ := except_error_of_not_ok
      (getClaimsFromAccessToken lib now (parseAuthHeader r) config.Secret config.VerifyKey)
      (by
        intro c hc
        obtain ⟨token, parts, key, h1, _⟩ := (getClaimsFromAccessToken_eq_ok _ _ _ _ _ _).mp hc
        rw [hp] at h1
        cases h1)
    exact gen e he
  · intro token parts hp hcause
    obtain ⟨e, he⟩ := except_error_of_not_ok
      (getClaimsFromAccessToken lib now (parseAuthHeader r) config.Secret config.VerifyKey)
      (by
        intro c hc
        obtain ⟨token2, parts2, key, h1, h2, h3, h4, _⟩ :=
          (getClaimsFromAccessToken_eq_ok _ _ _ _ _ _).mp hc
        rw [hp] at h1
        injection h1 with h1
        injection h1 with ht hparts
        subst ht
        subst hparts
        have hkey := (getKeyFunc_eq_ok _ _ _ _).mp h2
        have hval := (StandardClaims_Valid_eq_nil _ _).mp h4
        rcases hcause with ⟨hs, hm⟩ | ⟨hs, hm⟩ | hsig | ⟨h0, hlt⟩ | ⟨h0, hlt⟩ | ⟨h0, hlt⟩
        · have := isRSA_eq_false _ hm
          rcases hkey with ⟨_, hr, _⟩ | ⟨hne, _, _⟩
          · rw [this] at hr
            cases hr
          · exact hne hs
        · have := isHMAC_eq_false _ hm
          rcases hkey with ⟨he, _, _⟩ | ⟨_, hr, _⟩
          · exact hs he
          · rw [this] at hr
            cases hr
        · obtain ⟨e, he⟩ := hsig key h2
          rw [he] at h3
          cases h3
        · rcases hval.1 with h | h
          · exact h0 h
          · omega
        · rcases hval.2.2 with h | h
          · exact h0 h
          · omega
        · rcases hval.2.1 with h | h
          · exact h0 h
          · omega)
    exact gen e he

/-- C5, evaluated: a token with a forged signature gets 401 on a GET. -/
theorem jwtMiddleware_unauthorized_witness :
    jwtMiddleware demoLib id demoConfig demoNow (demoRequest "GET" "RS256.bob.forged" "bob")
      = .jsonapiError 401 "unauthorized request" :=
  (jwtMiddleware_unauthorized demoLib id demoConfig demoNow
    (demoRequest "GET" "RS256.bob.forged" "bob")).1
    (.ValidationError (some "crypto/rsa: verification error")
      [ValidationFlag.SignatureInvalid]) (by rfl)

/-- C6: role names are compared without regard to case. `stringInSliceCaseInsensitive` is
true exactly when some element of the list equals the target after lower-casing both, so
verified claims carrying the role written "admin", "Admin" or "ADMIN" are treated as ADMIN by
`jwtMiddleware`, which hands every such request to the next handler. -/
theorem stringInSliceCaseInsensitive_spec (tbl : Char → Char) :
    (∀ sL targetS, stringInSliceCaseInsensitive tbl sL targetS = true ↔
        ∃ s ∈ sL, strings.ToLower tbl s = strings.ToLower tbl targetS)
      ∧ (∀ (lib : JwtLib) (config : Config) (now : Time) (r : Request) (claims : customClaims)
          (role : String), role ∈ ["admin", "Admin", "ADMIN"] →
          getClaimsFromAccessToken lib now (parseAuthHeader r) config.Secret config.VerifyKey
            = .ok claims →
          role ∈ claims.Roles →
          stringInSliceCaseInsensitive tbl claims.Roles UserRole.AdminRole.String = true
            ∧ jwtMiddleware lib tbl config now r = .next) := by
  refine ⟨fun sL targetS => stringInSliceCaseInsensitive_iff tbl sL targetS, ?_⟩
  intro lib config now r claims role hrole hver hmem
  have hlow : strings.ToLower tbl role = strings.ToLower tbl "ADMIN" := by
    simp only [List.mem_cons, List.mem_singleton, List.not_mem_nil, or_false] at hrole
    rcases hrole with h | h | h <;> subst h <;> rfl
  have hin : stringInSliceCaseInsensitive tbl claims.Roles "ADMIN" = true :=
    (stringInSliceCaseInsensitive_iff tbl claims.Roles "ADMIN").mpr ⟨role, hmem, hlow⟩
  refine ⟨by rw [adminRole_String]; exact hin, ?_⟩
  rw [jwtMiddleware_verified lib tbl config now r claims hver]
  simp [hin]

/-- C6, evaluated: the sample administrator, whose role is written "Admin", may POST. -/
theorem stringInSliceCaseInsensitive_spec_witness :
    stringInSliceCaseInsensitive id demoAliceClaims.Roles UserRole.AdminRole.String = true
      ∧ jwtMiddleware demoLib id demoConfig demoNow
          (demoRequest "POST" "RS256.alice.rsasig" "bob") = .next :=
  (stringInSliceCaseInsensitive_spec id).2 demoLib demoConfig demoNow
    (demoRequest "POST" "RS256.alice.rsasig" "bob") demoAliceClaims "Admin" (by decide)
    (by rfl) (by decide)

/-! ## The trust resolver (`authorizeM2MRequest`) -/

/-- C8: for a non-empty token, `authorizeM2MRequest` returns exactly the claims that
`getClaimsFromM2MToken` gives for the first key, in configured order, that verifies the token:
the keys before it, which fail, and the keys after it do not influence the result; claims are
returned only in that way; and the error "no issuer found" is returned exactly when the
verification fails for every key. `clock j` is the clock reading of the attempt with the key
at position `j`. -/
theorem authorizeM2MRequest_first_match (lib : JwtLib) (clock : Nat → Time) (t : String)
    (keys : List PublicKey) (ht : t ≠ "") :
    (∀ pre k post c, keys = pre ++ k :: post →
        (∀ j (hj : j < pre.length),
          ∃ e, getClaimsFromM2MToken lib (clock j) t pre[j] = .error e) →
        getClaimsFromM2MToken lib (clock pre.length) t k = .ok c →
        authorizeM2MRequest lib clock t (some keys) = .ok c)
      ∧ (∀ c, authorizeM2MRequest lib clock t (some keys) = .ok c →
        ∃ pre k post, keys = pre ++ k :: post ∧
          (∀ j (hj : j < pre.length),
            ∃ e, getClaimsFromM2MToken lib (clock j) t pre[j] = .error e) ∧
          getClaimsFromM2MToken lib (clock pre.length) t k = .ok c)
      ∧ (authorizeM2MRequest lib clock t (some keys) = .error (.errorString "no issuer found") ↔
        ∀ j (hj : j < keys.length),
          ∃ e, getClaimsFromM2MToken lib (clock j) t keys[j] = .error e) := by
  have hreq : authorizeM2MRequest lib clock t (some keys) = authorizeM2MLoop lib clock t 0 keys := by
    unfold authorizeM2MRequest
    simp only [ht, if_false]
  rw [hreq]
  refine ⟨?_, ?_, ?_⟩
  · intro pre k post c hkeys hpre hk
    rw [hkeys]
    apply authorizeM2MLoop_first lib clock t pre 0 k post c
    · intro j hj
      simpa using hpre j hj
    · simpa using hk
  · intro c hc
    obtain ⟨pre, k, post, hkeys, hpre, hk⟩ := authorizeM2MLoop_ok lib clock t keys 0 c hc
    refine ⟨pre, k, post, hkeys, ?_, by simpa using hk⟩
    intro j hj
    simpa using hpre j hj
  · rw [authorizeM2MLoop_error lib clock t keys 0]
    simp only [Nat.zero_add]

/-- C8, evaluated: of three trusted keys the second verifies the sample token, whose claims
are returned. -/
theorem authorizeM2MRequest_first_match_witness :
    authorizeM2MRequest demoLib (fun _ => demoNow) "RS256.alice.rsasig"
      (some [⟨35, 3⟩, ⟨33, 3⟩, ⟨39, 5⟩]) = .ok demoAliceClaims :=
  (authorizeM2MRequest_first_match demoLib (fun _ => demoNow) "RS256.alice.rsasig"
    [⟨35, 3⟩, ⟨33, 3⟩, ⟨39, 5⟩] (by decide)).1 [⟨35, 3⟩] ⟨33, 3⟩ [⟨39, 5⟩] demoAliceClaims
    (by rfl)
    (by
      intro j hj
      have hj0 : j = 0 := by simpa using hj
      subst hj0
      exact ⟨_, by rfl⟩)
    (by rfl)

/-! ## Algorithm families and the round trip -/

/-- C9: a token whose signing method is outside the family the verifier expects never gets a
key and is rejected. The key function of `getKeyFunc` with the empty secret and the key
function of `getClaimsFromM2MToken` return an error for every method that is not of the RSA
type, in particular for every HMAC method; the key function of `getKeyFunc` with a non-empty
secret returns an error for every method that is not of the HMAC type; and the verification
functions built on them return an error for every string that parses to such a token. -/
theorem keyFunc_rejects_other_family {C : Type} (verifyKey : PublicKey) (token : Token C) :
    ((∀ alg, token.Method ≠ SigningMethod.SigningMethodRSA alg) →
        getKeyFunc "" verifyKey token
            = .error (.errorString ("unexpected signing method: " ++ headerAlg token))
          ∧ m2mKeyFunc verifyKey token = .error (.errorString "error jwt method not allowed"))
      ∧ (∀ alg, token.Method = SigningMethod.SigningMethodHMAC alg →
        getKeyFunc "" verifyKey token
            = .error (.errorString ("unexpected signing method: " ++ headerAlg token))
          ∧ m2mKeyFunc verifyKey token = .error (.errorString "error jwt method not allowed"))
      ∧ (∀ secret, secret ≠ "" → (∀ alg, token.Method ≠ SigningMethod.SigningMethodHMAC alg) →
        getKeyFunc secret verifyKey token
            = .error (.errorString ("unexpected signing method: " ++ headerAlg token)))
      ∧ (∀ (lib : JwtLib) (now : Time) (t : String) (tok : Token customClaims)
          (parts : List String), lib.parseCustom t = .ok (tok, parts) →
          ((∀ alg, tok.Method ≠ SigningMethod.SigningMethodRSA alg) →
            (∃ e, getClaimsFromAccessToken lib now t "" verifyKey = .error e)
              ∧ (∃ e, getClaimsFromM2MToken lib now t verifyKey = .error e))
          ∧ (∀ secret, secret ≠ "" →
              (∀ alg, tok.Method ≠ SigningMethod.SigningMethodHMAC alg) →
              ∃ e, getClaimsFromAccessToken lib now t secret verifyKey = .error e)) := by
  have rsaPart : ∀ {D : Type} (tk : Token D),
      (∀ alg, tk.Method ≠ SigningMethod.SigningMethodRSA alg) →
      getKeyFunc "" verifyKey tk
          = .error (.errorString ("unexpected signing method: " ++ headerAlg tk))
        ∧ m2mKeyFunc verifyKey tk = .error (.errorString "error jwt method not allowed") := by
    intro D tk h
    have hm := isRSA_eq_false tk.Method h
    constructor
    · simp [getKeyFunc, hm]
    · simp [m2mKeyFunc, hm]
  have hmacPart : ∀ {D : Type} (tk : Token D) (secret : String), secret ≠ "" →
      (∀ alg, tk.Method ≠ SigningMethod.SigningMethodHMAC alg) →
      getKeyFunc secret verifyKey tk
          = .error (.errorString ("unexpected signing method: " ++ headerAlg tk)) := by
    intro D tk secret hs h
    have hm := isHMAC_eq_false tk.Method h
    simp [getKeyFunc, hs, hm]
  refine ⟨rsaPart token, ?_, hmacPart token, ?_⟩
  · intro alg halg
    apply rsaPart token
    intro alg2 h2
    rw [halg] at h2
    cases h2
  · intro lib now t tok parts hp
    constructor
    · intro hm
      obtain ⟨hk1, hk2⟩ := rsaPart tok hm
      constructor
      · apply except_error_of_not_ok
        intro c hc
        obtain ⟨token2, parts2, key, h1, h2, _⟩ :=
          (getClaimsFromAccessToken_eq_ok _ _ _ _ _ _).mp hc
        rw [hp] at h1
        injection h1 with h1
        injection h1 with ht _
        subst ht
        rw [hk1] at h2
        cases h2
      · apply except_error_of_not_ok
        intro c hc
        obtain ⟨token2, parts2, key, h1, h2, _⟩ :=
          (getClaimsFromM2MToken_eq_ok _ _ _ _ _).mp hc
        rw [hp] at h1
        injection h1 with h1
        injection h1 with ht _
        subst ht
        rw [hk2] at h2
        cases h2
    · intro secret hs hm
      have hk := hmacPart tok secret hs hm
      apply except_error_of_not_ok
      intro c hc
      obtain ⟨token2, parts2, key, h1, h2, _⟩ :=
        (getClaimsFromAccessToken_eq_ok _ _ _ _ _ _).mp hc
      rw [hp] at h1
      injection h1 with h1
      injection h1 with ht _
      subst ht
      rw [hk] at h2
      cases h2

/-- C9, evaluated: the HMAC-signed sample token gets no key from a verifier without secret. -/
theorem keyFunc_rejects_other_family_witness :
    getKeyFunc "" ⟨33, 3⟩
        ({ Raw := "HS256.alice.s3cret", Method := SigningMethodHS256,
           Header := [("alg", "HS256")], Claims := demoAliceClaims, Signature := "",
           Valid := false } : Token customClaims)
      = .error (.errorString "unexpected signing method: HS256") :=
  ((keyFunc_rejects_other_family ⟨33, 3⟩
    ({ Raw := "HS256.alice.s3cret", Method := SigningMethodHS256,
       Header := [("alg", "HS256")], Claims := demoAliceClaims, Signature := "",
       Valid := false } : Token customClaims)).2.1 "HS256" (by rfl)).1

/-- C10: round trip. For every user, domain and lifetime, the access token that
`generateToken` builds from `newCustomClaims` is accepted by `getClaimsFromAccessToken` under
the same secret and the matching verification key, and the claims returned have the user name
as subject and the names of the user roles, in order, as roles. This holds for every lifetime,
hence for every TTL > 0, in both configurations (a non-empty shared secret; no secret and an
RSA key pair), for a library that round-trips the token (`JwtLib.RoundTrips`), when the token
is verified inside its validity window: the clock of the verification, in Unix seconds, is
not before the issued-at and not-before readings and not after the expiry. -/
theorem generateToken_roundtrip (lib : JwtLib) (rd : Reads) (user : User) (domain : String)
    (ttl : Duration) (now : Time) (signKey : PrivateKey) (verifyKey : PublicKey)
    (hiat : Time.Unix rd.nowIat ≤ Time.Unix now)
    (hnbf : Time.Unix rd.nowNbf ≤ Time.Unix now)
    (hexp : Time.Unix now ≤ Time.Unix (Time.Add rd.nowExp ttl)) :
    (∀ secret, secret ≠ "" →
        lib.RoundTrips SigningMethodHS256 (Key.bytes secret) (Key.bytes secret)
          (newCustomClaims rd user domain ttl) →
        ∃ tok claims,
          generateToken lib (newCustomClaims rd user domain ttl) secret signKey = .ok tok ∧
          getClaimsFromAccessToken lib now tok secret verifyKey = .ok claims ∧
          claims.Subject = user.Username ∧ claims.Roles = user.Roles.map Role.Name)
      ∧ (lib.RoundTrips SigningMethodRS256 (Key.rsaPrivateKey signKey)
          (Key.rsaPublicKey verifyKey) (newCustomClaims rd user domain ttl) →
        ∃ tok claims,
          generateToken lib (newCustomClaims rd user domain ttl) "" signKey = .ok tok ∧
          getClaimsFromAccessToken lib now tok "" verifyKey = .ok claims ∧
          claims.Subject = user.Username ∧ claims.Roles = user.Roles.map Role.Name) := by
  have hvalid : (newCustomClaims rd user domain ttl).toStandardClaims.Valid (Time.Unix now)
      = [] := by
    rw [StandardClaims_Valid_eq_nil]
    exact ⟨Or.inr hexp, Or.inr hiat, Or.inr hnbf⟩
  constructor
  · intro secret hs hrt
    obtain ⟨sstr, sig, token, parts, h1, h2, h3, h4, h5, h6, h7, h8⟩ := hrt
    refine ⟨".".intercalate [sstr, sig], newCustomClaims rd user domain ttl, ?_, ?_, rfl, ?_⟩
    · simp only [generateToken, if_neg hs, SignedString, h1, h2]
    · rw [getClaimsFromAccessToken_eq_ok]
      refine ⟨token, parts, Key.bytes secret, h3, ?_, ?_, ?_, h5.symm⟩
      · rw [getKeyFunc_eq_ok]
        exact Or.inr ⟨hs, by rw [h4]; rfl, rfl⟩
      · rw [h4, h6, h7]
        exact h8
      · rw [h5]
        exact hvalid
    · exact roleNames_eq_map user.Roles
  · intro hrt
    obtain ⟨sstr, sig, token, parts, h1, h2, h3, h4, h5, h6, h7, h8⟩ := hrt
    refine ⟨".".intercalate [sstr, sig], newCustomClaims rd user domain ttl, ?_, ?_, rfl, ?_⟩
    · simp only [generateToken, if_true, SignedString, h1, h2]
    · rw [getClaimsFromAccessToken_eq_ok]
      refine ⟨token, parts, Key.rsaPublicKey verifyKey, h3, ?_, ?_, ?_, h5.symm⟩
      · rw [getKeyFunc_eq_ok]
        exact Or.inl ⟨rfl, by rw [h4]; rfl, rfl⟩
      · rw [h4, h6, h7]
        exact h8
      · rw [h5]
        exact hvalid
    · exact roleNames_eq_map user.Roles

/-- C10, evaluated on the sample instance: the one-minute token of the sample administrator
signed with the RSA key and verified ten seconds later, and the same with a shared secret. -/
theorem generateToken_roundtrip_witness :
    (∃ tok claims,
        generateToken demoLib (newCustomClaims demoReads demoAlice "ORANMGR" 60000000000)
          "s3cret" ⟨⟨33, 3⟩, 7⟩ = .ok tok ∧
        getClaimsFromAccessToken demoLib demoNow tok "s3cret" ⟨33, 3⟩ = .ok claims ∧
        claims.Subject = "alice" ∧ claims.Roles = ["Admin"])
      ∧ (∃ tok claims,
        generateToken demoLib (newCustomClaims demoReads demoAlice "ORANMGR" 60000000000)
          "" ⟨⟨33, 3⟩, 7⟩ = .ok tok ∧
        getClaimsFromAccessToken demoLib demoNow tok "" ⟨33, 3⟩ = .ok claims ∧
        claims.Subject = "alice" ∧ claims.Roles = ["Admin"]) :=
  have h := generateToken_roundtrip demoLib demoReads demoAlice "ORANMGR" 60000000000 demoNow
    ⟨⟨33, 3⟩, 7⟩ ⟨33, 3⟩ (by decide) (by decide) (by decide)
  ⟨h.1 "s3cret" (by decide)
      ⟨"HS256.alice", "s3cret", _, ["HS256", "alice", "s3cret"], by rfl, by rfl, by rfl, by rfl,
        by rfl, by rfl, by rfl, by rfl⟩,
    h.2 ⟨"RS256.alice", "rsasig", _, ["RS256", "alice", "rsasig"], by rfl, by rfl, by rfl,
      by rfl, by rfl, by rfl, by rfl, by rfl⟩⟩

/-! ## Lifetimes and timestamps of the claims -/

/-- C11, what the code does with a lifetime of zero: the expiry of the token is the second of
its issuance, and the library accepts a token up to and including its expiry second. So, in
both configurations, the token of the validate-only mode is accepted by
`getClaimsFromAccessToken` at every clock reading within the second of issuance; it is
rejected from the following second on. -/
theorem zeroLifetime_token_accepted_in_issuing_second (lib : JwtLib) (rd : Reads) (user : User)
    (domain : String) (now : Time) (signKey : PrivateKey) (verifyKey : PublicKey)
    (hiat : Time.Unix rd.nowIat ≤ Time.Unix now) (hnbf : Time.Unix rd.nowNbf ≤ Time.Unix now)
    (hsame : Time.Unix now = Time.Unix rd.nowExp) :
    (newCustomClaims rd user domain 0).ExpiresAt = Time.Unix rd.nowExp
      ∧ (∀ secret, secret ≠ "" →
        lib.RoundTrips SigningMethodHS256 (Key.bytes secret) (Key.bytes secret)
          (newCustomClaims rd user domain 0) →
        ∃ tok, generateToken lib (newCustomClaims rd user domain 0) secret signKey = .ok tok ∧
          getClaimsFromAccessToken lib now tok secret verifyKey
            = .ok (newCustomClaims rd user domain 0))
      ∧ (lib.RoundTrips SigningMethodRS256 (Key.rsaPrivateKey signKey)
          (Key.rsaPublicKey verifyKey) (newCustomClaims rd user domain 0) →
        ∃ tok, generateToken lib (newCustomClaims rd user domain 0) "" signKey = .ok tok ∧
          getClaimsFromAccessToken lib now tok "" verifyKey
            = .ok (newCustomClaims rd user domain 0))
      ∧ (∀ (later : Time) (t secret : String) (tok : Token customClaims) (parts : List String),
        lib.parseCustom t = .ok (tok, parts) →
        tok.Claims = newCustomClaims rd user domain 0 →
        Time.Unix rd.nowExp ≠ 0 → Time.Unix rd.nowExp < Time.Unix later →
        ∃ e, getClaimsFromAccessToken lib later t secret verifyKey = .error e) := by
  have hexp : (newCustomClaims rd user domain 0).ExpiresAt = Time.Unix rd.nowExp := by
    simp [newCustomClaims, Time.Add]
  have hvalid : (newCustomClaims rd user domain 0).toStandardClaims.Valid (Time.Unix now)
      = [] := by
    rw [StandardClaims_Valid_eq_nil]
    refine ⟨Or.inr ?_, Or.inr hiat, Or.inr hnbf⟩
    show Time.Unix now ≤ (newCustomClaims rd user domain 0).ExpiresAt
    rw [hexp, hsame]
  have hacc := accessToken_accepted lib (newCustomClaims rd user domain 0) now signKey
    verifyKey hvalid
  refine ⟨hexp, hacc.1, hacc.2, ?_⟩
  intro later t secret tok parts hp hc hset hlate
  apply getClaimsFromAccessToken_expired lib later t secret verifyKey tok parts hp
  · rw [hc, hexp]
    exact hset
  · rw [hc, hexp]
    exact hlate

/-- C11, evaluated: a login in validate-only mode at second 1000 returns a token that
`jwtMiddleware` lets through half a second later, on a DELETE by the administrator. -/
theorem zeroLifetime_token_accepted_in_issuing_second_witness :
    (CreateSessionHandler (demoLibFor (newCustomClaims demoReads demoAlice "ORANMGR" 0)) id
        { demoApp with config := demoConfig } (fun _ => 1000000000000) demoReads demoReads
        (demoLoginRequest "true") (.ok ⟨"", "alice", "", ""⟩)).1
        = .jsonapiSuccessMetaOnly "Bearer RS256.alice.rsasig" ⟨"RS256.alice.rsasig", ""⟩ 200
      ∧ (∃ tok, generateToken (demoLibFor (newCustomClaims demoReads demoAlice "ORANMGR" 0))
            (newCustomClaims demoReads demoAlice "ORANMGR" 0) "" ⟨⟨33, 3⟩, 7⟩ = .ok tok ∧
          getClaimsFromAccessToken (demoLibFor (newCustomClaims demoReads demoAlice "ORANMGR" 0))
            1000500000000 tok "" ⟨33, 3⟩
            = .ok (newCustomClaims demoReads demoAlice "ORANMGR" 0))
      ∧ jwtMiddleware (demoLibFor (newCustomClaims demoReads demoAlice "ORANMGR" 0)) id
          demoConfig 1000500000000 (demoRequest "DELETE" "RS256.alice.rsasig" "bob") = .next :=
  ⟨by rfl,
    (zeroLifetime_token_accepted_in_issuing_second
      (demoLibFor (newCustomClaims demoReads demoAlice "ORANMGR" 0)) demoReads demoAlice
      "ORANMGR" 1000500000000 ⟨⟨33, 3⟩, 7⟩ ⟨33, 3⟩ (by decide) (by decide) (by decide)).2.2.1
      ⟨"RS256.alice", "rsasig", _, ["RS256", "alice", "rsasig"], by rfl, by rfl, by rfl,
        by rfl, by rfl, by rfl, by rfl, by rfl⟩,
    by rfl⟩

/-- C12, the inputs on which the claim fails. With a lifetime of half a second the expiry is
the second of issuance, not later; and when the clock passes a second boundary between the
reading for `IssuedAt` and the reading for `NotBefore`, the not-before second is after the
issued-at second. Both hold for the two constructors. -/
theorem newClaims_ordering_counterexample :
    (0 : Duration) < 500000000
      ∧ ¬ ((newCustomClaims demoReads demoAlice "ORANMGR" 500000000).ExpiresAt
            > (newCustomClaims demoReads demoAlice "ORANMGR" 500000000).IssuedAt)
      ∧ ¬ ((newStandardClaims demoReads demoAlice "ORANMGR" 500000000).ExpiresAt
            > (newStandardClaims demoReads demoAlice "ORANMGR" 500000000).IssuedAt)
      ∧ ¬ ((newCustomClaims ⟨1000999999998, 1000999999999, "id-1", 1001000000000⟩ demoAlice
              "ORANMGR" 60000000000).IssuedAt
            ≥ (newCustomClaims ⟨1000999999998, 1000999999999, "id-1", 1001000000000⟩ demoAlice
              "ORANMGR" 60000000000).NotBefore)
      ∧ ¬ ((newStandardClaims ⟨1000999999998, 1000999999999, "id-1", 1001000000000⟩ demoAlice
              "ORANMGR" 60000000000).IssuedAt
            ≥ (newStandardClaims ⟨1000999999998, 1000999999999, "id-1", 1001000000000⟩
              demoAlice "ORANMGR" 60000000000).NotBefore) := by
  decide

/-- C12, as the code has it: every claims object built by `newStandardClaims` or
`newCustomClaims` with a lifetime of at least one second has expires-at > issued-at and
issued-at ≥ not-before, in Unix seconds, when the reading for `IssuedAt` is not in a later
second than the reading for `ExpiresAt` and the reading for `NotBefore` not in a later second
than the reading for `IssuedAt` (for a clock that does not go back: when the three readings
fall within one second). -/
theorem newClaims_ordering (rd : Reads) (user : User) (domain : String) (ttl : Duration)
    (httl : 1000000000 ≤ ttl) (hiat : Time.Unix rd.nowIat ≤ Time.Unix rd.nowExp)
    (hnbf : Time.Unix rd.nowNbf ≤ Time.Unix rd.nowIat) :
    ((newCustomClaims rd user domain ttl).ExpiresAt > (newCustomClaims rd user domain ttl).IssuedAt
        ∧ (newCustomClaims rd user domain ttl).IssuedAt
            ≥ (newCustomClaims rd user domain ttl).NotBefore)
      ∧ ((newStandardClaims rd user domain ttl).ExpiresAt
            > (newStandardClaims rd user domain ttl).IssuedAt
        ∧ (newStandardClaims rd user domain ttl).IssuedAt
            ≥ (newStandardClaims rd user domain ttl).NotBefore) := by
  have httl2 : (1000000000 : Int) ≤ ttl := httl
  simp only [newCustomClaims, newStandardClaims, Time.Unix, Time.Add] at *
  omega

/-- C12, evaluated: a one-minute token issued at second 1000. -/
theorem newClaims_ordering_witness :
    ((newCustomClaims demoReads demoAlice "ORANMGR" 60000000000).ExpiresAt
        > (newCustomClaims demoReads demoAlice "ORANMGR" 60000000000).IssuedAt
        ∧ (newCustomClaims demoReads demoAlice "ORANMGR" 60000000000).IssuedAt
            ≥ (newCustomClaims demoReads demoAlice "ORANMGR" 60000000000).NotBefore)
      ∧ ((newStandardClaims demoReads demoAlice "ORANMGR" 60000000000).ExpiresAt
            > (newStandardClaims demoReads demoAlice "ORANMGR" 60000000000).IssuedAt
        ∧ (newStandardClaims demoReads demoAlice "ORANMGR" 60000000000).IssuedAt
            ≥ (newStandardClaims demoReads demoAlice "ORANMGR" 60000000000).NotBefore) :=
  newClaims_ordering demoReads demoAlice "ORANMGR" 60000000000 (by decide) (by decide)
    (by decide)

/-- C13 as stated fails: the clock is read once for each timestamp, and when it passes a
second boundary between the reading for `IssuedAt` (1000.999999999 s) and the reading for
`NotBefore` (1001.0 s) the claims have `IssuedAt` 1000 and `NotBefore` 1001, so that no instant
`now` gives both. -/
theorem newCustomClaims_fields_counterexample :
    (newCustomClaims ⟨1000999999998, 1000999999999, "id-1", 1001000000000⟩ demoBob "ORANMGR"
        60000000000).IssuedAt = 1000
      ∧ (newCustomClaims ⟨1000999999998, 1000999999999, "id-1", 1001000000000⟩ demoBob
          "ORANMGR" 60000000000).NotBefore = 1001
      ∧ ¬ ∃ now : Time,
          (newCustomClaims ⟨1000999999998, 1000999999999, "id-1", 1001000000000⟩ demoBob
              "ORANMGR" 60000000000).IssuedAt = Time.Unix now
            ∧ (newCustomClaims ⟨1000999999998, 1000999999999, "id-1", 1001000000000⟩ demoBob
              "ORANMGR" 60000000000).NotBefore = Time.Unix now := by
  refine ⟨by decide, by decide, ?_⟩
  rintro ⟨now, hiat, hnbf⟩
  have hsame := hiat.trans hnbf.symm
  exact absurd hsame (by decide)

/-- C13, as the code has it: for every user, domain and lifetime, the claims built by
`newCustomClaims` have the issuer "idp" whatever the domain, the user name as subject, the
names of the user roles in order as roles, the domain as `Azt`, and each timestamp is the Unix
second of its own clock reading: `IssuedAt` and `NotBefore` the second of their readings,
`ExpiresAt` the second of its reading plus the lifetime. `IssuedAt` and `NotBefore` are equal
exactly when their two readings fall in the same second, and `IssuedAt` is never the later one
when the clock does not go back; when the three readings are one instant `now`, `IssuedAt` =
`NotBefore` = `now` and `ExpiresAt` = `now` + lifetime, in Unix seconds. -/
theorem newCustomClaims_fields (rd : Reads) (user : User) (domain : String) (ttl : Duration) :
    (newCustomClaims rd user domain ttl).Issuer = "idp"
      ∧ (newCustomClaims rd user domain ttl).Subject = user.Username
      ∧ (newCustomClaims rd user domain ttl).Roles = user.Roles.map Role.Name
      ∧ (newCustomClaims rd user domain ttl).Azt = domain
      ∧ (newCustomClaims rd user domain ttl).IssuedAt = Time.Unix rd.nowIat
      ∧ (newCustomClaims rd user domain ttl).NotBefore = Time.Unix rd.nowNbf
      ∧ (newCustomClaims rd user domain ttl).ExpiresAt = Time.Unix (rd.nowExp + ttl)
      ∧ ((newCustomClaims rd user domain ttl).IssuedAt
            = (newCustomClaims rd user domain ttl).NotBefore
          ↔ Time.Unix rd.nowIat = Time.Unix rd.nowNbf)
      ∧ (rd.nowIat ≤ rd.nowNbf →
          (newCustomClaims rd user domain ttl).IssuedAt
            ≤ (newCustomClaims rd user domain ttl).NotBefore)
      ∧ (∀ now : Time, rd.nowExp = now → rd.nowIat = now → rd.nowNbf = now →
          (newCustomClaims rd user domain ttl).IssuedAt = Time.Unix now
            ∧ (newCustomClaims rd user domain ttl).NotBefore = Time.Unix now
            ∧ (newCustomClaims rd user domain ttl).ExpiresAt = Time.Unix (now + ttl))
      ∧ (newCustomClaims demoReads demoBob "ORANMGR" 60000000000).IssuedAt = 1000
      ∧ (newCustomClaims demoReads demoBob "ORANMGR" 60000000000).NotBefore = 1000
      ∧ (newCustomClaims demoReads demoBob "ORANMGR" 60000000000).ExpiresAt = 1060 := by
  refine ⟨rfl, rfl, roleNames_eq_map user.Roles, rfl, rfl, rfl, rfl, Iff.rfl, ?_, ?_,
    by decide, by decide, by decide⟩
  · intro hle
    show Time.Unix rd.nowIat ≤ Time.Unix rd.nowNbf
    exact Int.ediv_le_ediv (by decide) hle
  · intro now h1 h2 h3
    subst h1
    refine ⟨?_, ?_, rfl⟩
    · show Time.Unix rd.nowIat = Time.Unix rd.nowExp
      rw [h2]
    · show Time.Unix rd.nowNbf = Time.Unix rd.nowExp
      rw [h3]

/-- C14: one signing mode per configuration. With a non-empty secret `generateToken` signs
with HS256 under the bytes of the secret, and the private key does not influence the token;
with the empty secret it signs with RS256 under the private key. The same holds when the
claims are standard claims. -/
theorem generateToken_signing_mode (lib : JwtLib) (claims : customClaims)
    (rC : StandardClaims) (secret : String) (signKey : PrivateKey) :
    (secret ≠ "" →
        generateToken lib claims secret signKey
            = SignedString (lib.signingStringCustom SigningMethodHS256 claims) lib.sign
                SigningMethodHS256 (Key.bytes secret)
          ∧ generateTokenStandard lib rC secret signKey
            = SignedString (lib.signingStringStandard SigningMethodHS256 rC) lib.sign
                SigningMethodHS256 (Key.bytes secret)
          ∧ ∀ otherKey : PrivateKey,
              generateToken lib claims secret otherKey = generateToken lib claims secret signKey
                ∧ generateTokenStandard lib rC secret otherKey
                  = generateTokenStandard lib rC secret signKey)
      ∧ (secret = "" →
        generateToken lib claims secret signKey
            = SignedString (lib.signingStringCustom SigningMethodRS256 claims) lib.sign
                SigningMethodRS256 (Key.rsaPrivateKey signKey)
          ∧ generateTokenStandard lib rC secret signKey
            = SignedString (lib.signingStringStandard SigningMethodRS256 rC) lib.sign
                SigningMethodRS256 (Key.rsaPrivateKey signKey)) := by
  constructor
  · intro hs
    have h1 : ∀ k : PrivateKey, generateToken lib claims secret k
        = SignedString (lib.signingStringCustom SigningMethodHS256 claims) lib.sign
            SigningMethodHS256 (Key.bytes secret) := by
      intro k
      simp only [generateToken, if_neg hs]
      cases SignedString (lib.signingStringCustom SigningMethodHS256 claims) lib.sign
        SigningMethodHS256 (Key.bytes secret) <;> rfl
    have h2 : ∀ k : PrivateKey, generateTokenStandard lib rC secret k
        = SignedString (lib.signingStringStandard SigningMethodHS256 rC) lib.sign
            SigningMethodHS256 (Key.bytes secret) := by
      intro k
      simp only [generateTokenStandard, if_neg hs]
      cases SignedString (lib.signingStringStandard SigningMethodHS256 rC) lib.sign
        SigningMethodHS256 (Key.bytes secret) <;> rfl
    refine ⟨h1 signKey, h2 signKey, ?_⟩
    intro otherKey
    exact ⟨by rw [h1 otherKey, h1 signKey], by rw [h2 otherKey, h2 signKey]⟩
  · intro hs
    subst hs
    constructor
    · simp only [generateToken, if_true]
      cases SignedString (lib.signingStringCustom SigningMethodRS256 claims) lib.sign
        SigningMethodRS256 (Key.rsaPrivateKey signKey) <;> rfl
    · simp only [generateTokenStandard, if_true]
      cases SignedString (lib.signingStringStandard SigningMethodRS256 rC) lib.sign
        SigningMethodRS256 (Key.rsaPrivateKey signKey) <;> rfl

/-! ## Private keys (`readPrivateKey`) -/

/-- C20: for every input, `readPrivateKey` succeeds exactly when the input parses as a PKCS1
RSA private key or parses as a PKCS8 structure whose key is an RSA key. It returns the PKCS1
result whenever the PKCS1 parser succeeds, without regard to the PKCS8 parser, which is tried
only after the PKCS1 parser failed; it fails for an input that parses under neither (a PKIX
public key is one) and for a PKCS8 key that is not an RSA key. -/
theorem readPrivateKey_spec (ParsePKCS1PrivateKey : List UInt8 → Except Error PrivateKey)
    (ParsePKCS8PrivateKey : List UInt8 → Except Error PKCS8Key) (input : List UInt8) :
    ((∃ k, readPrivateKey ParsePKCS1PrivateKey ParsePKCS8PrivateKey input = .ok k) ↔
        (∃ k, ParsePKCS1PrivateKey input = .ok k)
          ∨ (∃ k, ParsePKCS8PrivateKey input = .ok (PKCS8Key.rsa k)))
      ∧ (∀ k, ParsePKCS1PrivateKey input = .ok k →
          ∀ otherPKCS8 : List UInt8 → Except Error PKCS8Key,
            readPrivateKey ParsePKCS1PrivateKey otherPKCS8 input = .ok k)
      ∧ (∀ e k, ParsePKCS1PrivateKey input = .error e →
          ParsePKCS8PrivateKey input = .ok (PKCS8Key.rsa k) →
          readPrivateKey ParsePKCS1PrivateKey ParsePKCS8PrivateKey input = .ok k)
      ∧ (∀ e1 e8, ParsePKCS1PrivateKey input = .error e1 →
          ParsePKCS8PrivateKey input = .error e8 →
          readPrivateKey ParsePKCS1PrivateKey ParsePKCS8PrivateKey input
            = .error (.errorString "private key error: neither PKCS1 nor PKCS8 format"))
      ∧ (∀ e1 goType, ParsePKCS1PrivateKey input = .error e1 →
          ParsePKCS8PrivateKey input = .ok (PKCS8Key.other goType) →
          ∃ e, readPrivateKey ParsePKCS1PrivateKey ParsePKCS8PrivateKey input = .error e) := by
  refine ⟨?_, ?_, ?_, ?_, ?_⟩
  · unfold readPrivateKey
    cases h1 : ParsePKCS1PrivateKey input with
    | ok k => simp
    | error e1 =>
      cases h8 : ParsePKCS8PrivateKey input with
      | error e8 => simp
      | ok key =>
        cases key with
        | rsa k => simp
        | other goType => simp
  · intro k h1 otherPKCS8
    simp only [readPrivateKey, h1]
  · intro e k h1 h8
    simp only [readPrivateKey, h1, h8]
  · intro e1 e8 h1 h8
    simp only [readPrivateKey, h1, h8]
  · intro e1 goType h1 h8
    refine ⟨.errorString
      "private key error, expected rsa.PrivateKey, found '*rsa.PrivateKey' instead", ?_⟩
    simp only [readPrivateKey, h1, h8]

/-! ## The session handlers -/

/-- C15, the input on which the claim fails: with a configured renew lifetime of minus one
nanosecond, which is not greater than zero, a successful login still carries a renew token. -/
theorem CreateSessionHandler_negative_renew_counterexample :
    ¬ ((0 : Duration) < -1)
      ∧ (CreateSessionHandler demoLib id
          { demoApp with config := { demoApp.config with RenewTokenExpireTime := -1 } }
          (fun _ => demoNow) demoReads demoReads (demoLoginRequest "")
          (.ok ⟨"", "alice", "", ""⟩)).1
        = .jsonapiSuccessMetaOnly "Bearer RS256.alice.rsasig"
            ⟨"RS256.alice.rsasig", "RS256.alice.rsasig"⟩ 200
      ∧ "RS256.alice.rsasig" ≠ "" := by
  refine ⟨by decide, by rfl, by decide⟩

/-- C15, as the code has it: every successful login answers 200 with the access token, in the
header and in the body, and carries a renew token exactly when the configured renew lifetime
is not zero: with the lifetime zero (which is what the configuration holds when refresh is
switched off) the renew token of the body is empty, with any other lifetime it is the
non-empty token signed from the standard claims of that lifetime. -/
theorem CreateSessionHandler_renew_token (lib : JwtLib) (tbl : Char → Char) (a : App)
    (clock : Nat → Time) (rdAccess rdRenew : Reads) (r : Request)
    (body : Except Error CreateSessionHandlerRequest) (auth : String)
    (rb : CreateSessionHandlerResponse) (st : Nat)
    (h : (CreateSessionHandler lib tbl a clock rdAccess rdRenew r body).1
      = .jsonapiSuccessMetaOnly auth rb st) :
    st = 200 ∧ auth = "Bearer " ++ rb.AccessToken
      ∧ (∃ (a2 : App) (user : User) (domain : String), a2.config = a.config ∧
          generateToken lib (sessionClaims a2 rdAccess (validateParam r) user domain)
            a.config.Secret a.config.SignKey = .ok rb.AccessToken ∧
          (a.config.RenewTokenExpireTime ≠ 0 →
            generateTokenStandard lib
              (newStandardClaims rdRenew user domain a.config.RenewTokenExpireTime)
              a.config.Secret a.config.SignKey = .ok rb.RenewToken))
      ∧ (a.config.RenewTokenExpireTime = 0 → rb.RenewToken = "")
      ∧ (a.config.RenewTokenExpireTime ≠ 0 → rb.RenewToken ≠ "")
      ∧ (∀ d : Duration, renewTokenExpireTime false d = 0 ∧ renewTokenExpireTime true d = d) := by
  obtain ⟨a2, user, domain, hcfg, hissue⟩ :=
    CreateSessionHandler_success lib tbl a clock rdAccess rdRenew r body auth rb st h
  obtain ⟨h1, h2, h3, h4⟩ :=
    issueSession_success lib a2 rdAccess rdRenew (validateParam r) user domain auth rb st hissue
  rw [hcfg] at h1 h4
  refine ⟨h3, h2, ⟨a2, user, domain, hcfg, h1, ?_⟩, ?_, ?_, fun d => ⟨rfl, rfl⟩⟩
  · intro hne
    rcases h4 with ⟨hz, _⟩ | ⟨_, hr⟩
    · exact absurd hz hne
    · exact hr
  · intro hz
    rcases h4 with ⟨_, hr⟩ | ⟨hne, _⟩
    · exact hr
    · exact absurd hz hne
  · intro hne
    rcases h4 with ⟨hz, _⟩ | ⟨_, hr⟩
    · exact absurd hz hne
    · exact generateTokenStandard_ne_empty lib _ _ _ _ hr

/-- C15, evaluated: a login of the sample administrator with renewal switched off. -/
theorem CreateSessionHandler_renew_token_witness :
    (⟨"RS256.alice.rsasig", ""⟩ : CreateSessionHandlerResponse).RenewToken = ""
      ∧ (CreateSessionHandler demoLib id
          { demoApp with config := { demoApp.config with
              RenewTokenExpireTime := renewTokenExpireTime false 144000000000000 } }
          (fun _ => demoNow) demoReads demoReads (demoLoginRequest "")
          (.ok ⟨"", "alice", "", ""⟩)).1
        = .jsonapiSuccessMetaOnly "Bearer RS256.alice.rsasig" ⟨"RS256.alice.rsasig", ""⟩ 200 :=
  ⟨(CreateSessionHandler_renew_token demoLib id
      { demoApp with config := { demoApp.config with
          RenewTokenExpireTime := renewTokenExpireTime false 144000000000000 } }
      (fun _ => demoNow) demoReads demoReads (demoLoginRequest "")
      (.ok ⟨"", "alice", "", ""⟩) "Bearer RS256.alice.rsasig" ⟨"RS256.alice.rsasig", ""⟩ 200
      (by rfl)).2.2.2.1 (by rfl),
    by rfl⟩

/-- C16, what the code does: the access claims of every successful renewal are built with the
configured renew-token lifetime, `RenewTokenExpireTime`, so their expiry is the second of the
clock reading plus that lifetime, not plus `AccessTokenExpireTime` as at login. -/
theorem RenewTokenHandler_access_lifetime (lib : JwtLib) (a : App) (now : Time) (rd : Reads)
    (body : Except Error RenewTokenHandlerRequest) (auth : String)
    (rb : CreateSessionHandlerResponse) (st : Nat)
    (h : RenewTokenHandler lib a now rd body = .jsonapiSuccessMetaOnly auth rb st) :
    ∃ (user : User) (claims : StandardClaims) (accessClaims : customClaims),
      accessClaims = newCustomClaims rd user claims.Issuer a.config.RenewTokenExpireTime ∧
      generateToken lib accessClaims a.config.Secret a.config.SignKey = .ok rb.AccessToken ∧
      accessClaims.ExpiresAt = Time.Unix (Time.Add rd.nowExp a.config.RenewTokenExpireTime) := by
  obtain ⟨req, user, claims, _, _, _, hg, _⟩ :=
    RenewTokenHandler_success lib a now rd body auth rb st h
  exact ⟨user, claims, _, rfl, hg, rfl⟩

/-- C16, evaluated: with five minutes for access tokens and forty hours for renew tokens, the
access claims of a renewal at second 1000 expire at second 145000, not at second 1300. -/
theorem RenewTokenHandler_access_lifetime_witness :
    (∃ (user : User) (claims : StandardClaims) (accessClaims : customClaims),
        accessClaims = newCustomClaims demoReads user claims.Issuer 144000000000000 ∧
        generateToken (demoLibFor demoAliceClaims) accessClaims "" ⟨⟨33, 3⟩, 7⟩
          = .ok "RS256.alice.rsasig" ∧
        accessClaims.ExpiresAt = 145000)
      ∧ Time.Unix (Time.Add demoReads.nowExp demoApp.config.AccessTokenExpireTime) = 1300
      ∧ demoApp.config.RenewTokenExpireTime = 144000000000000 :=
  ⟨RenewTokenHandler_access_lifetime (demoLibFor demoAliceClaims) demoApp demoNow demoReads
      (.ok ⟨"alice", "RS256.alice.rsasig"⟩) "Bearer RS256.alice.rsasig"
      ⟨"RS256.alice.rsasig", "RS256.alice.rsasig"⟩ 200 (by rfl),
    by decide, by rfl⟩

/-- C17: `getClaimsFromRenewToken` does not tell the token kinds apart. Every token that
`getClaimsFromAccessToken` accepts (validly signed and inside its validity window, carrying
roles and `azt`) is accepted by `getClaimsFromRenewToken` under the same configuration and
clock, which returns its standard claims; so `RenewTokenHandler`, given such a token for a
user it knows (in `extUsers` or in the repository), answers 200 with a newly signed access
token. The decoder skips the members that standard claims do not have
(`JwtLib.IgnoresExtraClaims`). -/
theorem getClaimsFromRenewToken_accepts_access_token (lib : JwtLib) (now : Time)
    (t secret : String) (verifyKey : PublicKey) (c : customClaims)
    (hjson : lib.IgnoresExtraClaims t)
    (hacc : getClaimsFromAccessToken lib now t secret verifyKey = .ok c) :
    getClaimsFromRenewToken lib now t secret verifyKey = .ok c.toStandardClaims
      ∧ (∀ (a : App) (rd : Reads) (userID : String) (user : User) (tok : String),
          a.config.Secret = secret → a.config.VerifyKey = verifyKey →
          ((∃ roles, a.extUsers.lookup userID = some roles ∧
              user = { User.zero with Username := userID, Roles := roles })
            ∨ (a.extUsers.lookup userID = none ∧ a.Users.GetUserByNameOrID userID = .ok user)) →
          generateToken lib (newCustomClaims rd user c.Issuer a.config.RenewTokenExpireTime)
            a.config.Secret a.config.SignKey = .ok tok →
          RenewTokenHandler lib a now rd (.ok ⟨userID, t⟩)
            = .jsonapiSuccessMetaOnly ("Bearer " ++ tok)
                { AccessToken := tok, RenewToken := t } 200) := by
  have hren : getClaimsFromRenewToken lib now t secret verifyKey = .ok c.toStandardClaims := by
    obtain ⟨token, parts, key, h1, h2, h3, h4, h5⟩ :=
      (getClaimsFromAccessToken_eq_ok _ _ _ _ _ _).mp hacc
    rw [getClaimsFromRenewToken_eq_ok]
    refine ⟨_, parts, key, hjson token parts h1, ?_, h3, h4, by rw [h5]⟩
    rcases (getKeyFunc_eq_ok _ _ _ _).mp h2 with ⟨hs, hm, hk⟩ | ⟨hs, hm, hk⟩
    · exact (getKeyFunc_eq_ok _ _ _ _).mpr (Or.inl ⟨hs, hm, hk⟩)
    · exact (getKeyFunc_eq_ok _ _ _ _).mpr (Or.inr ⟨hs, hm, hk⟩)
  refine ⟨hren, ?_⟩
  intro a rd userID user tok hsec hkey hknown hg
  subst hsec
  subst hkey
  rcases hknown with ⟨roles, hl, hu⟩ | ⟨hl, hu⟩
  · subst hu
    exact RenewTokenHandler_cached lib a now rd ⟨userID, t⟩ roles c.toStandardClaims tok hl
      hren hg
  · exact RenewTokenHandler_stored lib a now rd ⟨userID, t⟩ user c.toStandardClaims tok hl hu
      hren hg

/-- C17, evaluated: the access token of the sample administrator, presented as renew token. -/
theorem getClaimsFromRenewToken_accepts_access_token_witness :
    getClaimsFromRenewToken (demoLibFor demoAliceClaims) demoNow "RS256.alice.rsasig" ""
        ⟨33, 3⟩ = .ok demoAliceClaims.toStandardClaims
      ∧ RenewTokenHandler (demoLibFor demoAliceClaims) demoApp demoNow demoReads
          (.ok ⟨"alice", "RS256.alice.rsasig"⟩)
        = .jsonapiSuccessMetaOnly "Bearer RS256.alice.rsasig"
            ⟨"RS256.alice.rsasig", "RS256.alice.rsasig"⟩ 200 :=
  have h := getClaimsFromRenewToken_accepts_access_token (demoLibFor demoAliceClaims) demoNow
    "RS256.alice.rsasig" "" ⟨33, 3⟩ demoAliceClaims
    (by
      intro tok parts hp
      have h0 : (demoLibFor demoAliceClaims).parseCustom "RS256.alice.rsasig"
          = demoToken "RS256.alice.rsasig" SigningMethodRS256 demoAliceClaims
              ["RS256", "alice", "rsasig"] := by rfl
      rw [h0] at hp
      injection hp with hp
      injection hp with h1 h2
      subst h1
      subst h2
      rfl)
    (by rfl)
  ⟨h.1, h.2 demoApp demoReads "alice" demoAlice "RS256.alice.rsasig" (by rfl) (by rfl)
    (Or.inr ⟨by rfl, by rfl⟩) (by rfl)⟩

/-- C18, the input on which the claim fails: an external token, accepted by
`authorizeM2MRequest`, whose roles are "ADMIN" and "operator". `NewRoleList` rejects the
second name, the handler goes on with a user without roles, and the access token of the 200
answer is signed from claims whose roles are empty. -/
theorem CreateSessionHandler_m2m_invalid_role_counterexample :
    authorizeM2MRequest (demoLibFor demoCarolClaims) (fun _ => demoNow) "RS256.carol.rsasig"
        demoApp.config.TrustedPublicKeys = .ok demoCarolClaims
      ∧ demoCarolClaims.Roles = ["ADMIN", "operator"]
      ∧ (CreateSessionHandler (demoLibFor demoCarolClaims) id demoApp (fun _ => demoNow)
          demoReads demoReads (demoLoginRequest "") (.ok ⟨"", "", "", "RS256.carol.rsasig"⟩)).1
        = issueSession (demoLibFor demoCarolClaims)
            { demoApp with extUsers := [("carol", [])] } demoReads demoReads false
            { User.zero with Username := "carol" } ExternalDomain
      ∧ (CreateSessionHandler (demoLibFor demoCarolClaims) id demoApp (fun _ => demoNow)
          demoReads demoReads (demoLoginRequest "") (.ok ⟨"", "", "", "RS256.carol.rsasig"⟩)).1
        = .jsonapiSuccessMetaOnly "Bearer RS256.carol.rsasig"
            ⟨"RS256.carol.rsasig", "RS256.carol.rsasig"⟩ 200
      ∧ (sessionClaims { demoApp with extUsers := [("carol", [])] } demoReads false
          { User.zero with Username := "carol" } ExternalDomain).Roles = []
      ∧ (sessionClaims { demoApp with extUsers := [("carol", [])] } demoReads false
          { User.zero with Username := "carol" } ExternalDomain).Roles
        ≠ demoCarolClaims.Roles := by
  refine ⟨by rfl, by rfl, by rfl, by rfl, by rfl, by decide⟩

/-- C18, as the code has it: for every login with a token that `authorizeM2MRequest` accepts,
the access token of a successful answer is signed from claims whose subject is the subject of
the external token, and whose roles are the roles of the external token, same names in the
same order, when every one of them is a role name (ADMIN, HELPDESK or MONITOR, compared
without regard to case); when one is not, the roles of the claims are empty. -/
theorem CreateSessionHandler_m2m_claims (lib : JwtLib) (tbl : Char → Char) (a : App)
    (clock : Nat → Time) (rdAccess rdRenew : Reads) (r : Request)
    (requestBody : CreateSessionHandlerRequest) (decoded : customClaims) (auth : String)
    (rb : CreateSessionHandlerResponse) (st : Nat)
    (ht : presentedToken r requestBody ≠ "")
    (hauth : authorizeM2MRequest lib clock (presentedToken r requestBody)
      a.config.TrustedPublicKeys = .ok decoded)
    (h : (CreateSessionHandler lib tbl a clock rdAccess rdRenew r (.ok requestBody)).1
      = .jsonapiSuccessMetaOnly auth rb st) :
    ∃ (a2 : App) (user : User) (accessClaims : customClaims),
      accessClaims = sessionClaims a2 rdAccess (validateParam r) user ExternalDomain ∧
      generateToken lib accessClaims a.config.Secret a.config.SignKey = .ok rb.AccessToken ∧
      accessClaims.Subject = decoded.Subject ∧
      ((∀ rS ∈ decoded.Roles,
          strings.ToLower tbl rS = strings.ToLower tbl "ADMIN"
            ∨ strings.ToLower tbl rS = strings.ToLower tbl "HELPDESK"
            ∨ strings.ToLower tbl rS = strings.ToLower tbl "MONITOR") →
        accessClaims.Roles = decoded.Roles) ∧
      ((∃ rS ∈ decoded.Roles,
          ¬ (strings.ToLower tbl rS = strings.ToLower tbl "ADMIN"
            ∨ strings.ToLower tbl rS = strings.ToLower tbl "HELPDESK"
            ∨ strings.ToLower tbl rS = strings.ToLower tbl "MONITOR")) →
        accessClaims.Roles = []) := by
  rw [CreateSessionHandler_m2m lib tbl a clock rdAccess rdRenew r requestBody decoded ht
    hauth] at h
  obtain ⟨hg, _, _, _⟩ := issueSession_success lib _ rdAccess rdRenew (validateParam r) _
    ExternalDomain auth rb st h
  obtain ⟨hsub, hroles⟩ := sessionClaims_subject_roles
    { a with extUsers := (decoded.Subject, m2mRoles tbl decoded) :: a.extUsers } rdAccess
    (validateParam r)
    { User.zero with Username := decoded.Subject, Roles := m2mRoles tbl decoded } ExternalDomain
  obtain ⟨hok, herr⟩ := m2mRoles_names tbl decoded
  refine ⟨_, _, _, rfl, hg, hsub, ?_, ?_⟩
  · intro hall
    rw [hroles]
    exact hok ((NewRoleListLoop_ok_iff tbl decoded.Roles []).mpr hall)
  · rintro ⟨rS, hmem, hbad⟩
    rw [hroles]
    have hfail : ∃ e, NewRoleList tbl decoded.Roles = .error e := by
      apply except_error_of_not_ok
      intro roles hr
      exact hbad ((NewRoleListLoop_ok_iff tbl decoded.Roles []).mp ⟨roles, hr⟩ rS hmem)
    rw [herr hfail]
    rfl

/-- C18, evaluated: the login of an external caller with the roles "monitor" and "HELPDESK". -/
theorem CreateSessionHandler_m2m_claims_witness :
    ∃ (a2 : App) (user : User) (accessClaims : customClaims),
      accessClaims = sessionClaims a2 demoReads (validateParam (demoLoginRequest "")) user
        ExternalDomain ∧
      generateToken (demoLibFor demoDaveClaims) accessClaims demoApp.config.Secret
        demoApp.config.SignKey = .ok "RS256.dave.rsasig" ∧
      accessClaims.Subject = "dave" ∧ accessClaims.Roles = ["monitor", "HELPDESK"] :=
  have h := CreateSessionHandler_m2m_claims (demoLibFor demoDaveClaims) id demoApp
    (fun _ => demoNow) demoReads demoReads (demoLoginRequest "")
    ⟨"", "", "", "RS256.dave.rsasig"⟩ demoDaveClaims "Bearer RS256.dave.rsasig"
    ⟨"RS256.dave.rsasig", "RS256.dave.rsasig"⟩ 200 (by decide) (by rfl) (by rfl)
  match h with
  | ⟨a2, user, accessClaims, h1, h2, h3, h4, _⟩ =>
    ⟨a2, user, accessClaims, h1, h2, h3, h4 (by decide)⟩

/-- C19: the external users kept in `extUsers` are renewed without the user repository.
A login with a token that `authorizeM2MRequest` accepts stores, under the subject of the
token, the roles that `NewRoleList` kept (those of the token when all are role names). A later
call of `CreateSessionHandler` leaves the entry of a subject as it is unless it is such a login
of that subject, which stores its own roles; `RenewTokenHandler` changes nothing. And for
every application in which `extUsers` holds roles for `s`, a renewal for `s` with a renew
token that verifies answers 200 whatever the user repository is, once the signature succeeds,
with an access token signed from claims whose subject is `s` and whose roles are the names of
the stored roles. -/
theorem extUsers_renewal (lib : JwtLib) (tbl : Char → Char) :
    (∀ (a : App) (clock : Nat → Time) (rdAccess rdRenew : Reads) (r : Request)
        (requestBody : CreateSessionHandlerRequest) (decoded : customClaims),
        presentedToken r requestBody ≠ "" →
        authorizeM2MRequest lib clock (presentedToken r requestBody)
          a.config.TrustedPublicKeys = .ok decoded →
        (CreateSessionHandler lib tbl a clock rdAccess rdRenew r
            (.ok requestBody)).2.extUsers.lookup decoded.Subject
          = some (m2mRoles tbl decoded)
        ∧ ((∀ rS ∈ decoded.Roles,
              strings.ToLower tbl rS = strings.ToLower tbl "ADMIN"
                ∨ strings.ToLower tbl rS = strings.ToLower tbl "HELPDESK"
                ∨ strings.ToLower tbl rS = strings.ToLower tbl "MONITOR") →
            (m2mRoles tbl decoded).map Role.Name = decoded.Roles))
      ∧ (∀ (a : App) (clock : Nat → Time) (rdAccess rdRenew : Reads) (r : Request)
          (body : Except Error CreateSessionHandlerRequest) (s : String),
          (CreateSessionHandler lib tbl a clock rdAccess rdRenew r body).2.config = a.config
          ∧ ((CreateSessionHandler lib tbl a clock rdAccess rdRenew r body).2.extUsers.lookup s
              = a.extUsers.lookup s
            ∨ ∃ requestBody decoded, body = .ok requestBody ∧
                presentedToken r requestBody ≠ "" ∧
                authorizeM2MRequest lib clock (presentedToken r requestBody)
                  a.config.TrustedPublicKeys = .ok decoded ∧
                decoded.Subject = s ∧
                (CreateSessionHandler lib tbl a clock rdAccess rdRenew r
                    body).2.extUsers.lookup s = some (m2mRoles tbl decoded)))
      ∧ (∀ (a : App) (now : Time) (rd : Reads) (s renewToken : String) (roles : List Role)
          (claims : StandardClaims) (tok : String) (accessClaims : customClaims),
          a.extUsers.lookup s = some roles →
          getClaimsFromRenewToken lib now renewToken a.config.Secret a.config.VerifyKey
            = .ok claims →
          accessClaims = newCustomClaims rd { User.zero with Username := s, Roles := roles }
            claims.Issuer a.config.RenewTokenExpireTime →
          generateToken lib accessClaims a.config.Secret a.config.SignKey = .ok tok →
          accessClaims.Subject = s ∧ accessClaims.Roles = roles.map Role.Name
            ∧ ∀ repository : Users,
              RenewTokenHandler lib { a with Users := repository } now rd (.ok ⟨s, renewToken⟩)
                = .jsonapiSuccessMetaOnly ("Bearer " ++ tok)
                    { AccessToken := tok, RenewToken := renewToken } 200) := by
  refine ⟨?_, ?_, ?_⟩
  · intro a clock rdAccess rdRenew r requestBody decoded ht hauth
    rw [CreateSessionHandler_m2m lib tbl a clock rdAccess rdRenew r requestBody decoded ht hauth]
    refine ⟨by simp [List.lookup], ?_⟩
    intro hall
    exact (m2mRoles_names tbl decoded).1 ((NewRoleListLoop_ok_iff tbl decoded.Roles []).mpr hall)
  · intro a clock rdAccess rdRenew r body s
    cases body with
    | error e => exact ⟨rfl, Or.inl rfl⟩
    | ok requestBody =>
      by_cases ht : presentedToken r requestBody = ""
      · rw [CreateSessionHandler_credentials lib tbl a clock rdAccess rdRenew r requestBody ht]
        cases a.Users.GetAndValidateUser requestBody.Username requestBody.Password <;>
          exact ⟨rfl, Or.inl rfl⟩
      · cases hauth : authorizeM2MRequest lib clock (presentedToken r requestBody)
            a.config.TrustedPublicKeys with
        | error e =>
          have hres : CreateSessionHandler lib tbl a clock rdAccess rdRenew r (.ok requestBody)
              = (.jsonapiError 401 "supplied token is not valid", a) := by
            simp only [CreateSessionHandler, ht, ne_eq, not_false_eq_true, if_true, hauth]
          rw [hres]
          exact ⟨rfl, Or.inl rfl⟩
        | ok decoded =>
          rw [CreateSessionHandler_m2m lib tbl a clock rdAccess rdRenew r requestBody decoded ht
            hauth]
          refine ⟨rfl, ?_⟩
          by_cases hs : decoded.Subject = s
          · refine Or.inr ⟨requestBody, decoded, rfl, ht, hauth, hs, ?_⟩
            subst hs
            simp [List.lookup]
          · refine Or.inl ?_
            have hne : (s == decoded.Subject) = false := by
              simp only [beq_eq_false_iff_ne, ne_eq]
              exact fun h => hs h.symm
            simp [List.lookup, hne]
  · intro a now rd s renewToken roles claims tok accessClaims hl hc hac hg
    subst hac
    refine ⟨rfl, roleNames_eq_map roles, ?_⟩
    intro repository
    exact RenewTokenHandler_cached lib { a with Users := repository } now rd ⟨s, renewToken⟩
      roles claims tok hl hc hg

/-- C19, evaluated: an external caller logs in with the roles "monitor" and "HELPDESK"; a
renewal for it succeeds on an application whose repository knows no user. -/
theorem extUsers_renewal_witness :
    (CreateSessionHandler (demoLibFor demoDaveClaims) id demoApp (fun _ => demoNow) demoReads
        demoReads (demoLoginRequest "")
        (.ok ⟨"", "", "", "RS256.dave.rsasig"⟩)).2.extUsers.lookup "dave"
        = some [⟨3, "monitor"⟩, ⟨2, "HELPDESK"⟩]
      ∧ RenewTokenHandler (demoLibFor demoDaveClaims)
          { demoApp with Users := demoNoUsers,
                         extUsers := [("dave", [⟨3, "monitor"⟩, ⟨2, "HELPDESK"⟩])] }
          demoNow demoReads (.ok ⟨"dave", "RS256.dave.rsasig"⟩)
        = .jsonapiSuccessMetaOnly "Bearer RS256.dave.rsasig"
            ⟨"RS256.dave.rsasig", "RS256.dave.rsasig"⟩ 200 :=
  ⟨((extUsers_renewal (demoLibFor demoDaveClaims) id).1 demoApp (fun _ => demoNow) demoReads
      demoReads (demoLoginRequest "") ⟨"", "", "", "RS256.dave.rsasig"⟩ demoDaveClaims
      (by decide) (by rfl)).1,
    ((extUsers_renewal (demoLibFor demoDaveClaims) id).2.2
      { demoApp with extUsers := [("dave", [⟨3, "monitor"⟩, ⟨2, "HELPDESK"⟩])] } demoNow
      demoReads "dave" "RS256.dave.rsasig" [⟨3, "monitor"⟩, ⟨2, "HELPDESK"⟩]
      demoDaveClaims.toStandardClaims "RS256.dave.rsasig" _ (by rfl) (by rfl) rfl
      (by rfl)).2.2 demoNoUsers⟩

/-! ## Role lists, passwords and the page count -/

/-- C26: for every list of role names, `NewRoleList` fails exactly when some name is none of
ADMIN, HELPDESK, MONITOR compared case-insensitively; when it succeeds the result has one role
per input name in the same order, each with the input string as `Name` and with the ordinal of
the role the name matches as `ID` (ADMIN 1, HELPDESK 2, MONITOR 3), so that `RoleList.String`
of the result gives back the input names. -/
theorem NewRoleList_spec (tbl : Char → Char) (roleListString : List String) :
    ((∃ err, NewRoleList tbl roleListString = .error err) ↔
        ∃ rS ∈ roleListString,
          ¬ (strings.ToLower tbl rS = strings.ToLower tbl "ADMIN"
            ∨ strings.ToLower tbl rS = strings.ToLower tbl "HELPDESK"
            ∨ strings.ToLower tbl rS = strings.ToLower tbl "MONITOR"))
      ∧ (∀ rL, NewRoleList tbl roleListString = .ok rL →
          rL.length = roleListString.length
            ∧ List.Forall₂ (fun rS r => r.Name = rS ∧
                ((strings.ToLower tbl rS = strings.ToLower tbl "ADMIN" ∧ r.ID = 1)
                  ∨ (strings.ToLower tbl rS = strings.ToLower tbl "HELPDESK" ∧ r.ID = 2)
                  ∨ (strings.ToLower tbl rS = strings.ToLower tbl "MONITOR" ∧ r.ID = 3)))
                roleListString rL
            ∧ RoleList.String rL = roleListString)
      ∧ NewRoleList id ["Admin", "helpdesk", "MONITOR"]
          = .ok [⟨1, "Admin"⟩, ⟨2, "helpdesk"⟩, ⟨3, "MONITOR"⟩] := by
  refine ⟨?_, ?_, ?_⟩
  · have hiff := NewRoleListLoop_ok_iff tbl roleListString []
    constructor
    · rintro ⟨err, herr⟩
      by_contra hnone
      have hall : ∀ rS ∈ roleListString,
          strings.ToLower tbl rS = strings.ToLower tbl "ADMIN"
            ∨ strings.ToLower tbl rS = strings.ToLower tbl "HELPDESK"
            ∨ strings.ToLower tbl rS = strings.ToLower tbl "MONITOR" := by
        intro rS hmem
        by_contra hbad
        exact hnone ⟨rS, hmem, hbad⟩
      obtain ⟨roles, hok⟩ := hiff.mpr hall
      unfold NewRoleList at herr
      rw [hok] at herr
      cases herr
    · rintro ⟨rS, hmem, hbad⟩
      apply except_error_of_not_ok
      intro roles hok
      exact hbad (hiff.mp ⟨roles, hok⟩ rS hmem)
  · intro rL hok
    obtain ⟨added, hr, hall⟩ := NewRoleListLoop_roles tbl roleListString [] rL hok
    simp only [List.nil_append] at hr
    subst hr
    have hnames := NewRoleListLoop_names tbl roleListString [] rL hok
    simp only [List.map_nil, List.nil_append] at hnames
    refine ⟨hall.length_eq.symm, hall, ?_⟩
    rw [RoleList_String_eq_map, hnames]
  · rfl

/-- C23, what the code does: `validatePassword` accepts a password exactly when it is at
least 8 bytes long and contains a lowercase letter, an uppercase letter, a digit and a special
character, and it rejects every password of fewer than 8 bytes with `password must be at least
8 characters long`. A string has at least as many bytes as characters, so every password that
is accepted has 8 bytes or more, but it may have fewer than 8 characters: the six characters
`Aa1!éé` take eight bytes and are accepted. -/
theorem validatePassword_counts_bytes (p : String) :
    (validatePassword p = .ok () ↔
        8 ≤ len p ∧ matchLower p = true ∧ matchUpper p = true ∧ matchNumber p = true
          ∧ matchSpecial p = true)
      ∧ (len p < 8 →
          validatePassword p
            = .error (.errorString "password must be at least 8 characters long"))
      ∧ p.length ≤ len p
      ∧ validatePassword "Aa1!éé" = .ok ()
      ∧ "Aa1!éé".length = 6 ∧ len "Aa1!éé" = 8 := by
  refine ⟨?_, ?_, length_le_len p, by rfl, by decide, by rfl⟩
  · unfold validatePassword
    by_cases h8 : len p < 8
    · simp [h8]
    · have hlen : 8 ≤ len p := by omega
      cases hl : matchLower p <;> cases hu : matchUpper p <;> cases hn : matchNumber p <;>
        cases hs : matchSpecial p <;> simp [h8, hlen]
  · intro h8
    simp [validatePassword, h8]

/-- C30, what the code does: for every page size of at least 1 and counts that are not
negative, `GetEventsHandler` reports in summary mode `1 + n / pageSize` pages for the sum `n`
of the six counts. That is the number of pages needed to list `n` events,
max(1, ceil(n / pageSize)), exactly when `n` is not a positive multiple of the page size, and
one page more when it is: 25 events at 25 per page are reported as 2 pages. -/
theorem GetEventsHandlerMeta_totalPages :
    (∀ (GetEventsCount : EventSeverity → Int) (pageSize : Int), 1 ≤ pageSize →
        (∀ s, 0 ≤ GetEventsCount s) →
        ∃ (sC : SeverityCounts) (n : Int),
          n = GetEventsCount .Major + GetEventsCount .Minor + GetEventsCount .Critical
              + GetEventsCount .Cleared + GetEventsCount .Warning
              + GetEventsCount .Indeterminate ∧
          GetEventsHandlerMeta GetEventsCount pageSize = some (sC, 1 + n / pageSize) ∧
          (¬ (0 < n ∧ n % pageSize = 0) → 1 + n / pageSize = pagesNeededSpec n pageSize) ∧
          (0 < n ∧ n % pageSize = 0 → 1 + n / pageSize = pagesNeededSpec n pageSize + 1))
      ∧ GetEventsHandlerMeta demoCounts (pageSizeParam "25")
          = some (⟨3, 4, 0, 6, 5, 7⟩, 2)
      ∧ pagesNeededSpec 25 25 = 1 := by
  refine ⟨?_, by rfl, by decide⟩
  intro cnt p hp hcnt
  have h1 := hcnt .Major
  have h2 := hcnt .Minor
  have h3 := hcnt .Critical
  have h4 := hcnt .Cleared
  have h5 := hcnt .Warning
  have h6 := hcnt .Indeterminate
  have harith := totalPages_arith
    (cnt .Major + cnt .Minor + cnt .Critical + cnt .Cleared + cnt .Warning
      + cnt .Indeterminate) p (by omega) hp
  refine ⟨⟨cnt .Cleared, cnt .Critical, cnt .Indeterminate, cnt .Major, cnt .Minor,
    cnt .Warning⟩, _, rfl, ?_, harith.1, harith.2⟩
  have hne : p ≠ 0 := by omega
  simp only [GetEventsHandlerMeta, hne, if_false]
  rw [Int.tdiv_eq_ediv (by omega) (by omega)]

/-! ## Key pairs and the trusted keys -/

/-- C21: for every pair of inputs and flag `x509`, `ReadKeyPair` returns a nil error exactly
when the public input parses under the declared format (a certificate that embeds an RSA
public key when `x509` is set, a PKCS1 RSA public key otherwise) and `readPrivateKey` accepts
the private input; it then returns the parsed public key and that private key. Whenever it
returns an error both returned keys are nil. No input is both a certificate and a PKCS1 public
key (`hformats`, a fact of the two encodings), so a certificate passed as a raw key fails and
a raw key passed as a certificate fails. -/
theorem ReadKeyPair_spec (x : X509) (rawPubKey rawPvtKey : List UInt8) (x509 : Bool)
    (hformats : ∀ input cert key, x.ParseCertificate input = .ok cert →
      x.ParsePKCS1PublicKey input ≠ .ok key) :
    ((ReadKeyPair x rawPubKey rawPvtKey x509).err = none ↔
        ((x509 = true ∧ ∃ key, x.ParseCertificate rawPubKey = .ok ⟨.rsa key⟩)
            ∨ (x509 = false ∧ ∃ key, x.ParsePKCS1PublicKey rawPubKey = .ok key))
          ∧ ∃ pvtKey, readPrivateKey x.ParsePKCS1PrivateKey x.ParsePKCS8PrivateKey rawPvtKey
              = .ok pvtKey)
      ∧ (∀ pubKey pvtKey,
          ((x509 = true ∧ x.ParseCertificate rawPubKey = .ok ⟨.rsa pubKey⟩)
            ∨ (x509 = false ∧ x.ParsePKCS1PublicKey rawPubKey = .ok pubKey)) →
          readPrivateKey x.ParsePKCS1PrivateKey x.ParsePKCS8PrivateKey rawPvtKey
            = .ok pvtKey →
          ReadKeyPair x rawPubKey rawPvtKey x509 = ⟨some pubKey, some pvtKey, none⟩)
      ∧ ((ReadKeyPair x rawPubKey rawPvtKey x509).err ≠ none →
          (ReadKeyPair x rawPubKey rawPvtKey x509).pubKey = none
            ∧ (ReadKeyPair x rawPubKey rawPvtKey x509).pvtKey = none)
      ∧ ((∃ cert, x.ParseCertificate rawPubKey = .ok cert) →
          (ReadKeyPair x rawPubKey rawPvtKey false).err ≠ none)
      ∧ ((∃ key, x.ParsePKCS1PublicKey rawPubKey = .ok key) →
          (ReadKeyPair x rawPubKey rawPvtKey true).err ≠ none) := by
  refine ⟨?_, ?_, ?_, ?_, ?_⟩
  · cases x509 with
    | true =>
      simp only [ReadKeyPair, if_true, readPKIXKeyPair]
      cases hc : x.ParseCertificate rawPubKey with
      | error e => simp
      | ok cert =>
        obtain ⟨pk⟩ := cert
        cases pk with
        | other goType => simp
        | rsa key =>
          cases hp : readPrivateKey x.ParsePKCS1PrivateKey x.ParsePKCS8PrivateKey
            rawPvtKey with
          | error e => simp
          | ok pvtKey => simp
    | false =>
      simp only [ReadKeyPair, Bool.false_eq_true, if_false, readRSAKeyPair]
      cases hc : x.ParsePKCS1PublicKey rawPubKey with
      | error e => simp
      | ok key =>
        cases hp : readPrivateKey x.ParsePKCS1PrivateKey x.ParsePKCS8PrivateKey
          rawPvtKey with
        | error e => simp
        | ok pvtKey => simp
  · intro pubKey pvtKey hpub hpvt
    rcases hpub with ⟨hx, hc⟩ | ⟨hx, hc⟩
    · subst hx
      simp only [ReadKeyPair, if_true, readPKIXKeyPair, hc, hpvt]
    · subst hx
      simp only [ReadKeyPair, Bool.false_eq_true, if_false, readRSAKeyPair, hc, hpvt]
  · cases x509 with
    | true =>
      simp only [ReadKeyPair, if_true, readPKIXKeyPair]
      cases hc : x.ParseCertificate rawPubKey with
      | error e => simp
      | ok cert =>
        obtain ⟨pk⟩ := cert
        cases pk with
        | other goType => simp
        | rsa key =>
          cases hp : readPrivateKey x.ParsePKCS1PrivateKey x.ParsePKCS8PrivateKey
            rawPvtKey with
          | error e => simp
          | ok pvtKey => simp
    | false =>
      simp only [ReadKeyPair, Bool.false_eq_true, if_false, readRSAKeyPair]
      cases hc : x.ParsePKCS1PublicKey rawPubKey with
      | error e => simp
      | ok key =>
        cases hp : readPrivateKey x.ParsePKCS1PrivateKey x.ParsePKCS8PrivateKey
          rawPvtKey with
        | error e => simp
        | ok pvtKey => simp
  · rintro ⟨cert, hc⟩
    simp only [ReadKeyPair, Bool.false_eq_true, if_false, readRSAKeyPair]
    cases hk : x.ParsePKCS1PublicKey rawPubKey with
    | error e => simp
    | ok key => exact absurd hk (hformats rawPubKey cert key hc)
  · rintro ⟨key, hk⟩
    simp only [ReadKeyPair, if_true, readPKIXKeyPair]
    cases hc : x.ParseCertificate rawPubKey with
    | error e => simp
    | ok cert => exact absurd hk (hformats rawPubKey cert key hc)

/-- C21, evaluated on the sample parsers: the raw pair and the certificate pair are read,
and the certificate read as a raw key, the raw key read as a certificate and the certificate
with an ECDSA key give an error and no key. -/
theorem ReadKeyPair_spec_witness :
    ReadKeyPair demoX509 [1] [4] false = ⟨some ⟨33, 3⟩, some ⟨⟨33, 3⟩, 7⟩, none⟩
      ∧ ReadKeyPair demoX509 [2] [5] true = ⟨some ⟨33, 3⟩, some ⟨⟨33, 3⟩, 7⟩, none⟩
      ∧ (ReadKeyPair demoX509 [2] [4] false).err ≠ none
      ∧ (ReadKeyPair demoX509 [1] [4] true).err ≠ none
      ∧ (ReadKeyPair demoX509 [3] [4] true).pubKey = none
      ∧ (ReadKeyPair demoX509 [3] [4] true).pvtKey = none := by
  have hformats : ∀ input cert key, demoX509.ParseCertificate input = .ok cert →
      demoX509.ParsePKCS1PublicKey input ≠ .ok key := by
    intro input cert key hc hk
    simp only [demoX509] at hc hk
    by_cases h1 : input = [1]
    · subst h1
      simp at hc
    · simp [h1] at hk
  exact ⟨(ReadKeyPair_spec demoX509 [1] [4] false hformats).2.1 ⟨33, 3⟩ ⟨⟨33, 3⟩, 7⟩
      (Or.inr ⟨rfl, by rfl⟩) (by rfl),
    (ReadKeyPair_spec demoX509 [2] [5] true hformats).2.1 ⟨33, 3⟩ ⟨⟨33, 3⟩, 7⟩
      (Or.inl ⟨rfl, by rfl⟩) (by rfl),
    (ReadKeyPair_spec demoX509 [2] [4] false hformats).2.2.2.1 ⟨_, by rfl⟩,
    (ReadKeyPair_spec demoX509 [1] [4] true hformats).2.2.2.2 ⟨_, by rfl⟩,
    ((ReadKeyPair_spec demoX509 [3] [4] true hformats).2.2.1 (by decide)).1,
    ((ReadKeyPair_spec demoX509 [3] [4] true hformats).2.2.1 (by decide)).2⟩

/-- C22, what the code does: `ReadPublicKeys` returns the nil slice when the directory cannot
be listed. When no entry holds a key of another kind than RSA it returns the RSA keys of the
regular files that PEM-decode and parse as PKIX public keys, in the order of the listing (the
nil slice when there is none), skipping subdirectories, unreadable files, data that is not PEM
and unparsable keys. When some entry holds a PKIX public key of another kind the unchecked
type assertion panics: a directory with an RSA key and an ECDSA key is not read. -/
theorem ReadPublicKeys_other_kind_panics (x : X509) (fs : FileSystem)
    (publicKeyListPath : String) :
    (∀ err, fs.ReadDir publicKeyListPath = .error err →
        ReadPublicKeys x fs publicKeyListPath = .returns none)
      ∧ (∀ files, fs.ReadDir publicKeyListPath = .ok files →
          (∀ file ∈ files, ∀ goType,
            parsedKey x fs publicKeyListPath file ≠ some (.other goType)) →
          ∃ publicList, ReadPublicKeys x fs publicKeyListPath = .returns publicList
            ∧ publicList.getD [] = parsedRSAKeys x fs publicKeyListPath files
            ∧ (publicList = none ↔ parsedRSAKeys x fs publicKeyListPath files = []))
      ∧ (∀ files, fs.ReadDir publicKeyListPath = .ok files →
          (∃ file ∈ files, ∃ goType,
            parsedKey x fs publicKeyListPath file = some (.other goType)) →
          ∃ message, ReadPublicKeys x fs publicKeyListPath = .panics message)
      ∧ ReadPublicKeys demoX509 demoMixedKeyDir "keys"
          = .panics "interface conversion: interface is *ecdsa.PublicKey, not *rsa.PublicKey"
      ∧ ReadPublicKeys demoX509 demoKeyDir "keys" = .returns (some [⟨33, 3⟩]) := by
  refine ⟨?_, ?_, ?_, by rfl, by rfl⟩
  · intro err herr
    simp only [ReadPublicKeys, herr]
  · intro files hdir hno
    refine ⟨_, ?_, (foldl_appendKey_none _).1, (foldl_appendKey_none _).2⟩
    simp only [ReadPublicKeys, hdir]
    exact ReadPublicKeysLoop_returns x fs publicKeyListPath files none hno
  · intro files hdir hbad
    simp only [ReadPublicKeys, hdir]
    exact ReadPublicKeysLoop_panics x fs publicKeyListPath files none hbad

/-! ## The `Authorization` header -/

/-- C29, what the code does: for every token `t` that neither starts nor ends with white
space and in which the keyword `Bearer` does not occur, `parseAuthHeader` returns `t` both
for the header `Bearer t` and for the header `t` alone. The `switch` on the number of pieces
has no case for three pieces or more and takes the second of two pieces whatever the first is,
so a token in which the keyword occurs is not recovered: for `aaa.bbb.cBearerd`, which has no
white space at all, the header `Bearer aaa.bbb.cBearerd` gives the empty string and the header
`aaa.bbb.cBearerd` gives `d`. -/
theorem parseAuthHeader_keyword_in_token :
    (∀ (r : Request) (t : String),
        (∀ c, t.data.head? = some c → unicode.IsSpace c = false) →
        (∀ c, t.data.getLast? = some c → unicode.IsSpace c = false) →
        strings.Index t.data "Bearer".data = none →
        (r.HeaderGet headerAuthorization = "Bearer " ++ t → parseAuthHeader r = t)
          ∧ (r.HeaderGet headerAuthorization = t → parseAuthHeader r = t))
      ∧ parseAuthHeader ⟨"GET", [("Authorization", "Bearer aaa.bbb.cBearerd")], []⟩ = ""
      ∧ parseAuthHeader ⟨"GET", [("Authorization", "aaa.bbb.cBearerd")], []⟩ = "d"
      ∧ strings.TrimSpace "aaa.bbb.cBearerd" = "aaa.bbb.cBearerd"
      ∧ parseAuthHeader ⟨"GET", [("Authorization", "Bearer aaa.bbb.ccc")], []⟩
          = "aaa.bbb.ccc" := by
  refine ⟨?_, by rfl, by rfl, by rfl, by rfl⟩
  intro r t hfirst hlast hindex
  have htrim := TrimSpace_of_trimmed t hfirst hlast
  constructor
  · intro hheader
    unfold parseAuthHeader
    simp only [hheader, SplitAfter_Bearer t hindex]
    rw [TrimSpace_space_append, htrim]
  · intro hheader
    unfold parseAuthHeader
    simp only [hheader, SplitAfter_of_Index_none t hindex]
    exact htrim

/-! ## The user handlers -/

/-- C24, what the code does: on creation an invalid role name is answered with status 500
and the repository is not touched, whereas the other validation failures of the creation (an
empty or already used username, a password that does not meet the requirements) are answered
400, and on update an invalid role name and such a password are answered 400. The request
`POST` with the role name `operator` gets 500 `invalid role operator`; the same body sent as
a PATCH gets 400 with the same message. -/
theorem CreateUserHandler_invalid_role_status (tbl : Char → Char) (bcrypt : String → String)
    (uR : UserRepo) (requestBody : UserRequest) :
    (∀ err, NewRoleList tbl requestBody.Roles = .error err →
        CreateUserHandler tbl bcrypt uR (.ok requestBody)
          = (.jsonapiError 500 err.message, uR))
      ∧ (∀ rL, NewRoleList tbl requestBody.Roles = .ok rL →
          (requestBody.Username = ""
            ∨ (∃ row ∈ uR.DB, row.Username = requestBody.Username)
            ∨ (∃ err, validatePassword requestBody.Password = .error err)) →
          ∃ msg, CreateUserHandler tbl bcrypt uR (.ok requestBody)
            = (.jsonapiError 400 msg, uR))
      ∧ (∀ id found, uR.GetUserByNameOrID id = .ok found →
          ((∃ err, NewRoleList tbl requestBody.Roles = .error err)
            ∨ (requestBody.Password ≠ ""
              ∧ ∃ err, validatePassword requestBody.Password = .error err)) →
          ∃ msg, PatchUserHandler tbl bcrypt uR (.ok requestBody) id
            = (.jsonapiError 400 msg, uR))
      ∧ CreateUserHandler id demoBcrypt demoRepo (.ok demoOperatorBody)
          = (.jsonapiError 500 "invalid role operator", demoRepo)
      ∧ PatchUserHandler id demoBcrypt demoRepo (.ok demoOperatorBody) "bob"
          = (.jsonapiError 400 "invalid role operator", demoRepo) := by
  refine ⟨?_, ?_, ?_, by rfl, by rfl⟩
  · intro err herr
    simp only [CreateUserHandler, herr]
  · intro rL hr hbad
    have hcreate : ∀ u : User, u.Username = requestBody.Username →
        u.Password = requestBody.Password →
        ∃ msg, uR.Create bcrypt u = .error (.UserError msg) := by
      intro u hname hpass
      apply Create_user_error
      rw [hname, hpass]
      exact hbad
    unfold CreateUserHandler
    simp only [hr]
    by_cases hid : requestBody.ID = ""
    · obtain ⟨msg, hmsg⟩ := hcreate
        { ID := 0, Username := requestBody.Username, Password := requestBody.Password,
          Roles := rL, Version := 1 } rfl rfl
      simp only [hid, ne_eq, not_true_eq_false, if_false, hmsg]
      exact ⟨msg, rfl⟩
    · obtain ⟨msg, hmsg⟩ := hcreate
        { ID := uintOfInt (strconv.Atoi requestBody.ID).1, Username := requestBody.Username,
          Password := requestBody.Password, Roles := rL, Version := 1 } rfl rfl
      simp only [hid, ne_eq, not_false_eq_true, if_true, hmsg]
      exact ⟨msg, rfl⟩
  · intro id found hg hbad
    unfold PatchUserHandler
    simp only [hg, UserRepo.UpdateUserByNameOrID]
    cases hr : NewRoleList tbl requestBody.Roles with
    | error e => exact ⟨_, rfl⟩
    | ok rL =>
      rcases hbad with ⟨err, herr⟩ | ⟨hpass, err, hv⟩
      · rw [hr] at herr
        cases herr
      · simp only [hpass, ne_eq, not_false_eq_true, if_true, hv]
        exact ⟨_, rfl⟩

/-- C25, what the code does: when `jwtMiddleware` hands on a PATCH of claims without ADMIN,
the path parameter is the subject, and the record that a successful `PatchUserHandler` looks
up and updates is the one `GetUserByNameOrID` finds for the subject: the row whose username
is the subject when the subject does not parse as an integer, but the row whose primary key
is that integer when it does. The monitor user whose username is `1` so passes the middleware
with `PATCH /user/1` and sets the password of the row with primary key 1, the administrator,
whose username is not the subject. -/
theorem PatchUserHandler_numeric_subject :
    (∀ (lib : JwtLib) (tbl : Char → Char) (config : Config) (now : Time) (r : Request)
        (claims : customClaims) (id : String) (bcrypt : String → String) (uR : UserRepo)
        (body : Except Error UserRequest) (response : UserResponse) (after : UserRepo),
        getClaimsFromAccessToken lib now (parseAuthHeader r) config.Secret config.VerifyKey
          = .ok claims →
        (¬ ∃ s ∈ claims.Roles, strings.ToLower tbl s = strings.ToLower tbl "ADMIN") →
        r.Method = "PATCH" → r.Vars.lookup "id" = some id →
        jwtMiddleware lib tbl config now r = .next →
        PatchUserHandler tbl bcrypt uR body id = (.jsonapiSuccess response 200, after) →
        id = claims.Subject
          ∧ ∃ found, uR.GetUserByNameOrID claims.Subject = .ok found
            ∧ response.ID = found.ID
            ∧ ((∃ n, strconv.Atoi claims.Subject = (n, none) ∧ (found.ID : Int) = n)
              ∨ ((∃ n msg, strconv.Atoi claims.Subject = (n, some msg))
                ∧ found.Username = claims.Subject)))
      ∧ getClaimsFromAccessToken (demoLibFor demoOneClaims) demoNow
          (parseAuthHeader (demoRequest "PATCH" "RS256.1.rsasig" "1")) demoConfig.Secret
          demoConfig.VerifyKey = .ok demoOneClaims
      ∧ demoOneClaims.Subject = "1" ∧ demoOneClaims.Roles = ["MONITOR"]
      ∧ jwtMiddleware (demoLibFor demoOneClaims) id demoConfig demoNow
          (demoRequest "PATCH" "RS256.1.rsasig" "1") = .next
      ∧ (demoRepo.GetUserByNameOrID "1").map User.Username = .ok "admin"
      ∧ PatchUserHandler id demoBcrypt demoRepo (.ok demoPasswordBody) "1"
          = (.jsonapiSuccess ⟨1, ["ADMIN"], "admin", 2⟩ 200,
              ⟨[{ ID := 1, Username := "admin", Password := "$2a$08$Pwn3d!pwn", Version := 2,
                  Roles := [⟨1, "ADMIN"⟩] },
                { ID := 2, Username := "1", Password := "$2a$08$Qw3rty!x", Version := 1,
                  Roles := [⟨3, "MONITOR"⟩] },
                { ID := 3, Username := "bob", Password := "$2a$08$Qw3rty!y", Version := 1,
                  Roles := [⟨3, "MONITOR"⟩] }]⟩) := by
  refine ⟨?_, by rfl, by rfl, by rfl, by rfl, by rfl, by rfl⟩
  intro lib tbl config now r claims id bcrypt uR body response after hver hnoadmin hmethod
    hid hnext h
  have hself := jwtMiddleware_patch_next_self lib tbl config now r claims id hver hnoadmin
    hmethod hid hnext
  subst hself
  obtain ⟨requestBody, u, _, hupdate, hresp, _⟩ :=
    PatchUserHandler_success tbl bcrypt uR body _ response 200 after h
  obtain ⟨found, rL, hg, _, huid, _⟩ :=
    UpdateUserByNameOrID_eq_ok tbl bcrypt uR _ _ _ _ u after hupdate
  refine ⟨rfl, found, hg, ?_, ?_⟩
  · rw [hresp]
    exact huid
  · rcases (GetUserByNameOrID_eq_ok uR _ found).mp hg with ⟨n, hA, hf⟩ | ⟨n, msg, hA, hf⟩
    · exact Or.inl ⟨n, hA, by simpa using List.find?_some hf⟩
    · exact Or.inr ⟨⟨n, msg, hA⟩, by simpa using List.find?_some hf⟩

/-- C28, as the code has it: a PATCH of claims without ADMIN that `jwtMiddleware` hands on
names the subject in its path parameter, and when `PatchUserHandler` answers it with 200 the
roles of the row found for the subject are replaced by the roles that the body names as soon
as it names one (all of them are then role names), every other row keeping its roles; the
answer lists the roles written. Only when the body names no role do all role lists stay as
they were (primary keys being unique). -/
theorem PatchUserHandler_roles (lib : JwtLib) (tbl : Char → Char) (config : Config)
    (now : Time) (r : Request) (claims : customClaims) (id : String)
    (bcrypt : String → String) (uR : UserRepo) (body : Except Error UserRequest)
    (response : UserResponse) (after : UserRepo)
    (hver : getClaimsFromAccessToken lib now (parseAuthHeader r) config.Secret config.VerifyKey
      = .ok claims)
    (hnoadmin : ¬ ∃ s ∈ claims.Roles, strings.ToLower tbl s = strings.ToLower tbl "ADMIN")
    (hmethod : r.Method = "PATCH") (hid : r.Vars.lookup "id" = some id)
    (hnext : jwtMiddleware lib tbl config now r = .next)
    (h : PatchUserHandler tbl bcrypt uR body id = (.jsonapiSuccess response 200, after)) :
    id = claims.Subject ∧
      ∃ requestBody found rL,
        body = .ok requestBody ∧
        uR.GetUserByNameOrID claims.Subject = .ok found ∧
        NewRoleList tbl requestBody.Roles = .ok rL ∧
        rL.map Role.Name = requestBody.Roles ∧
        response.Roles
          = RoleList.String (if requestBody.Roles = [] then found.Roles else rL) ∧
        after.DB.map (fun row => (row.ID, row.Roles))
          = uR.DB.map (fun row => (row.ID,
              if row.ID = found.ID then
                (if requestBody.Roles = [] then found.Roles else rL)
              else row.Roles)) ∧
        ((uR.DB.map User.ID).Nodup → requestBody.Roles = [] →
          after.DB.map (fun row => (row.ID, row.Roles))
            = uR.DB.map (fun row => (row.ID, row.Roles))) := by
  have hself := jwtMiddleware_patch_next_self lib tbl config now r claims id hver hnoadmin
    hmethod hid hnext
  subst hself
  obtain ⟨requestBody, u, hbody, hupdate, hresp, _⟩ :=
    PatchUserHandler_success tbl bcrypt uR body _ response 200 after h
  obtain ⟨found, rL, hg, hr, huid, huroles, _, _, _, hafter⟩ :=
    UpdateUserByNameOrID_eq_ok tbl bcrypt uR _ _ _ _ u after hupdate
  have hnames := NewRoleListLoop_names tbl requestBody.Roles [] rL hr
  simp only [List.map_nil, List.nil_append] at hnames
  have hrows : after.DB.map (fun row => (row.ID, row.Roles))
      = uR.DB.map (fun row => (row.ID,
          if row.ID = found.ID then
            (if requestBody.Roles = [] then found.Roles else rL)
          else row.Roles)) := by
    rw [hafter]
    show (gormReplaceRoles (gormUpdates uR.DB u).2 u u.Roles).map
      (fun row => (row.ID, row.Roles)) = _
    rw [gorm_update_roles, huroles, huid]
  refine ⟨rfl, requestBody, found, rL, hbody, hg, hr, hnames, ?_, hrows, ?_⟩
  · rw [hresp]
    show RoleList.String u.Roles = _
    rw [huroles]
  · intro hnodup hnone
    rw [hrows]
    apply List.map_congr_left
    intro row hrow
    have hfound : found ∈ uR.DB := by
      rcases (GetUserByNameOrID_eq_ok uR _ found).mp hg with ⟨_, _, hf⟩ | ⟨_, _, _, hf⟩
      · exact List.mem_of_find?_eq_some hf
      · exact List.mem_of_find?_eq_some hf
    by_cases hsame : row.ID = found.ID
    · have hrowfound : row = found :=
        List.inj_on_of_nodup_map hnodup hrow hfound hsame
      simp [hnone, hrowfound]
    · simp [hsame]

/-- C28, evaluated: the monitor user `bob` sends `PATCH /user/bob` with the role name ADMIN;
the middleware hands the request on, the answer lists ADMIN and the row of `bob` holds the
administrator role, the other rows keeping their roles. -/
theorem PatchUserHandler_roles_witness :
    "bob" = demoBobClaims.Subject ∧
      ∃ requestBody found rL,
        (.ok demoRolesBody : Except Error UserRequest) = .ok requestBody ∧
        demoRepo.GetUserByNameOrID demoBobClaims.Subject = .ok found ∧
        NewRoleList id requestBody.Roles = .ok rL ∧
        rL.map Role.Name = requestBody.Roles ∧
        (⟨3, ["ADMIN"], "bob", 2⟩ : UserResponse).Roles
          = RoleList.String (if requestBody.Roles = [] then found.Roles else rL) ∧
        (PatchUserHandler id demoBcrypt demoRepo (.ok demoRolesBody) "bob").2.DB.map
            (fun row => (row.ID, row.Roles))
          = demoRepo.DB.map (fun row => (row.ID,
              if row.ID = found.ID then
                (if requestBody.Roles = [] then found.Roles else rL)
              else row.Roles)) ∧
        ((demoRepo.DB.map User.ID).Nodup → requestBody.Roles = [] →
          (PatchUserHandler id demoBcrypt demoRepo (.ok demoRolesBody) "bob").2.DB.map
              (fun row => (row.ID, row.Roles))
            = demoRepo.DB.map (fun row => (row.ID, row.Roles))) :=
  PatchUserHandler_roles demoLib id demoConfig demoNow
    (demoRequest "PATCH" "RS256.bob.rsasig" "bob") demoBobClaims "bob" demoBcrypt demoRepo
    (.ok demoRolesBody) ⟨3, ["ADMIN"], "bob", 2⟩
    (PatchUserHandler id demoBcrypt demoRepo (.ok demoRolesBody) "bob").2
    (by rfl) (by decide) (by rfl) (by rfl) (by rfl) (by rfl)

/-- C28 as stated fails: the monitor user `bob`, whose claims carry no ADMIN role, sends
`PATCH /user/bob` with the role name ADMIN; `jwtMiddleware` hands the request on and
`PatchUserHandler` answers 200, after which the role list of `bob` is the administrator role
and no longer the monitor role. -/
theorem PatchUserHandler_roles_counterexample :
    getClaimsFromAccessToken demoLib demoNow
        (parseAuthHeader (demoRequest "PATCH" "RS256.bob.rsasig" "bob")) demoConfig.Secret
        demoConfig.VerifyKey = .ok demoBobClaims
      ∧ demoBobClaims.Roles = ["MONITOR"]
      ∧ jwtMiddleware demoLib id demoConfig demoNow
          (demoRequest "PATCH" "RS256.bob.rsasig" "bob") = .next
      ∧ (PatchUserHandler id demoBcrypt demoRepo (.ok demoRolesBody) "bob").1
          = .jsonapiSuccess ⟨3, ["ADMIN"], "bob", 2⟩ 200
      ∧ (demoRepo.GetUserByNameOrID "bob").map User.Roles = .ok [⟨3, "MONITOR"⟩]
      ∧ ((PatchUserHandler id demoBcrypt demoRepo (.ok demoRolesBody)
            "bob").2.GetUserByNameOrID "bob").map User.Roles = .ok [⟨1, "ADMIN"⟩]
      ∧ ((PatchUserHandler id demoBcrypt demoRepo (.ok demoRolesBody)
            "bob").2.GetUserByNameOrID "bob").map User.Roles
          ≠ (demoRepo.GetUserByNameOrID "bob").map User.Roles := by
  have hbefore : (demoRepo.GetUserByNameOrID "bob").map User.Roles
      = .ok [⟨3, "MONITOR"⟩] := by rfl
  have hafter : ((PatchUserHandler id demoBcrypt demoRepo (.ok demoRolesBody)
      "bob").2.GetUserByNameOrID "bob").map User.Roles = .ok [⟨1, "ADMIN"⟩] := by rfl
  refine ⟨by rfl, by rfl, by rfl, by rfl, hbefore, hafter, ?_⟩
  rw [hbefore, hafter]
  intro heq
  injection heq with heq
  exact absurd heq (by decide)

/-- C27, as the code has it: for every successful `RenewTokenHandler` call the access token
is signed from claims whose subject is the username of the user that the `UserID` of the
request designates (the `UserID` itself for a user of `extUsers`, the username of the record
that `GetUserByNameOrID` finds otherwise). The verified renew token gives the `azt` member of
these claims (its issuer) and nothing else: its subject is not compared with that user. -/
theorem RenewTokenHandler_subject (lib : JwtLib) (a : App) (now : Time) (rd : Reads)
    (body : Except Error RenewTokenHandlerRequest) (auth : String)
    (rb : CreateSessionHandlerResponse) (st : Nat)
    (h : RenewTokenHandler lib a now rd body = .jsonapiSuccessMetaOnly auth rb st) :
    ∃ (req : RenewTokenHandlerRequest) (user : User) (claims : StandardClaims)
        (accessClaims : customClaims),
      body = .ok req ∧
      ((∃ roles, a.extUsers.lookup req.UserID = some roles ∧ user.Username = req.UserID)
        ∨ (a.extUsers.lookup req.UserID = none ∧
            a.Users.GetUserByNameOrID req.UserID = .ok user)) ∧
      getClaimsFromRenewToken lib now req.RenewToken a.config.Secret a.config.VerifyKey
        = .ok claims ∧
      generateToken lib accessClaims a.config.Secret a.config.SignKey = .ok rb.AccessToken ∧
      accessClaims.Subject = user.Username ∧ accessClaims.Azt = claims.Issuer := by
  obtain ⟨req, user, claims, hbody, huser, hclaims, hg, _⟩ :=
    RenewTokenHandler_success lib a now rd body auth rb st h
  refine ⟨req, user, claims, _, hbody, ?_, hclaims, hg, rfl, rfl⟩
  rcases huser with ⟨roles, hlookup, hu⟩ | hrepo
  · exact Or.inl ⟨roles, hlookup, by rw [hu]⟩
  · exact Or.inr hrepo

/-- C27, evaluated: `alice` renews with her own renew token and gets an access token whose
claims carry her name. -/
theorem RenewTokenHandler_subject_witness :
    ∃ (req : RenewTokenHandlerRequest) (user : User) (claims : StandardClaims)
        (accessClaims : customClaims),
      (.ok ⟨"alice", "RS256.alice.rsasig"⟩ : Except Error RenewTokenHandlerRequest)
        = .ok req ∧
      ((∃ roles, demoApp.extUsers.lookup req.UserID = some roles
          ∧ user.Username = req.UserID)
        ∨ (demoApp.extUsers.lookup req.UserID = none ∧
            demoApp.Users.GetUserByNameOrID req.UserID = .ok user)) ∧
      getClaimsFromRenewToken (demoLibFor demoAliceClaims) demoNow req.RenewToken
        demoApp.config.Secret demoApp.config.VerifyKey = .ok claims ∧
      generateToken (demoLibFor demoAliceClaims) accessClaims demoApp.config.Secret
        demoApp.config.SignKey = .ok "RS256.alice.rsasig" ∧
      accessClaims.Subject = user.Username ∧ accessClaims.Azt = claims.Issuer :=
  RenewTokenHandler_subject (demoLibFor demoAliceClaims) demoApp demoNow demoReads
    (.ok ⟨"alice", "RS256.alice.rsasig"⟩) "Bearer RS256.alice.rsasig"
    ⟨"RS256.alice.rsasig", "RS256.alice.rsasig"⟩ 200 (by rfl)

/-- C27 as stated fails: the request names the user `bob` and presents the renew token of
`alice`, which verifies with subject `alice`; the handler answers 200 with an access token
signed from the claims of `bob`, whose subject is `bob`. -/
theorem RenewTokenHandler_subject_counterexample :
    RenewTokenHandler (demoLibFor demoAliceClaims) demoApp demoNow demoReads
        (.ok ⟨"bob", "RS256.alice.rsasig"⟩)
      = .jsonapiSuccessMetaOnly "Bearer RS256.bob.rsasig"
          ⟨"RS256.bob.rsasig", "RS256.alice.rsasig"⟩ 200
      ∧ getClaimsFromRenewToken (demoLibFor demoAliceClaims) demoNow "RS256.alice.rsasig"
          demoApp.config.Secret demoApp.config.VerifyKey
          = .ok demoAliceClaims.toStandardClaims
      ∧ demoAliceClaims.toStandardClaims.Subject = "alice"
      ∧ generateToken (demoLibFor demoAliceClaims)
          (newCustomClaims demoReads demoBob "idp" demoApp.config.RenewTokenExpireTime)
          demoApp.config.Secret demoApp.config.SignKey = .ok "RS256.bob.rsasig"
      ∧ (newCustomClaims demoReads demoBob "idp"
          demoApp.config.RenewTokenExpireTime).Subject = "bob"
      ∧ (newCustomClaims demoReads demoBob "idp"
          demoApp.config.RenewTokenExpireTime).Subject
        ≠ demoAliceClaims.toStandardClaims.Subject := by
  refine ⟨by rfl, by rfl, by rfl, by rfl, by rfl, by decide⟩

end Goidp
